import Mathlib

/-!
# Lumos editor overlay: gizmo synchronisation, scene tree, viewport size, 2D grid

A shallow embedding of `Lumos/src/Editor/Editor.cpp`.

* The `float` values of `Draw2DGrid` and `DrawSceneView` are binary32 values, embedded as
  the rationals they denote: every sum, difference, product, quotient and conversion is
  rounded to the nearest binary32 value by `round32` (ties to the even significand, each
  operation on its own). `floorf` is `Int.floor` and `fmodf` the truncated remainder, both
  exact on binary32 values.
* The matrices of the gizmo and the rectangles of the dock layout belong to libraries that
  are not part of the sources; they are modelled over the rationals.
* `unsigned int` values are naturals reduced modulo `2 ^ 32`.
* Answers of the immediate-mode GUI library (tree rows, drag and drop, the manipulation
  widget) are inputs of the embedded functions.
-/
namespace Lumos

/-! ## Maths types -/

/-- Modelled from the spec: the 4×4 matrix type `Maths::Matrix4` with its product
(`Maths/Matrix4.h` is not part of the sources). Entry `m i j` is row `i`, column `j`;
the translation is the last column. -/
abbrev Matrix4 := Matrix (Fin 4) (Fin 4) ℚ

/-- Modelled from the spec: the 3×3 matrix type `Maths::Matrix3`, the rotation sub-block
of a `Matrix4`. -/
abbrev Matrix3 := Matrix (Fin 3) (Fin 3) ℚ

structure Vector2 where
  x : ℚ
  y : ℚ
deriving DecidableEq

structure Vector3 where
  x : ℚ
  y : ℚ
  z : ℚ
deriving DecidableEq

structure Quaternion where
  x : ℚ
  y : ℚ
  z : ℚ
  w : ℚ
deriving DecidableEq

namespace Vector3

def GetX (v : Vector3) : ℚ := v.x

def GetY (v : Vector3) : ℚ := v.y

end Vector3

namespace Matrix4

/-- Modelled from the spec: `Matrix4::GetPositionVector`, the translation part of the
matrix. -/
def GetPositionVector (m : Matrix4) : Vector3 := ⟨m 0 3, m 1 3, m 2 3⟩

/-- Modelled from the spec: `Matrix4::GetRotation`, the rotation sub-block of the
matrix. -/
def GetRotation (m : Matrix4) : Matrix3 := fun i j => m i.castSucc j.castSucc

end Matrix4

/-! ## Components of the selected entity -/

/-- The transform component's `Transform`: local matrix, world matrix and the world
matrix of the parent entity (the identity for an entity without a parent). -/
structure Transform where
  localMatrix : Matrix4
  worldMatrix : Matrix4
  parentMatrix : Matrix4

namespace Transform

def GetWorldMatrix (t : Transform) : Matrix4 := t.worldMatrix

def GetLocalMatrix (t : Transform) : Matrix4 := t.localMatrix

/-- Modelled from the spec: `Transform::SetLocalTransform` stores the new local
matrix. -/
def SetLocalTransform (t : Transform) (m : Matrix4) : Transform :=
  { t with localMatrix := m }

/-- Modelled from the spec: `Transform::ApplyTransform` propagates the local matrix: the
world matrix is derived from the local matrix and the ancestor chain, that is the parent's
world matrix times the local matrix. -/
def ApplyTransform (t : Transform) : Transform :=
  { t with worldMatrix := t.parentMatrix * t.localMatrix }

end Transform

/-- The body behind a `Physics2DComponent`. -/
structure PhysicsObject2D where
  position : Vector2
  angle : ℚ
deriving DecidableEq

/-- The body behind a `Physics3DComponent`. -/
structure PhysicsObject3D where
  position : Vector3
  orientation : Quaternion
deriving DecidableEq

namespace PhysicsObject2D

def SetPosition (b : PhysicsObject2D) (p : Vector2) : PhysicsObject2D :=
  { b with position := p }

end PhysicsObject2D

namespace PhysicsObject3D

def SetPosition (b : PhysicsObject3D) (p : Vector3) : PhysicsObject3D :=
  { b with position := p }

def SetOrientation (b : PhysicsObject3D) (q : Quaternion) : PhysicsObject3D :=
  { b with orientation := q }

end PhysicsObject3D

/-- The components of the selected entity that `OnImGuizmo` looks up with
`GetComponent<T>()`; `none` is the null pointer. -/
structure EntityComponents where
  transform : Option Transform
  physics2D : Option PhysicsObject2D
  physics3D : Option PhysicsObject3D

/-- What the manipulation widget answers in one frame: the delta matrix written by
`ImGuizmo::Manipulate` for the model matrix it is given, and `ImGuizmo::IsUsing()`. -/
structure GizmoFrame where
  Manipulate : Matrix4 → Matrix4
  IsUsing : Bool

/-- The function `Editor::OnImGuizmo` on the components of `m_Selected`. `ToQuaternion` is
`Matrix3::ToQuaternion` of the maths library. -/
def OnImGuizmo (ToQuaternion : Matrix3 → Quaternion) (gizmo : GizmoFrame)
    (selected : EntityComponents) : EntityComponents :=
  match selected.transform with
  | none => selected
  | some transform =>
    let model := transform.GetWorldMatrix
    let delta := gizmo.Manipulate model
    if gizmo.IsUsing then
      let mat := delta * transform.GetLocalMatrix
      let transform1 := (transform.SetLocalTransform mat).ApplyTransform
      match selected.physics2D with
      | some body2D =>
        { selected with
          transform := some transform1
          physics2D :=
            some (body2D.SetPosition
              ⟨(Matrix4.GetPositionVector mat).GetX, (Matrix4.GetPositionVector mat).GetY⟩) }
      | none =>
        match selected.physics3D with
        | some body3D =>
          { selected with
            transform := some transform1
            physics3D :=
              some ((body3D.SetPosition (Matrix4.GetPositionVector mat)).SetOrientation
                (ToQuaternion (Matrix4.GetRotation mat))) }
        | none => { selected with transform := some transform1 }
    else selected

/-- The end of `Editor::DrawSceneView`: `if (m_Selected) OnImGuizmo();` on the components
of the selected entity; `none` is the null selection. -/
def DrawSceneViewGizmo (ToQuaternion : Matrix3 → Quaternion) (gizmo : GizmoFrame)
    (m_Selected : Option EntityComponents) : Option EntityComponents :=
  match m_Selected with
  | some selected => some (OnImGuizmo ToQuaternion gizmo selected)
  | none => none

/-! ## Scene tree presenter -/

/-- An `Entity*` that is not null; `Option EntityId` is a pointer that may be null. -/
abbrev EntityId := Nat

/-- The part of the scene graph `DrawNode` reads: the children list and the display name
of every entity. -/
structure Scene where
  GetChildren : EntityId → List EntityId
  GetName : EntityId → String

namespace Scene

/-- Modelled from the spec: `Entity::AddChild`, the add-child operation of the node a
payload is dropped on; afterwards the dropped entity is in that node's children list. -/
def AddChild (s : Scene) (node child : EntityId) : Scene :=
  { s with
    GetChildren := fun e => if e = node then s.GetChildren e ++ [child] else s.GetChildren e }

end Scene

/-- The hierarchy filter, an `ImGuiTextFilter` of the GUI library. -/
structure ImGuiTextFilter where
  IsActive : Bool
  PassFilter : String → Bool

/-- A drag-and-drop payload: its size in bytes and the entity pointer read from its
data. -/
structure ImGuiPayload where
  DataSize : Nat
  Data : EntityId
deriving DecidableEq

/-- What the GUI library answers for one tree row: `TreeNodeEx`, `BeginDragDropSource`,
`BeginDragDropTarget`, `AcceptDragDropPayload("Drag_Entity")` and `IsItemClicked`. -/
structure TreeRowAnswer where
  nodeOpen : Bool
  dragSource : Bool
  dropTarget : Bool
  payload : Option ImGuiPayload
  clicked : Bool

/-- The tree node flags `DrawNode` uses, with their values in the GUI library's
`ImGuiTreeNodeFlags_` enumeration. -/
def ImGuiTreeNodeFlags_Selected : Nat := 1 <<< 0

def ImGuiTreeNodeFlags_OpenOnDoubleClick : Nat := 1 <<< 6

def ImGuiTreeNodeFlags_OpenOnArrow : Nat := 1 <<< 7

def ImGuiTreeNodeFlags_Leaf : Nat := 1 <<< 8

/-- The size `sizeof(Entity**)` the payload assertion compares with (64-bit build). -/
def sizeofEntityPtr : Nat := 8

/-- The calls a frame of `DrawNode` makes, in order. `DrawNode node` marks the entry into
`DrawNode` with a non-null node. -/
inductive GuiCall where
  | DrawNode (node : EntityId)
  | TreeNodeEx (node : EntityId) (nodeFlags : Nat) (nodeOpen : Bool)
  | SetDragDropPayload (node : EntityId)
  | AddChild (node entity : EntityId)
  | TreePop
deriving DecidableEq

/-- How a frame of `DrawNode` can stop without returning: the recursion budget of the
embedding is used up, or `LUMOS_ASSERT` on the payload size fails. -/
inductive Fault where
  | outOfFuel
  | assertFailed
deriving DecidableEq

/-- The state `DrawNode` works on: the scene graph, the editor's selection and filter,
the calls made so far and the number of tree rows emitted so far. -/
structure Frame where
  scene : Scene
  m_Selected : Option EntityId
  m_HierarchyFilter : ImGuiTextFilter
  calls : List GuiCall
  rows : Nat

namespace Frame

def call (f : Frame) (c : GuiCall) : Frame := { f with calls := f.calls ++ [c] }

end Frame

/-- The drop-target block of `DrawNode` (`BeginDragDropTarget` to `EndDragDropTarget`). -/
def DragDropTarget (answer : TreeRowAnswer) (node : EntityId) (f : Frame) :
    Except Fault Frame :=
  if answer.dropTarget then
    match answer.payload with
    | some payload =>
      if payload.DataSize = sizeofEntityPtr then
        let entity := payload.Data
        let f1 := { f.call (.AddChild node entity) with scene := f.scene.AddChild node entity }
        if f1.m_Selected = some entity then .ok { f1 with m_Selected := none } else .ok f1
      else .error .assertFailed
    | none => .ok f
  else .ok f

/-- The `if (show)` branch of `DrawNode` up to the test of `nodeOpen`: the tree row of
`node` with its drag source, drop target and click handling. The row is answered by
`gui` at the index of the row within the frame. -/
def DrawNodeRow (gui : Nat → TreeRowAnswer) (node : EntityId) (f : Frame) :
    Except Fault (Frame × Bool) :=
  let answer := gui f.rows
  let noChildren := (f.scene.GetChildren node).isEmpty
  let nodeFlags := (if f.m_Selected = some node then ImGuiTreeNodeFlags_Selected else 0)
  let nodeFlags :=
    nodeFlags ||| (ImGuiTreeNodeFlags_OpenOnArrow ||| ImGuiTreeNodeFlags_OpenOnDoubleClick)
  let nodeFlags := if noChildren then nodeFlags ||| ImGuiTreeNodeFlags_Leaf else nodeFlags
  let nodeOpen := answer.nodeOpen
  let f1 := { f.call (.TreeNodeEx node nodeFlags nodeOpen) with rows := f.rows + 1 }
  let f2 := if answer.dragSource then f1.call (.SetDragDropPayload node) else f1
  match DragDropTarget answer node f2 with
  | .error e => .error e
  | .ok f3 =>
    let f4 := if answer.clicked then { f3 with m_Selected := some node } else f3
    .ok (f4, nodeOpen)

/-- The loop `for (auto child : node->GetChildren()) DrawNode(child)` over the children
list as it is when the loop starts. -/
def forChildren (body : EntityId → Frame → Except Fault Frame) :
    List EntityId → Frame → Except Fault Frame
  | [], f => .ok f
  | child :: rest, f =>
    match body child f with
    | .error e => .error e
    | .ok f1 => forChildren body rest f1

/-- The function `Editor::DrawNode`. The first argument bounds the depth of the
recursion. -/
def DrawNode (gui : Nat → TreeRowAnswer) : Nat → Option EntityId → Frame → Except Fault Frame
  | _, none, f => .ok f
  | 0, some _, _ => .error .outOfFuel
  | fuel + 1, some node, f =>
    let f0 := f.call (.DrawNode node)
    let show_ :=
      if f0.m_HierarchyFilter.IsActive then
        if !f0.m_HierarchyFilter.PassFilter (f0.scene.GetName node) then false else true
      else true
    if show_ then
      match DrawNodeRow gui node f0 with
      | .error e => .error e
      | .ok (f1, nodeOpen) =>
        if nodeOpen = false then .ok f1
        else
          match forChildren (fun child acc => DrawNode gui fuel (some child) acc)
              (f1.scene.GetChildren node) f1 with
          | .error e => .error e
          | .ok f2 => .ok (f2.call .TreePop)
    else
      forChildren (fun child acc => DrawNode gui fuel (some child) acc)
        (f0.scene.GetChildren node) f0

/-- The node fails the hierarchy filter of the frame: the filter is active and does not
let the name of the node pass. `DrawNode` draws no row for such a node. -/
def Frame.fails (f : Frame) (node : EntityId) : Prop :=
  f.m_HierarchyFilter.IsActive = true ∧
    f.m_HierarchyFilter.PassFilter (f.scene.GetName node) = false

instance (f : Frame) (node : EntityId) : Decidable (f.fails node) :=
  inferInstanceAs (Decidable (_ ∧ _))

/-- The relation `Frame.Extends f w g`: `g` is reached from `f` by making the calls `w`;
the filter and the names are the same, the children of the nodes that fail the filter are
the same, and no row in `w` belongs to a node that fails the filter. -/
structure Frame.Extends (f : Frame) (w : List GuiCall) (g : Frame) : Prop where
  calls : g.calls = f.calls ++ w
  filter : g.m_HierarchyFilter = f.m_HierarchyFilter
  names : g.scene.GetName = f.scene.GetName
  children : ∀ node, f.fails node → g.scene.GetChildren node = f.scene.GetChildren node
  rows : ∀ node nodeFlags nodeOpen, GuiCall.TreeNodeEx node nodeFlags nodeOpen ∈ w →
    ¬ f.fails node

/-- The relation `Frame.Grows gui f w g`: `g` is reached from `f` by making the calls `w`
with the rows answered by `gui`. The filter and the names are the same, the row count does
not decrease, every child stays a child, no row in `w` belongs to a node that fails the
filter, and the selection changes only through the rows drawn in between: it stays empty
when none of them is clicked, stays set when none of them accepts a payload, and stays the
same when neither happens. -/
structure Frame.Grows (gui : Nat → TreeRowAnswer) (f : Frame) (w : List GuiCall) (g : Frame) :
    Prop where
  calls : g.calls = f.calls ++ w
  filter : g.m_HierarchyFilter = f.m_HierarchyFilter
  names : g.scene.GetName = f.scene.GetName
  rows_le : f.rows ≤ g.rows
  children : ∀ node child, child ∈ f.scene.GetChildren node → child ∈ g.scene.GetChildren node
  rows : ∀ node nodeFlags nodeOpen, GuiCall.TreeNodeEx node nodeFlags nodeOpen ∈ w →
    ¬ f.fails node
  unclicked : (∀ i, f.rows ≤ i → i < g.rows → (gui i).clicked = false) →
    f.m_Selected = none → g.m_Selected = none
  undropped : (∀ i, f.rows ≤ i → i < g.rows → (gui i).payload = none) →
    f.m_Selected ≠ none → g.m_Selected ≠ none
  untouched : (∀ i, f.rows ≤ i → i < g.rows →
      (gui i).clicked = false ∧ (gui i).payload = none) →
    g.m_Selected = f.m_Selected

/-- The relation `OpenChain f w node z`: `z` is `node` or a descendant of `node` in the
scene of `f`, and none of its ancestors from `node` on is drawn as a closed row among the
calls `w`. -/
inductive OpenChain (f : Frame) (w : List GuiCall) : EntityId → EntityId → Prop where
  | refl (node : EntityId) : OpenChain f w node node
  | step {node child z : EntityId} :
      (∀ nodeFlags, GuiCall.TreeNodeEx node nodeFlags false ∉ w) →
      child ∈ f.scene.GetChildren node → OpenChain f w child z → OpenChain f w node z

namespace GuiCall

/-- The call is a tree row that the GUI library reports open: `TreeNodeEx` returned
`true` and pushed the row on the tree stack. -/
def isOpenRow : GuiCall → Bool
  | .TreeNodeEx _ _ true => true
  | _ => false

def isTreePop : GuiCall → Bool
  | .TreePop => true
  | _ => false

/-- The call belongs to the drag and drop handling of a row. -/
def isDragDrop : GuiCall → Bool
  | .SetDragDropPayload _ => true
  | .AddChild _ _ => true
  | _ => false

end GuiCall

/-- The tree stack of the GUI library after the calls `w`, started on the stack `s`: a row
reported open pushes its node, `TreePop` pops the most recent row that is not popped yet.
The result is `none` when `TreePop` is called on the empty stack. -/
def treeStack : List GuiCall → List EntityId → Option (List EntityId)
  | [], s => some s
  | c :: w, s =>
    match c, s with
    | .TreeNodeEx node _ true, s => treeStack w (node :: s)
    | .TreePop, [] => none
    | .TreePop, _ :: s => treeStack w s
    | _, s => treeStack w s

/-- The calls `w` leave every tree stack as they found it, and hold as many `TreePop`
calls as rows reported open. -/
def Balanced (w : List GuiCall) : Prop :=
  (∀ s, treeStack w s = some s) ∧ w.countP GuiCall.isTreePop = w.countP GuiCall.isOpenRow

/-! ## Binary32 arithmetic -/

/-- Rounding of a rational to a whole number, to the nearest one and to the even one on a
tie: the rounding of a significand in the default rounding mode of IEEE 754. -/
def roundHalfEven (t : ℚ) : ℤ :=
  if t - ⌊t⌋ < 1 / 2 then ⌊t⌋
  else if 1 / 2 < t - ⌊t⌋ then ⌊t⌋ + 1
  else if ⌊t⌋ % 2 = 0 then ⌊t⌋ else ⌊t⌋ + 1

/-- The exponent of the unit in the last place of the binary32 values next to `q`: 23 below
the binary exponent of `q` (a significand of 24 bits), and `-149` for the subnormal
values. -/
def quantumExp (q : ℚ) : ℤ := max (Int.log 2 |q| - 23) (-149)

/-- The binary32 value nearest to `q`, the even significand on a tie: the result of a
binary32 operation whose exact result is `q`. The exponent is not bounded above; the
embedded functions accept only inputs for which no operation overflows. -/
def round32 (q : ℚ) : ℚ := (roundHalfEven (q / 2 ^ quantumExp q) : ℚ) * 2 ^ quantumExp q

/-- The rational `q` is a binary32 value: a whole significand below `2 ^ 24` in magnitude
times a power of two that is not below `2 ^ (-149)`. -/
def IsFloat (q : ℚ) : Prop := ∃ m k : ℤ, |m| < 2 ^ 24 ∧ -149 ≤ k ∧ q = m * 2 ^ k

/-! ## Scene view size -/

/-- The number of values of `unsigned int`. -/
def UINT_RANGE : Nat := 2 ^ 32

/-- The statement `width -= (width % 2 != 0) ? 1 : 0;` on an `unsigned int`. -/
def makePixelPerfect (width : Nat) : Nat :=
  (width + UINT_RANGE - (if width % 2 ≠ 0 then 1 else 0)) % UINT_RANGE

/-- The sizes `DrawSceneView` hands on: to `ImGuizmo::SetRect` and to `ImGui::Image`. -/
structure SceneViewRect where
  SetRectWidth : ℚ
  SetRectHeight : ℚ
  ImageWidth : ℚ
  ImageHeight : ℚ
deriving DecidableEq

/-- The size computation of `Editor::DrawSceneView` from the raw `unsigned int` width and
height of the window content region; `static_cast<float>` rounds to binary32. -/
def DrawSceneView (width height : Nat) : SceneViewRect :=
  let width := makePixelPerfect width
  let height := makePixelPerfect height
  { SetRectWidth := round32 (width : ℚ), SetRectHeight := round32 (height : ℚ),
    ImageWidth := round32 (width : ℚ), ImageHeight := round32 (height : ℚ) }

/-! ## 2D grid -/

structure ImVec2 where
  x : ℚ
  y : ℚ
deriving DecidableEq

/-- The C function `floorf`; the result is a whole number. -/
def floorf (a : ℚ) : ℤ := ⌊a⌋

/-- Rounding toward zero. -/
def truncf (a : ℚ) : ℤ := if 0 ≤ a then ⌊a⌋ else ⌈a⌉

/-- The C function `fmodf`: `a - n * b` with `n` the quotient `a / b` rounded toward
zero. The result of `fmodf` is exact, it is not rounded. -/
def fmodf (a b : ℚ) : ℚ := a - (truncf (a / b) : ℚ) * b

/-- The operator `+` on `ImVec2` defined in `Editor.cpp`: two binary32 additions. -/
instance : Add ImVec2 := ⟨fun a b => ⟨round32 (a.x + b.x), round32 (a.y + b.y)⟩⟩

/-- The operator `-` on `ImVec2` defined in `Editor.cpp`. -/
instance : Sub ImVec2 := ⟨fun a b => ⟨round32 (a.x - b.x), round32 (a.y - b.y)⟩⟩

def graduation : ImVec2 := ⟨10, 10⟩

/-- The values `i` of the loop `for (int i = 1; i < g; ++i)`. -/
def graduationSteps (g : ℚ) : List Nat := (List.range ⌈g⌉₊).drop 1

/-- One iteration of a line loop of `Draw2DGrid` at loop variable `x`: the floored
position of the major line and the floored positions of the minor graduation lines.
`offset` is the component of the grid offset on the axis, `g` the component of
`graduation`. Every sum, product and quotient is rounded to binary32. -/
def gridStep (GRID_SZ offset g x : ℚ) : ℤ × List ℤ :=
  let localX := floorf (round32 (x + fmodf offset GRID_SZ))
  let smallGraduation := round32 (GRID_SZ / g)
  (localX,
    (graduationSteps g).map fun (i : ℕ) =>
      floorf (round32 ((localX : ℚ) + round32 (smallGraduation * (i : ℚ)))))

/-- The loop `for (float x = -GRID_SZ; x < size + GRID_SZ; x += GRID_SZ)` from the value
`x` of the loop variable on: the iterations in order, or `none` when the budget of
iterations is used up before the loop condition fails. -/
def gridLoop (GRID_SZ offset g size : ℚ) : Nat → ℚ → Option (List (ℤ × List ℤ))
  | 0, _ => none
  | fuel + 1, x =>
    if x < round32 (size + GRID_SZ) then
      (gridLoop GRID_SZ offset g size fuel (round32 (x + GRID_SZ))).map
        fun rest => gridStep GRID_SZ offset g x :: rest
    else some []

/-- The grid offset of `Draw2DGrid`. -/
def gridOffset (cameraPos canvasSize : ImVec2) (factor : ℚ) : ImVec2 :=
  ⟨round32 (round32 (canvasSize.x / 2) - round32 (round32 (cameraPos.x * 300) / factor)),
    round32 (round32 (canvasSize.y / 2) + round32 (round32 (cameraPos.y * 300) / factor))⟩

/-- A binary32 value of magnitude at most `2 ^ 40`. -/
def inRange (q : ℚ) : Prop := round32 q = q ∧ |q| ≤ 2 ^ 40

instance (q : ℚ) : Decidable (inRange q) := inferInstanceAs (Decidable (_ ∧ _))

/-- The inputs of `Draw2DGrid` the embedding covers: binary32 values of magnitude at most
`2 ^ 40`, with a factor of magnitude at least `2 ^ (-40)`. For these inputs no operation
of the function divides by zero or overflows, so every value is a finite binary32 number.
-/
def GridInputs (cameraPos canvasSize : ImVec2) (factor : ℚ) : Prop :=
  inRange cameraPos.x ∧ inRange cameraPos.y ∧ inRange canvasSize.x ∧ inRange canvasSize.y ∧
    inRange factor ∧ 1 / 2 ^ 40 ≤ |factor|

instance (cameraPos canvasSize : ImVec2) (factor : ℚ) :
    Decidable (GridInputs cameraPos canvasSize factor) :=
  inferInstanceAs (Decidable (_ ∧ _))

/-- How the embedded `Draw2DGrid` can stop without a result: the budget of iterations is
used up, or the inputs are outside `GridInputs`. -/
inductive GridStop where
  | outOfFuel
  | outOfRange
deriving DecidableEq

/-- The iterations of the first loop of `Draw2DGrid` (vertical lines, along x). -/
def gridColumns (fuel : Nat) (cameraPos canvasSize : ImVec2) (factor : ℚ) :
    Except GridStop (List (ℤ × List ℤ)) :=
  if GridInputs cameraPos canvasSize factor then
    let GRID_SZ := round32 (64 / factor)
    match gridLoop GRID_SZ (gridOffset cameraPos canvasSize factor).x graduation.x canvasSize.x
        fuel (-GRID_SZ) with
    | some its => .ok its
    | none => .error .outOfFuel
  else .error .outOfRange

/-- The iterations of the second loop of `Draw2DGrid` (horizontal lines, along y). -/
def gridRows (fuel : Nat) (cameraPos canvasSize : ImVec2) (factor : ℚ) :
    Except GridStop (List (ℤ × List ℤ)) :=
  if GridInputs cameraPos canvasSize factor then
    let GRID_SZ := round32 (64 / factor)
    match gridLoop GRID_SZ (gridOffset cameraPos canvasSize factor).y graduation.y canvasSize.y
        fuel (-GRID_SZ) with
    | some its => .ok its
    | none => .error .outOfFuel
  else .error .outOfRange

/-- The positions of the major lines of the first loop, relative to the canvas. -/
def majorColumns (fuel : Nat) (cameraPos canvasSize : ImVec2) (factor : ℚ) :
    Except GridStop (List ℤ) :=
  (gridColumns fuel cameraPos canvasSize factor).map fun its => its.map Prod.fst

/-- The positions of the major lines of the second loop, relative to the canvas. -/
def majorRows (fuel : Nat) (cameraPos canvasSize : ImVec2) (factor : ℚ) :
    Except GridStop (List ℤ) :=
  (gridRows fuel cameraPos canvasSize factor).map fun its => its.map Prod.fst

/-! ## Dock layout builder -/

inductive ImGuiDir where
  | Left
  | Right
  | Up
  | Down
deriving DecidableEq

/-- A node of the dock tree of the GUI library: its id, its rectangle, the windows docked
into it, and whether it has been split into two child nodes. -/
structure DockNode where
  id : Nat
  pos : ImVec2
  size : ImVec2
  windows : List String
  isSplit : Bool
deriving DecidableEq

/-- The dock nodes of the dock space, in the order of their creation. -/
abbrev DockContext := List DockNode

/-- An id no node of the context has. -/
def DockContextGenNodeID (ctx : DockContext) : Nat := (ctx.map DockNode.id).foldr max 0 + 1

/-- The dock builder functions of the GUI library on the dock context: look up, remove,
add and resize a node by id. -/
def DockBuilderGetNode (ctx : DockContext) (node_id : Nat) : Option DockNode :=
  ctx.find? fun n => n.id = node_id

def DockBuilderRemoveNode (ctx : DockContext) (node_id : Nat) : DockContext :=
  ctx.filter fun n => n.id ≠ node_id

def DockBuilderAddNode (ctx : DockContext) (node_id : Nat) : DockContext :=
  ctx ++ [⟨node_id, ⟨0, 0⟩, ⟨0, 0⟩, [], false⟩]

def DockBuilderSetNodeSize (ctx : DockContext) (node_id : Nat) (size : ImVec2) : DockContext :=
  ctx.map fun n => if n.id = node_id then { n with size := size } else n

/-- Modelled from the spec: the rectangles `DockBuilderSplitNode` gives the two child
nodes, first the node in direction `dir`, which gets the fraction `ratio` of the size on
the split axis, then the node on the opposite side, which gets the rest. The thickness of
the splitter and the rounding to whole pixels are left out. -/
def splitRect (pos size : ImVec2) (dir : ImGuiDir) (ratio : ℚ) :
    (ImVec2 × ImVec2) × (ImVec2 × ImVec2) :=
  match dir with
  | .Left =>
    ((pos, ⟨size.x * ratio, size.y⟩),
      (⟨pos.x + size.x * ratio, pos.y⟩, ⟨size.x * (1 - ratio), size.y⟩))
  | .Right =>
    ((⟨pos.x + size.x * (1 - ratio), pos.y⟩, ⟨size.x * ratio, size.y⟩),
      (pos, ⟨size.x * (1 - ratio), size.y⟩))
  | .Up =>
    ((pos, ⟨size.x, size.y * ratio⟩),
      (⟨pos.x, pos.y + size.y * ratio⟩, ⟨size.x, size.y * (1 - ratio)⟩))
  | .Down =>
    ((⟨pos.x, pos.y + size.y * (1 - ratio)⟩, ⟨size.x, size.y * ratio⟩),
      (pos, ⟨size.x, size.y * (1 - ratio)⟩))

/-- Modelled from the spec: `DockBuilderSplitNode(node_id, split_dir, ratio, out_id_at_dir,
out_id_at_opposite_dir)`. The node is split into two new child nodes; the result is the id
of the child in direction `split_dir`, the id of the child on the opposite side, and the
new context. For an id without a node both ids are `0` and nothing changes. -/
def DockBuilderSplitNode (ctx : DockContext) (node_id : Nat) (split_dir : ImGuiDir)
    (size_ratio_for_node_at_dir : ℚ) : Nat × Nat × DockContext :=
  match DockBuilderGetNode ctx node_id with
  | none => (0, 0, ctx)
  | some node =>
    let rects := splitRect node.pos node.size split_dir size_ratio_for_node_at_dir
    let id_at_dir := DockContextGenNodeID ctx
    let id_at_opposite_dir := id_at_dir + 1
    (id_at_dir, id_at_opposite_dir,
      (ctx.map fun n => if n.id = node_id then { n with isSplit := true } else n) ++
        [⟨id_at_dir, rects.1.1, rects.1.2, [], false⟩,
          ⟨id_at_opposite_dir, rects.2.1, rects.2.2, [], false⟩])

/-- The dock builder function that docks the window `window_name` into the node
`node_id`, behind the windows docked there before. -/
def DockBuilderDockWindow (ctx : DockContext) (window_name : String) (node_id : Nat) :
    DockContext :=
  ctx.map fun n => if n.id = node_id then { n with windows := n.windows ++ [window_name] } else n

def DockBuilderFinish (ctx : DockContext) (_node_id : Nat) : DockContext := ctx

/-- The layout construction of `Editor::BeginDockSpace` (from the `DockBuilderGetNode`
test to `DockBuilderFinish`). `dockspace_id` is `ImGui::GetID("MyDockspace")`,
`DisplaySize` is `ImGui::GetIO().DisplaySize`; the icon glyph in front of a window title
is left out of the window names. -/
def BeginDockSpace (dockspace_id : Nat) (DisplaySize : ImVec2) (ctx : DockContext) :
    DockContext :=
  if DockBuilderGetNode ctx dockspace_id = none then
    let ctx := DockBuilderRemoveNode ctx dockspace_id
    let ctx := DockBuilderAddNode ctx dockspace_id
    let ctx := DockBuilderSetNodeSize ctx dockspace_id DisplaySize
    let dock_main_id := dockspace_id
    let (dock_id_bottom, dock_main_id, ctx) := DockBuilderSplitNode ctx dock_main_id .Down (2 / 10)
    let (dock_id_left, dock_main_id, ctx) := DockBuilderSplitNode ctx dock_main_id .Left (2 / 10)
    let (dock_id_right, dock_main_id, ctx) := DockBuilderSplitNode ctx dock_main_id .Right (3 / 10)
    let (dock_id_middle, _, ctx) := DockBuilderSplitNode ctx dock_main_id .Right (8 / 10)
    let ctx := DockBuilderDockWindow ctx " Scene###scene" dock_id_middle
    let ctx := DockBuilderDockWindow ctx " Inspector###inspector" dock_id_right
    let ctx := DockBuilderDockWindow ctx " Hierarchy###hierarchy" dock_id_left
    let ctx := DockBuilderDockWindow ctx " Console###console" dock_id_bottom
    let ctx := DockBuilderDockWindow ctx " Profiler###profiler" dock_id_bottom
    let ctx := DockBuilderDockWindow ctx "Dear ImGui Demo" dock_id_left
    let ctx := DockBuilderDockWindow ctx "GraphicsInfo" dock_id_left
    DockBuilderFinish ctx dockspace_id
  else ctx

/-- The leaf nodes of the dock tree: the nodes that fill the dock space on screen. -/
def dockLeaves (ctx : DockContext) : List DockNode := ctx.filter fun n => !n.isSplit

/-! ## Sample inputs -/

/-- Modelled from the spec: `Matrix4::Translation`, the matrix that translates by
`(x, y, z)`. -/
def Matrix4.Translation (x y z : ℚ) : Matrix4 :=
  !![1, 0, 0, x; 0, 1, 0, y; 0, 0, 1, z; 0, 0, 0, 1]

/-- A stand-in for `Matrix3::ToQuaternion` in the sample frames. -/
def sampleToQuaternion : Matrix3 → Quaternion := fun _ => ⟨0, 0, 0, 1⟩

/-- A frame in which the widget is in use and returns the translation by `(1, 2, 3)`. -/
def sampleGizmo : GizmoFrame := ⟨fun _ => Matrix4.Translation 1 2 3, true⟩

/-- A frame in which the widget is in use and returns the identity. -/
def identityGizmo : GizmoFrame := ⟨fun _ => 1, true⟩

/-- A frame in which the widget is not in use; the delta it returns is the translation by
`(1, 2, 3)`. -/
def idleGizmo : GizmoFrame := ⟨fun _ => Matrix4.Translation 1 2 3, false⟩

/-- A transform at `(5, 7, 0)` of an entity without a parent. -/
def sampleTransform : Transform :=
  ⟨Matrix4.Translation 5 7 0, Matrix4.Translation 5 7 0, 1⟩

/-- A transform with the identity as local matrix under a parent at `(5, 7, 0)`. -/
def childTransform : Transform :=
  ⟨1, Matrix4.Translation 5 7 0, Matrix4.Translation 5 7 0⟩

def sampleBody2D : PhysicsObject2D := ⟨⟨5, 7⟩, 1⟩

def sampleBody3D : PhysicsObject3D := ⟨⟨5, 7, 0⟩, ⟨0, 0, 0, 1⟩⟩

/-- A scene with root `0`, its child `1` and grandchild `2`; entity `0` is named
`hidden`, the others `shown`. -/
def sampleScene : Scene :=
  { GetChildren := fun e => if e = 0 then [1] else if e = 1 then [2] else []
    GetName := fun e => if e = 0 then "hidden" else "shown" }

/-- The height of the entities of `sampleScene`. -/
def sampleRank : EntityId → Nat := fun e => 2 - e

/-- An active filter that lets only the name `shown` pass. -/
def sampleFilter : ImGuiTextFilter := ⟨true, fun name => name == "shown"⟩

/-- The start of a frame on `sampleScene` with entity `1` selected. -/
def sampleFrame : Frame :=
  { scene := sampleScene, m_Selected := some 1, m_HierarchyFilter := sampleFilter,
    calls := [], rows := 0 }

/-- Every row is closed and nothing is dragged, dropped or clicked. -/
def closedRows : Nat → TreeRowAnswer := fun _ => ⟨false, false, false, none, false⟩

/-- Every row is open and nothing is dragged, dropped or clicked. -/
def openRows : Nat → TreeRowAnswer := fun _ => ⟨true, false, false, none, false⟩

/-- A scene with root `0`, its child `1` and grandchild `2`; entity `1` is named
`hidden`, the others `shown`. -/
def mixedScene : Scene :=
  { GetChildren := fun e => if e = 0 then [1] else if e = 1 then [2] else []
    GetName := fun e => if e = 1 then "hidden" else "shown" }

/-- The start of a frame on `mixedScene` with nothing selected. -/
def mixedFrame : Frame :=
  { scene := mixedScene, m_Selected := none, m_HierarchyFilter := sampleFilter,
    calls := [], rows := 0 }

/-- C1: on a frame where the manipulation widget is in use, the matrix written as the new
local transform of a selected entity with a transform component is the product `D * L` of
the returned delta `D` and the old local matrix `L`; when `D` is the identity the new
local matrix is `L`. -/
theorem OnImGuizmo_local_eq_delta_mul_local (ToQuaternion : Matrix3 → Quaternion)
    (gizmo : GizmoFrame) (selected : EntityComponents) (t : Transform)
    (ht : selected.transform = some t) (hu : gizmo.IsUsing = true) :
    ((OnImGuizmo ToQuaternion gizmo selected).transform.map Transform.GetLocalMatrix
        = some (gizmo.Manipulate t.worldMatrix * t.localMatrix)) ∧
      (gizmo.Manipulate t.worldMatrix = 1 →
        (OnImGuizmo ToQuaternion gizmo selected).transform.map Transform.GetLocalMatrix
          = some t.localMatrix) := by
  have key : (OnImGuizmo ToQuaternion gizmo selected).transform.map Transform.GetLocalMatrix
      = some (gizmo.Manipulate t.worldMatrix * t.localMatrix) := by
    unfold OnImGuizmo
    rw [ht]
    simp only [hu, if_true]
    cases h2 : selected.physics2D with
    | some b2 => rfl
    | none =>
      cases h3 : selected.physics3D with
      | some b3 => rfl
      | none => rfl
  refine ⟨key, fun hD => ?_⟩
  rw [key, hD, one_mul]

/-- Witness for C1: a root entity at `(5, 7, 0)` manipulated with the identity delta. -/
theorem OnImGuizmo_local_eq_delta_mul_local_witness :
    (((⟨some sampleTransform, none, none⟩ : EntityComponents).transform = some sampleTransform) ∧
      identityGizmo.IsUsing = true ∧ identityGizmo.Manipulate sampleTransform.worldMatrix = 1) ∧
    ((OnImGuizmo sampleToQuaternion identityGizmo ⟨some sampleTransform, none, none⟩).transform.map
        Transform.GetLocalMatrix
        = some (identityGizmo.Manipulate sampleTransform.worldMatrix *
            sampleTransform.localMatrix)) ∧
    ((OnImGuizmo sampleToQuaternion identityGizmo ⟨some sampleTransform, none, none⟩).transform.map
        Transform.GetLocalMatrix = some sampleTransform.localMatrix) :=
  ⟨⟨rfl, rfl, rfl⟩,
    (OnImGuizmo_local_eq_delta_mul_local sampleToQuaternion identityGizmo
      ⟨some sampleTransform, none, none⟩ sampleTransform rfl rfl).1,
    (OnImGuizmo_local_eq_delta_mul_local sampleToQuaternion identityGizmo
      ⟨some sampleTransform, none, none⟩ sampleTransform rfl rfl).2 rfl⟩

/-- C2: on a frame where the gizmo is in use, a selected entity that owns both a 2D and a
3D physics body has only the position of its 2D body written; the 3D body keeps its
position and its orientation. -/
theorem OnImGuizmo_both_bodies_only_2D_written (ToQuaternion : Matrix3 → Quaternion)
    (gizmo : GizmoFrame) (selected : EntityComponents) (t : Transform)
    (body2D : PhysicsObject2D) (body3D : PhysicsObject3D)
    (ht : selected.transform = some t) (h2 : selected.physics2D = some body2D)
    (h3 : selected.physics3D = some body3D) (hu : gizmo.IsUsing = true) :
    (OnImGuizmo ToQuaternion gizmo selected).physics3D = some body3D ∧
      (OnImGuizmo ToQuaternion gizmo selected).physics2D
        = some
            { position :=
                ⟨(gizmo.Manipulate t.worldMatrix * t.localMatrix) 0 3,
                  (gizmo.Manipulate t.worldMatrix * t.localMatrix) 1 3⟩
              angle := body2D.angle } := by
  unfold OnImGuizmo
  rw [ht]
  simp only [hu, if_true, h2]
  exact ⟨h3, rfl⟩

/-- Witness for C2: an entity with both bodies moved by the translation `(1, 2, 3)`. -/
theorem OnImGuizmo_both_bodies_only_2D_written_witness :
    (OnImGuizmo sampleToQuaternion sampleGizmo
        ⟨some sampleTransform, some sampleBody2D, some sampleBody3D⟩).physics3D
        = some sampleBody3D ∧
      (OnImGuizmo sampleToQuaternion sampleGizmo
        ⟨some sampleTransform, some sampleBody2D, some sampleBody3D⟩).physics2D
        = some
            { position :=
                ⟨(sampleGizmo.Manipulate sampleTransform.worldMatrix *
                    sampleTransform.localMatrix) 0 3,
                  (sampleGizmo.Manipulate sampleTransform.worldMatrix *
                    sampleTransform.localMatrix) 1 3⟩
              angle := sampleBody2D.angle } :=
  OnImGuizmo_both_bodies_only_2D_written sampleToQuaternion sampleGizmo
    ⟨some sampleTransform, some sampleBody2D, some sampleBody3D⟩ sampleTransform sampleBody2D
    sampleBody3D rfl rfl rfl rfl

/-- Counterexample for C3: an entity with the identity as local matrix under a parent at
`(5, 7, 0)`, manipulated with the identity delta. Its new world matrix translates by
`(5, 7)`, the position written to its 2D body is `(0, 0)`. -/
theorem OnImGuizmo_body2D_position_not_world :
    (OnImGuizmo sampleToQuaternion identityGizmo
        ⟨some childTransform, some sampleBody2D, none⟩).physics2D.map PhysicsObject2D.position
        = some ⟨0, 0⟩ ∧
      (OnImGuizmo sampleToQuaternion identityGizmo
        ⟨some childTransform, some sampleBody2D, none⟩).transform.map
          (fun t => (⟨(Matrix4.GetPositionVector t.worldMatrix).GetX,
            (Matrix4.GetPositionVector t.worldMatrix).GetY⟩ : Vector2))
        = some ⟨5, 7⟩ ∧
      (⟨0, 0⟩ : Vector2) ≠ ⟨5, 7⟩ := by
  refine ⟨?_, ?_, by decide⟩
  · simp [OnImGuizmo, identityGizmo, childTransform, sampleBody2D, PhysicsObject2D.SetPosition,
      Transform.GetLocalMatrix, Transform.GetWorldMatrix, Matrix4.GetPositionVector,
      Vector3.GetX, Vector3.GetY]
  · simp [OnImGuizmo, identityGizmo, childTransform, sampleBody2D, PhysicsObject2D.SetPosition,
      Transform.GetLocalMatrix, Transform.GetWorldMatrix, Matrix4.GetPositionVector,
      Vector3.GetX, Vector3.GetY, Transform.SetLocalTransform, Transform.ApplyTransform,
      Matrix4.Translation]

/-- C3, amended: when the gizmo is in use and the selected entity owns a 2D physics body,
the position written to the body is the X/Y translation of the new local matrix `D * L`;
it is the X/Y translation of the new world matrix when the parent's world matrix is the
identity. -/
theorem OnImGuizmo_body2D_position_local (ToQuaternion : Matrix3 → Quaternion)
    (gizmo : GizmoFrame) (selected : EntityComponents) (t : Transform)
    (body2D : PhysicsObject2D)
    (ht : selected.transform = some t) (h2 : selected.physics2D = some body2D)
    (hu : gizmo.IsUsing = true) :
    (OnImGuizmo ToQuaternion gizmo selected).physics2D.map PhysicsObject2D.position
        = some ⟨(gizmo.Manipulate t.worldMatrix * t.localMatrix) 0 3,
            (gizmo.Manipulate t.worldMatrix * t.localMatrix) 1 3⟩ ∧
      (OnImGuizmo ToQuaternion gizmo selected).transform.map Transform.GetLocalMatrix
        = some (gizmo.Manipulate t.worldMatrix * t.localMatrix) ∧
      (t.parentMatrix = 1 →
        (OnImGuizmo ToQuaternion gizmo selected).transform.map
            (fun t1 => (⟨(Matrix4.GetPositionVector t1.worldMatrix).GetX,
              (Matrix4.GetPositionVector t1.worldMatrix).GetY⟩ : Vector2))
          = (OnImGuizmo ToQuaternion gizmo selected).physics2D.map PhysicsObject2D.position) := by
  unfold OnImGuizmo
  rw [ht]
  simp only [hu, if_true, h2]
  refine ⟨rfl, rfl, fun hp => ?_⟩
  simp [Transform.ApplyTransform, Transform.SetLocalTransform, hp, PhysicsObject2D.SetPosition,
    Transform.GetLocalMatrix, Transform.GetWorldMatrix]

/-- Witness for C3, amended: a root entity with a 2D body moved by the translation
`(1, 2, 3)`. -/
theorem OnImGuizmo_body2D_position_local_witness :
    (OnImGuizmo sampleToQuaternion sampleGizmo
        ⟨some sampleTransform, some sampleBody2D, none⟩).physics2D.map PhysicsObject2D.position
        = some ⟨(sampleGizmo.Manipulate sampleTransform.worldMatrix *
              sampleTransform.localMatrix) 0 3,
            (sampleGizmo.Manipulate sampleTransform.worldMatrix *
              sampleTransform.localMatrix) 1 3⟩ ∧
      (OnImGuizmo sampleToQuaternion sampleGizmo
        ⟨some sampleTransform, some sampleBody2D, none⟩).transform.map Transform.GetLocalMatrix
        = some (sampleGizmo.Manipulate sampleTransform.worldMatrix *
            sampleTransform.localMatrix) ∧
      (sampleTransform.parentMatrix = 1 →
        (OnImGuizmo sampleToQuaternion sampleGizmo
            ⟨some sampleTransform, some sampleBody2D, none⟩).transform.map
            (fun t1 => (⟨(Matrix4.GetPositionVector t1.worldMatrix).GetX,
              (Matrix4.GetPositionVector t1.worldMatrix).GetY⟩ : Vector2))
          = (OnImGuizmo sampleToQuaternion sampleGizmo
            ⟨some sampleTransform, some sampleBody2D, none⟩).physics2D.map
              PhysicsObject2D.position) :=
  OnImGuizmo_body2D_position_local sampleToQuaternion sampleGizmo
    ⟨some sampleTransform, some sampleBody2D, none⟩ sampleTransform sampleBody2D rfl rfl rfl

/-- C12: `OnImGuizmo` skips missing optional components without a fault (it returns on
every input): without a transform component nothing is written; with a transform but
neither a 2D nor a 3D physics body only the transform is written; on a frame where the
gizmo is not in use nothing is written; and `DrawSceneView` calls it only for a selection
that is not null. -/
theorem OnImGuizmo_missing_components (ToQuaternion : Matrix3 → Quaternion)
    (gizmo : GizmoFrame) (selected : EntityComponents) :
    (selected.transform = none → OnImGuizmo ToQuaternion gizmo selected = selected) ∧
      (∀ t, selected.transform = some t → selected.physics2D = none →
        selected.physics3D = none → gizmo.IsUsing = true →
        OnImGuizmo ToQuaternion gizmo selected =
          { transform :=
              some ((t.SetLocalTransform
                (gizmo.Manipulate t.worldMatrix * t.localMatrix)).ApplyTransform)
            physics2D := none
            physics3D := none }) ∧
      (gizmo.IsUsing = false → OnImGuizmo ToQuaternion gizmo selected = selected) ∧
      DrawSceneViewGizmo ToQuaternion gizmo none = none ∧
      DrawSceneViewGizmo ToQuaternion gizmo (some selected)
        = some (OnImGuizmo ToQuaternion gizmo selected) := by
  refine ⟨?_, ?_, ?_, rfl, rfl⟩
  · intro h
    unfold OnImGuizmo
    rw [h]
  · intro t ht h2 h3 hu
    unfold OnImGuizmo
    rw [ht]
    simp only [hu, if_true, h2, h3]
    cases selected
    simp_all [Transform.GetLocalMatrix, Transform.GetWorldMatrix]
  · intro hu
    unfold OnImGuizmo
    cases selected.transform with
    | none => rfl
    | some t => simp [hu]

/-- Witness for C12: an entity without a transform, an entity with only a transform on a
frame where the gizmo is in use, and an entity with all three components on a frame where
the gizmo is not in use. -/
theorem OnImGuizmo_missing_components_witness :
    (OnImGuizmo sampleToQuaternion sampleGizmo ⟨none, some sampleBody2D, some sampleBody3D⟩
        = ⟨none, some sampleBody2D, some sampleBody3D⟩) ∧
      (OnImGuizmo sampleToQuaternion sampleGizmo ⟨some sampleTransform, none, none⟩
        = { transform :=
              some ((sampleTransform.SetLocalTransform
                (sampleGizmo.Manipulate sampleTransform.worldMatrix *
                  sampleTransform.localMatrix)).ApplyTransform)
            physics2D := none
            physics3D := none }) ∧
      (OnImGuizmo sampleToQuaternion idleGizmo
          ⟨some sampleTransform, some sampleBody2D, some sampleBody3D⟩
        = ⟨some sampleTransform, some sampleBody2D, some sampleBody3D⟩) :=
  ⟨(OnImGuizmo_missing_components sampleToQuaternion sampleGizmo
      ⟨none, some sampleBody2D, some sampleBody3D⟩).1 rfl,
    (OnImGuizmo_missing_components sampleToQuaternion sampleGizmo
      ⟨some sampleTransform, none, none⟩).2.1 sampleTransform rfl rfl rfl rfl,
    (OnImGuizmo_missing_components sampleToQuaternion idleGizmo
      ⟨some sampleTransform, some sampleBody2D, some sampleBody3D⟩).2.2.1 rfl⟩

/-! ## Scene tree theorems -/

theorem Frame.Extends.refl (f : Frame) : f.Extends [] f :=
  ⟨by simp, rfl, rfl, fun _ _ => rfl, fun _ _ _ h => by simp at h⟩

theorem Frame.Extends.fails_iff {f g : Frame} {w : List GuiCall} (h : f.Extends w g)
    (node : EntityId) : g.fails node ↔ f.fails node := by
  unfold Frame.fails
  rw [h.filter, h.names]

theorem Frame.extends_call (f : Frame) (c : GuiCall)
    (hc : ∀ node nodeFlags nodeOpen, c = .TreeNodeEx node nodeFlags nodeOpen → ¬ f.fails node) :
    f.Extends [c] (f.call c) :=
  ⟨rfl, rfl, rfl, fun _ _ => rfl, fun node nodeFlags nodeOpen h => by
    simp only [List.mem_singleton] at h
    exact hc node nodeFlags nodeOpen h.symm⟩

theorem DrawNode_show_of_fails {f : Frame} {node : EntityId} (hn : f.fails node) :
    (if f.m_HierarchyFilter.IsActive = true then
        if (!f.m_HierarchyFilter.PassFilter (f.scene.GetName node)) = true then false else true
      else true) = false := by
  unfold Frame.fails at hn
  simp [hn.1, hn.2]

theorem DrawNode_show_of_not_fails {f : Frame} {node : EntityId} (hn : ¬ f.fails node) :
    (if f.m_HierarchyFilter.IsActive = true then
        if (!f.m_HierarchyFilter.PassFilter (f.scene.GetName node)) = true then false else true
      else true) = true := by
  unfold Frame.fails at hn
  cases h1 : f.m_HierarchyFilter.IsActive <;>
    cases h2 : f.m_HierarchyFilter.PassFilter (f.scene.GetName node) <;> simp_all

theorem Frame.Grows.start (gui : Nat → TreeRowAnswer) (f : Frame) : f.Grows gui [] f :=
  ⟨by simp, rfl, rfl, le_rfl, fun _ _ h => h, fun _ _ _ h => by simp at h, fun _ h => h,
    fun _ h => h, fun _ => rfl⟩

theorem Frame.Grows.fails_eq {gui : Nat → TreeRowAnswer} {f g : Frame} {w : List GuiCall}
    (h : f.Grows gui w g) (node : EntityId) : g.fails node ↔ f.fails node := by
  unfold Frame.fails
  rw [h.filter, h.names]

theorem Frame.Grows.trans {gui : Nat → TreeRowAnswer} {f g k : Frame} {w1 w2 : List GuiCall}
    (h1 : f.Grows gui w1 g) (h2 : g.Grows gui w2 k) : f.Grows gui (w1 ++ w2) k where
  calls := by rw [h2.calls, h1.calls, List.append_assoc]
  filter := h2.filter.trans h1.filter
  names := h2.names.trans h1.names
  rows_le := le_trans h1.rows_le h2.rows_le
  children := fun node child hc => h2.children node child (h1.children node child hc)
  rows := fun node nodeFlags nodeOpen hmem => by
    rcases List.mem_append.1 hmem with hm | hm
    · exact h1.rows node nodeFlags nodeOpen hm
    · exact fun hn => h2.rows node nodeFlags nodeOpen hm ((h1.fails_eq node).2 hn)
  unclicked := fun hc hs =>
    h2.unclicked (fun i hi1 hi2 => hc i (le_trans h1.rows_le hi1) hi2)
      (h1.unclicked (fun i hi1 hi2 => hc i hi1 (lt_of_lt_of_le hi2 h2.rows_le)) hs)
  undropped := fun hc hs =>
    h2.undropped (fun i hi1 hi2 => hc i (le_trans h1.rows_le hi1) hi2)
      (h1.undropped (fun i hi1 hi2 => hc i hi1 (lt_of_lt_of_le hi2 h2.rows_le)) hs)
  untouched := fun hc =>
    (h2.untouched (fun i hi1 hi2 => hc i (le_trans h1.rows_le hi1) hi2)).trans
      (h1.untouched (fun i hi1 hi2 => hc i hi1 (lt_of_lt_of_le hi2 h2.rows_le)))

theorem Frame.grows_call (gui : Nat → TreeRowAnswer) (f : Frame) (c : GuiCall)
    (hc : ∀ node nodeFlags nodeOpen, c = .TreeNodeEx node nodeFlags nodeOpen → ¬ f.fails node) :
    f.Grows gui [c] (f.call c) :=
  ⟨rfl, rfl, rfl, le_rfl, fun _ _ h => h, fun node nodeFlags nodeOpen h => by
    simp only [List.mem_singleton] at h
    exact hc node nodeFlags nodeOpen h.symm, fun _ h => h, fun _ h => h, fun _ => rfl⟩

theorem OpenChain.mono {f g : Frame} {w w1 : List GuiCall} {node z : EntityId}
    (hc : OpenChain f w node z)
    (hkids : ∀ n child, child ∈ f.scene.GetChildren n → child ∈ g.scene.GetChildren n)
    (hsub : ∀ c, c ∈ w1 → c ∈ w) : OpenChain g w1 node z := by
  induction hc with
  | refl node => exact OpenChain.refl node
  | step hopen hmem _ ih =>
    exact OpenChain.step (fun nodeFlags hm => hopen nodeFlags (hsub _ hm)) (hkids _ _ hmem) ih

/-- The drop-target block changes neither the filter nor the names nor the row count; it
adds at most an `AddChild` call, keeps every child, and changes the selection only by
clearing it when a payload is accepted. -/
theorem DragDropTarget_grows (answer : TreeRowAnswer) (node : EntityId) (f g : Frame)
    (h : DragDropTarget answer node f = .ok g) :
    g.m_HierarchyFilter = f.m_HierarchyFilter ∧ g.scene.GetName = f.scene.GetName ∧
      g.rows = f.rows ∧
      (∃ w, g.calls = f.calls ++ w ∧
        ∀ n nodeFlags nodeOpen, GuiCall.TreeNodeEx n nodeFlags nodeOpen ∉ w) ∧
      (∀ n child, child ∈ f.scene.GetChildren n → child ∈ g.scene.GetChildren n) ∧
      (g.m_Selected = f.m_Selected ∨ g.m_Selected = none) ∧
      (answer.payload = none → g.m_Selected = f.m_Selected) := by
  unfold DragDropTarget at h
  by_cases ht : answer.dropTarget = true
  · rw [if_pos ht] at h
    cases hp : answer.payload with
    | none =>
      rw [hp] at h
      cases h
      exact ⟨rfl, rfl, rfl, ⟨[], by simp, by simp⟩, fun _ _ h => h, Or.inl rfl, fun _ => rfl⟩
    | some payload =>
      rw [hp] at h
      simp only [] at h
      by_cases hs : payload.DataSize = sizeofEntityPtr
      · rw [if_pos hs] at h
        have hkids : ∀ n child, child ∈ f.scene.GetChildren n →
            child ∈ (f.scene.AddChild node payload.Data).GetChildren n := by
          intro n child hc
          unfold Scene.AddChild
          by_cases hn : n = node
          · simp [hn]
            left
            rw [← hn]
            exact hc
          · simp [hn, hc]
        by_cases hsel : (f.call (.AddChild node payload.Data)).m_Selected = some payload.Data
        · rw [if_pos hsel] at h
          cases h
          exact ⟨rfl, rfl, rfl, ⟨[.AddChild node payload.Data], rfl, by simp⟩, hkids,
            Or.inr rfl, fun hn => by simp at hn⟩
        · rw [if_neg hsel] at h
          cases h
          exact ⟨rfl, rfl, rfl, ⟨[.AddChild node payload.Data], rfl, by simp⟩, hkids,
            Or.inl rfl, fun hn => by simp at hn⟩
      · rw [if_neg hs] at h
        cases h
  · rw [if_neg ht] at h
    cases h
    exact ⟨rfl, rfl, rfl, ⟨[], by simp, by simp⟩, fun _ _ h => h, Or.inl rfl, fun _ => rfl⟩

/-- The tree row of a node that passes the filter: one more row, answered by `gui` at the
index of the row. -/
theorem DrawNodeRow_grows (gui : Nat → TreeRowAnswer) (node : EntityId) (f g : Frame)
    (nodeOpen : Bool) (hnode : ¬ f.fails node) (h : DrawNodeRow gui node f = .ok (g, nodeOpen)) :
    ∃ w, f.Grows gui w g ∧ g.rows = f.rows + 1 ∧
      ∃ nodeFlags, GuiCall.TreeNodeEx node nodeFlags nodeOpen ∈ w := by
  unfold DrawNodeRow at h
  simp only [] at h
  generalize hfl : (if (f.scene.GetChildren node).isEmpty = true then
      (if f.m_Selected = some node then ImGuiTreeNodeFlags_Selected else 0) |||
        (ImGuiTreeNodeFlags_OpenOnArrow ||| ImGuiTreeNodeFlags_OpenOnDoubleClick) |||
        ImGuiTreeNodeFlags_Leaf
      else (if f.m_Selected = some node then ImGuiTreeNodeFlags_Selected else 0) |||
        (ImGuiTreeNodeFlags_OpenOnArrow ||| ImGuiTreeNodeFlags_OpenOnDoubleClick)) = nodeFlags
      at h
  generalize hf2 : (if (gui f.rows).dragSource = true then
      ({ f.call (.TreeNodeEx node nodeFlags (gui f.rows).nodeOpen) with
        rows := f.rows + 1 } : Frame).call (.SetDragDropPayload node)
      else { f.call (.TreeNodeEx node nodeFlags (gui f.rows).nodeOpen) with
        rows := f.rows + 1 }) = f2 at h
  have h2 : f2.m_HierarchyFilter = f.m_HierarchyFilter ∧ f2.scene = f.scene ∧
      f2.rows = f.rows + 1 ∧ f2.m_Selected = f.m_Selected ∧
      ∃ w, f2.calls = f.calls ++ (GuiCall.TreeNodeEx node nodeFlags (gui f.rows).nodeOpen :: w) ∧
        ∀ n fl o, GuiCall.TreeNodeEx n fl o ∉ w := by
    rw [← hf2]
    by_cases hd : (gui f.rows).dragSource = true
    · rw [if_pos hd]
      exact ⟨rfl, rfl, rfl, rfl, [.SetDragDropPayload node], by simp [Frame.call], by simp⟩
    · rw [if_neg hd]
      exact ⟨rfl, rfl, rfl, rfl, [], by simp [Frame.call], by simp⟩
  obtain ⟨hfilter2, hscene2, hrows2, hsel2, w2, hcalls2, hw2⟩ := h2
  cases hdrop : DragDropTarget (gui f.rows) node f2 with
  | error e =>
    rw [hdrop] at h
    cases h
  | ok f3 =>
    rw [hdrop] at h
    obtain ⟨hfilter3, hnames3, hrows3, ⟨w3, hcalls3, hw3⟩, hkids3, hsel3, hnone3⟩ :=
      DragDropTarget_grows _ node _ f3 hdrop
    simp only [Except.ok.injEq, Prod.mk.injEq] at h
    obtain ⟨hg, ho⟩ := h
    have hgf : g.m_HierarchyFilter = f.m_HierarchyFilter ∧ g.scene = f3.scene ∧
        g.rows = f3.rows ∧ g.calls = f3.calls ∧
        g.m_Selected = (if (gui f.rows).clicked = true then some node else f3.m_Selected) := by
      rw [← hg]
      by_cases hc : (gui f.rows).clicked = true <;> simp [hc, hfilter3, hfilter2]
    obtain ⟨hgfilter, hgscene, hgrows, hgcalls, hgsel⟩ := hgf
    refine ⟨GuiCall.TreeNodeEx node nodeFlags (gui f.rows).nodeOpen :: w2 ++ w3, ?_, ?_,
      nodeFlags, ?_⟩
    · refine ⟨?_, hgfilter, ?_, ?_, ?_, ?_, ?_, ?_, ?_⟩
      · rw [hgcalls, hcalls3, hcalls2]
        simp
      · rw [hgscene, hnames3, hscene2]
      · rw [hgrows, hrows3, hrows2]
        omega
      · intro n child hc
        rw [hgscene]
        apply hkids3
        rw [hscene2]
        exact hc
      · intro n fl o hm
        simp only [List.cons_append, List.mem_cons, List.mem_append] at hm
        rcases hm with hm | hm | hm
        · simp only [GuiCall.TreeNodeEx.injEq] at hm
          rw [hm.1]
          exact hnode
        · exact absurd hm (hw2 n fl o)
        · exact absurd hm (hw3 n fl o)
      · intro hc hs
        have hc0 := hc f.rows le_rfl (by rw [hgrows, hrows3, hrows2]; omega)
        rw [hgsel, hc0]
        simp only [Bool.false_eq_true, if_false]
        rcases hsel3 with he | he
        · rw [he, hsel2, hs]
        · exact he
      · intro hp hs
        have hp0 := hp f.rows le_rfl (by rw [hgrows, hrows3, hrows2]; omega)
        rw [hgsel]
        by_cases hc : (gui f.rows).clicked = true
        · simp [hc]
        · simp only [hc, if_false]
          rw [hnone3 hp0, hsel2]
          exact hs
      · intro hcp
        obtain ⟨hc0, hp0⟩ := hcp f.rows le_rfl (by rw [hgrows, hrows3, hrows2]; omega)
        rw [hgsel, hc0]
        simp only [Bool.false_eq_true, if_false]
        rw [hnone3 hp0, hsel2]
    · rw [hgrows, hrows3, hrows2]
    · rw [← ho]
      simp

theorem forChildren_grows (gui : Nat → TreeRowAnswer)
    (body : EntityId → Frame → Except Fault Frame)
    (hbody : ∀ c h k, body c h = .ok k →
      ∃ w, h.Grows gui w k ∧ ∀ z, OpenChain h w c z →
        (GuiCall.DrawNode z ∈ w ∧
          (¬ h.fails z → ∃ nodeFlags nodeOpen, GuiCall.TreeNodeEx z nodeFlags nodeOpen ∈ w))) :
    ∀ (l : List EntityId) (g k : Frame), forChildren body l g = .ok k →
      ∃ w, g.Grows gui w k ∧ ∀ c ∈ l, ∀ z, OpenChain g w c z →
        (GuiCall.DrawNode z ∈ w ∧
          (¬ g.fails z → ∃ nodeFlags nodeOpen, GuiCall.TreeNodeEx z nodeFlags nodeOpen ∈ w)) := by
  intro l
  induction l with
  | nil =>
    intro g k h
    cases h
    exact ⟨[], Frame.Grows.start gui g, fun c hc => by simp at hc⟩
  | cons c rest ih =>
    intro g k h
    rw [forChildren] at h
    cases hc : body c g with
    | error e =>
      rw [hc] at h
      cases h
    | ok g1 =>
      rw [hc] at h
      simp only [] at h
      obtain ⟨w1, he1, hq1⟩ := hbody c g g1 hc
      obtain ⟨w2, he2, hq2⟩ := ih g1 k h
      refine ⟨w1 ++ w2, he1.trans he2, ?_⟩
      intro c1 hc1 z hz
      rcases List.mem_cons.1 hc1 with rfl | hmem
      · obtain ⟨hv, hr⟩ := hq1 z (hz.mono (fun _ _ h => h)
          (fun _ hm => List.mem_append_left _ hm))
        refine ⟨List.mem_append_left _ hv, fun hn => ?_⟩
        obtain ⟨nodeFlags, nodeOpen, hrow⟩ := hr hn
        exact ⟨nodeFlags, nodeOpen, List.mem_append_left _ hrow⟩
      · obtain ⟨hv, hr⟩ := hq2 c1 hmem z (hz.mono he1.children
          (fun _ hm => List.mem_append_right _ hm))
        refine ⟨List.mem_append_right _ hv, fun hn => ?_⟩
        obtain ⟨nodeFlags, nodeOpen, hrow⟩ := hr (fun hf => hn ((he1.fails_eq z).1 hf))
        exact ⟨nodeFlags, nodeOpen, List.mem_append_right _ hrow⟩

/-- A call of `DrawNode` that returns: what it leaves unchanged, and which nodes it
visits. A descendant `z` of the drawn node is visited, and drawn as a row when it passes the
filter, unless one of its ancestors is drawn as a closed row. -/
theorem DrawNode_grows (gui : Nat → TreeRowAnswer) :
    ∀ (fuel : Nat) (node : EntityId) (f g : Frame),
      DrawNode gui fuel (some node) f = .ok g →
      ∃ w, f.Grows gui w g ∧ ∀ z, OpenChain f w node z →
        (GuiCall.DrawNode z ∈ w ∧
          (¬ f.fails z → ∃ nodeFlags nodeOpen, GuiCall.TreeNodeEx z nodeFlags nodeOpen ∈ w)) := by
  intro fuel
  induction fuel with
  | zero =>
    intro node f g h
    cases h
  | succ fuel ih =>
    intro node f g h
    rw [DrawNode] at h
    have h0 : f.Grows gui [.DrawNode node] (f.call (.DrawNode node)) :=
      Frame.grows_call gui f _ (fun _ _ _ hc => by cases hc)
    have hfails0 : ∀ n, (f.call (.DrawNode node)).fails n ↔ f.fails n := h0.fails_eq
    by_cases hn : f.fails node
    · have hn0 : (f.call (.DrawNode node)).fails node := (hfails0 node).2 hn
      rw [DrawNode_show_of_fails hn0] at h
      simp only [Bool.false_eq_true, if_false] at h
      obtain ⟨w, he, hq⟩ := forChildren_grows gui _ (fun c h1 k hk => ih c h1 k hk) _ _ _ h
      refine ⟨[.DrawNode node] ++ w, h0.trans he, ?_⟩
      intro z hz
      cases hz with
      | refl =>
        exact ⟨by simp, fun hnot => absurd hn hnot⟩
      | step _ hmem hchain =>
        obtain ⟨hv, hr⟩ := hq _ hmem z (hchain.mono (fun _ _ h => h)
          (fun _ hm => List.mem_append_right _ hm))
        refine ⟨List.mem_append_right _ hv, fun hnot => ?_⟩
        obtain ⟨nodeFlags, nodeOpen, hrow⟩ := hr (fun hf => hnot ((hfails0 z).1 hf))
        exact ⟨nodeFlags, nodeOpen, List.mem_append_right _ hrow⟩
    · have hn0 : ¬ (f.call (.DrawNode node)).fails node := fun hf => hn ((hfails0 node).1 hf)
      rw [DrawNode_show_of_not_fails hn0] at h
      simp only [if_true] at h
      cases hrow : DrawNodeRow gui node (f.call (.DrawNode node)) with
      | error e =>
        rw [hrow] at h
        cases h
      | ok res =>
        obtain ⟨f1, nodeOpen⟩ := res
        rw [hrow] at h
        simp only [] at h
        obtain ⟨w1, he1, _, nodeFlags, hmem1⟩ :=
          DrawNodeRow_grows gui node _ f1 nodeOpen hn0 hrow
        by_cases ho : nodeOpen = false
        · rw [if_pos ho] at h
          cases h
          refine ⟨[.DrawNode node] ++ w1, h0.trans he1, ?_⟩
          intro z hz
          cases hz with
          | refl =>
            exact ⟨by simp, fun _ => ⟨nodeFlags, nodeOpen, by simp [hmem1]⟩⟩
          | step hopen _ _ =>
            rw [ho] at hmem1
            exact absurd (List.mem_append_right _ hmem1) (hopen nodeFlags)
        · rw [if_neg ho] at h
          cases hch : forChildren (fun child acc => DrawNode gui fuel (some child) acc)
              (f1.scene.GetChildren node) f1 with
          | error e =>
            rw [hch] at h
            cases h
          | ok f2 =>
            rw [hch] at h
            cases h
            obtain ⟨w2, he2, hq⟩ :=
              forChildren_grows gui _ (fun c h1 k hk => ih c h1 k hk) _ _ _ hch
            have he3 : f2.Grows gui [.TreePop] (f2.call .TreePop) :=
              Frame.grows_call gui f2 _ (fun _ _ _ hc => by cases hc)
            have h01 := h0.trans he1
            refine ⟨[.DrawNode node] ++ w1 ++ (w2 ++ [.TreePop]), h01.trans (he2.trans he3), ?_⟩
            intro z hz
            cases hz with
            | refl =>
              exact ⟨by simp, fun _ => ⟨nodeFlags, nodeOpen, by simp [hmem1]⟩⟩
            | step _ hmem hchain =>
              obtain ⟨hv, hr⟩ := hq _ (h01.children _ _ hmem) z (hchain.mono h01.children
                (fun _ hm => by simp [hm]))
              refine ⟨by simp [hv], fun hnot => ?_⟩
              obtain ⟨fl, o, hrow⟩ := hr (fun hf => hnot ((h01.fails_eq z).1 hf))
              exact ⟨fl, o, by simp [hrow]⟩

theorem DragDropTarget_noPayload (answer : TreeRowAnswer) (node : EntityId) (f : Frame)
    (h : answer.payload = none) : DragDropTarget answer node f = .ok f := by
  unfold DragDropTarget
  rw [h]
  split <;> rfl

theorem DrawNodeRow_noPayload (gui : Nat → TreeRowAnswer) (node : EntityId) (f : Frame)
    (h : (gui f.rows).payload = none) :
    ∃ g, DrawNodeRow gui node f = .ok (g, (gui f.rows).nodeOpen) ∧ g.scene = f.scene := by
  unfold DrawNodeRow
  simp only []
  rw [DragDropTarget_noPayload _ _ _ h]
  refine ⟨_, rfl, ?_⟩
  by_cases hc : (gui f.rows).clicked = true <;> by_cases hd : (gui f.rows).dragSource = true <;>
    simp [hc, hd, Frame.call]

theorem forChildren_returns (body : EntityId → Frame → Except Fault Frame) (S : Scene)
    (l : List EntityId)
    (hbody : ∀ c ∈ l, ∀ h : Frame, h.scene = S → ∃ k, body c h = .ok k ∧ k.scene = S) :
    ∀ f : Frame, f.scene = S → ∃ g, forChildren body l f = .ok g ∧ g.scene = S := by
  induction l with
  | nil =>
    intro f hf
    exact ⟨f, rfl, hf⟩
  | cons c rest ih =>
    intro f hf
    obtain ⟨k, hk, hks⟩ := hbody c (List.mem_cons_self c rest) f hf
    obtain ⟨g, hg, hgs⟩ := ih (fun c1 hc1 => hbody c1 (List.mem_cons_of_mem c hc1)) k hks
    refine ⟨g, ?_, hgs⟩
    rw [forChildren, hk]
    exact hg

/-- A frame in which no payload is delivered, on a scene whose entities are ranked above
their children (a finite tree, ranked by height), returns when the recursion budget
exceeds the rank of the drawn node; the scene is left as it was. -/
theorem DrawNode_returns (gui : Nat → TreeRowAnswer) (hgui : ∀ i, (gui i).payload = none)
    (S : Scene) (rank : EntityId → Nat)
    (hrank : ∀ node child, child ∈ S.GetChildren node → rank child < rank node) :
    ∀ (fuel : Nat) (node : EntityId) (f : Frame), rank node < fuel → f.scene = S →
      ∃ g, DrawNode gui fuel (some node) f = .ok g ∧ g.scene = S := by
  intro fuel
  induction fuel with
  | zero =>
    intro node f h
    omega
  | succ fuel ih =>
    intro node f hlt hf
    rw [DrawNode]
    have hkids : ∀ h : Frame, h.scene = S →
        ∃ g, forChildren (fun child acc => DrawNode gui fuel (some child) acc)
          (h.scene.GetChildren node) h = .ok g ∧ g.scene = S := by
      intro h hh
      apply forChildren_returns _ S _ _ h hh
      intro c hc k hk
      rw [hh] at hc
      exact ih c k (by have := hrank node c hc; omega) hk
    by_cases hn : (f.call (.DrawNode node)).fails node
    · rw [DrawNode_show_of_fails hn]
      simp only [Bool.false_eq_true, if_false]
      exact hkids _ hf
    · rw [DrawNode_show_of_not_fails hn]
      simp only [if_true]
      obtain ⟨f1, hrow, hf1⟩ := DrawNodeRow_noPayload gui node (f.call (.DrawNode node))
        (hgui _)
      rw [hrow]
      simp only []
      by_cases ho : (gui (f.call (.DrawNode node)).rows).nodeOpen = false
      · rw [if_pos ho]
        exact ⟨f1, rfl, hf1.trans hf⟩
      · rw [if_neg ho]
        obtain ⟨f2, hf2, hs2⟩ := hkids f1 (hf1.trans hf)
        rw [hf2]
        exact ⟨_, rfl, hs2⟩

/-- Counterexample for C5: in the sample scene the root `0` fails the filter, its child `1`
passes and is drawn as a closed row; the grandchild `2`, a descendant of the failing root
whose name passes the filter, is neither visited nor emitted as a row. -/
theorem DrawNode_descendant_not_visited :
    sampleFilter.PassFilter (sampleScene.GetName 0) = false ∧
      sampleFilter.PassFilter (sampleScene.GetName 2) = true ∧
      1 ∈ sampleScene.GetChildren 0 ∧ 2 ∈ sampleScene.GetChildren 1 ∧
      ∃ f1, DrawNode closedRows 3 (some 0) sampleFrame = .ok f1 ∧
        f1.calls = [.DrawNode 0, .DrawNode 1, .TreeNodeEx 1 193 false] ∧
        GuiCall.DrawNode 2 ∉ f1.calls ∧
        ∀ nodeFlags nodeOpen, GuiCall.TreeNodeEx 2 nodeFlags nodeOpen ∉ f1.calls := by
  have hcalls : ∀ f1, DrawNode closedRows 3 (some 0) sampleFrame = .ok f1 →
      f1.calls = [.DrawNode 0, .DrawNode 1, .TreeNodeEx 1 193 false] := by
    intro f1 h
    have h1 : (DrawNode closedRows 3 (some 0) sampleFrame).toOption.map Frame.calls
        = some [.DrawNode 0, .DrawNode 1, .TreeNodeEx 1 193 false] := by decide
    rw [h] at h1
    simpa [Except.toOption] using h1
  refine ⟨by decide, by decide, by decide, by decide, _, rfl, hcalls _ rfl, ?_, ?_⟩
  · rw [hcalls _ rfl]
    decide
  · intro nodeFlags nodeOpen h
    rw [hcalls _ rfl] at h
    simp at h

/-- C5, amended: with an active hierarchy filter, a frame of `DrawNode` that returns emits
no tree row for a node whose name fails the filter; and every descendant `z` of the drawn
node is visited, and is emitted as a row when its name passes the filter, unless one of
its ancestors from the drawn node on is drawn as a row that is closed. An ancestor that
fails the filter draws no row, so it never hides a descendant. The frame returns on every
finite tree (entities ranked above their children) when no payload is delivered in it. -/
theorem DrawNode_filter (gui : Nat → TreeRowAnswer) (node : EntityId) (f : Frame)
    (hactive : f.m_HierarchyFilter.IsActive = true) :
    (∀ (fuel : Nat) (g : Frame), DrawNode gui fuel (some node) f = .ok g →
      ∃ w, g.calls = f.calls ++ w ∧
        (∀ n nodeFlags nodeOpen, GuiCall.TreeNodeEx n nodeFlags nodeOpen ∈ w →
          f.m_HierarchyFilter.PassFilter (f.scene.GetName n) = true) ∧
        (∀ z, OpenChain f w node z →
          GuiCall.DrawNode z ∈ w ∧
            (f.m_HierarchyFilter.PassFilter (f.scene.GetName z) = true →
              ∃ nodeFlags nodeOpen, GuiCall.TreeNodeEx z nodeFlags nodeOpen ∈ w))) ∧
    ((∀ i, (gui i).payload = none) →
      ∀ rank : EntityId → Nat,
        (∀ n child, child ∈ f.scene.GetChildren n → rank child < rank n) →
        ∀ fuel, rank node < fuel → ∃ g, DrawNode gui fuel (some node) f = .ok g) := by
  constructor
  · intro fuel g hrun
    obtain ⟨w, he, hq⟩ := DrawNode_grows gui fuel node f g hrun
    refine ⟨w, he.calls, ?_, ?_⟩
    · intro n nodeFlags nodeOpen hmem
      have hnot := he.rows n nodeFlags nodeOpen hmem
      unfold Frame.fails at hnot
      simpa [hactive] using hnot
    · intro z hz
      obtain ⟨hv, hr⟩ := hq z hz
      refine ⟨hv, fun hp => hr ?_⟩
      unfold Frame.fails
      simp [hp]
  · intro hgui rank hrank fuel hfuel
    obtain ⟨g, hg, _⟩ := DrawNode_returns gui hgui f.scene rank hrank fuel node f hfuel rfl
    exact ⟨g, hg⟩

theorem mixedScene_ranked (n child : EntityId)
    (h : child ∈ mixedFrame.scene.GetChildren n) : sampleRank child < sampleRank n := by
  simp only [mixedFrame, mixedScene] at h
  by_cases h0 : n = 0
  · subst h0
    simp at h
    subst h
    decide
  · by_cases h1 : n = 1
    · subst h1
      simp at h
      subst h
      decide
    · simp [h0, h1] at h

/-- Witness for C5, amended: the scene `0 → 1 → 2` in which only entity `1` fails the
filter, with every row open. The row of the root `0` is open and entity `1` draws no row,
so the grandchild `2` is visited and emitted as a row. -/
theorem DrawNode_filter_witness :
    (mixedFrame.m_HierarchyFilter.IsActive = true ∧ (∀ i, (openRows i).payload = none) ∧
      (∀ n child, child ∈ mixedFrame.scene.GetChildren n → sampleRank child < sampleRank n) ∧
      mixedFrame.m_HierarchyFilter.PassFilter (mixedFrame.scene.GetName 0) = true ∧
      mixedFrame.m_HierarchyFilter.PassFilter (mixedFrame.scene.GetName 1) = false ∧
      mixedFrame.m_HierarchyFilter.PassFilter (mixedFrame.scene.GetName 2) = true) ∧
    ∃ g, DrawNode openRows 3 (some 0) mixedFrame = .ok g ∧
      ∃ w, g.calls = mixedFrame.calls ++ w ∧
        (∀ n nodeFlags nodeOpen, GuiCall.TreeNodeEx n nodeFlags nodeOpen ∈ w →
          mixedFrame.m_HierarchyFilter.PassFilter (mixedFrame.scene.GetName n) = true) ∧
        OpenChain mixedFrame w 0 2 ∧ GuiCall.DrawNode 2 ∈ w ∧
        ∃ nodeFlags nodeOpen, GuiCall.TreeNodeEx 2 nodeFlags nodeOpen ∈ w :=
  have hcalls : ∀ g, DrawNode openRows 3 (some 0) mixedFrame = .ok g →
      g.calls = [.DrawNode 0, .TreeNodeEx 0 192 true, .DrawNode 1, .DrawNode 2,
        .TreeNodeEx 2 448 true, .TreePop, .TreePop] := by
    intro g h
    have h1 : (DrawNode openRows 3 (some 0) mixedFrame).toOption.map Frame.calls
        = some [.DrawNode 0, .TreeNodeEx 0 192 true, .DrawNode 1, .DrawNode 2,
          .TreeNodeEx 2 448 true, .TreePop, .TreePop] := by decide
    rw [h] at h1
    simpa [Except.toOption] using h1
  ⟨⟨rfl, fun _ => rfl, mixedScene_ranked, by decide, by decide, by decide⟩,
    match (DrawNode_filter openRows 0 mixedFrame rfl).2 (fun _ => rfl) sampleRank
        mixedScene_ranked 3 (by decide) with
    | ⟨g, hg⟩ =>
      match (DrawNode_filter openRows 0 mixedFrame rfl).1 3 g hg with
      | ⟨w, h1, h2, h3⟩ =>
        have hw : w = [.DrawNode 0, .TreeNodeEx 0 192 true, .DrawNode 1, .DrawNode 2,
            .TreeNodeEx 2 448 true, .TreePop, .TreePop] := by
          have := hcalls g hg
          rw [h1] at this
          simpa [mixedFrame] using this
        have hchain : OpenChain mixedFrame w 0 2 :=
          @OpenChain.step mixedFrame w 0 1 2 (fun fl h => by rw [hw] at h; simp at h)
            (by decide)
            (@OpenChain.step mixedFrame w 1 2 2 (fun fl h => by rw [hw] at h; simp at h)
              (by decide) (OpenChain.refl 2))
        ⟨g, hg, w, h1, h2, hchain, (h3 2 hchain).1, (h3 2 hchain).2 (by decide)⟩⟩

theorem roundHalfEven_intCast (z : ℤ) : roundHalfEven (z : ℚ) = z := by
  simp [roundHalfEven]

theorem roundHalfEven_nearest (t : ℚ) (z : ℤ) :
    |(roundHalfEven t : ℚ) - t| ≤ |(z : ℚ) - t| := by
  have h1 : (⌊t⌋ : ℚ) ≤ t := Int.floor_le t
  have h2 : t < ⌊t⌋ + 1 := Int.lt_floor_add_one t
  have hz : (z : ℚ) ≤ ⌊t⌋ ∨ (⌊t⌋ : ℚ) + 1 ≤ z := by
    rcases le_or_lt z ⌊t⌋ with h | h
    · left; exact_mod_cast h
    · right; exact_mod_cast h
  unfold roundHalfEven
  split_ifs with ha hb hc <;> simp only [not_lt] at * <;> push_cast <;>
    rcases hz with hz | hz <;> rw [abs_le] <;>
    rcases abs_cases ((z : ℚ) - t) with ⟨h, _⟩ | ⟨h, _⟩ <;> constructor <;> linarith

theorem roundHalfEven_err (t : ℚ) : |(roundHalfEven t : ℚ) - t| ≤ 1 / 2 := by
  have h1 : (⌊t⌋ : ℚ) ≤ t := Int.floor_le t
  have h2 : t < ⌊t⌋ + 1 := Int.lt_floor_add_one t
  unfold roundHalfEven
  split_ifs with ha hb hc <;> simp only [not_lt] at * <;> push_cast <;>
    rw [abs_le] <;> constructor <;> linarith

theorem zpow_log_le_abs {q : ℚ} (hq : q ≠ 0) : (2 : ℚ) ^ Int.log 2 |q| ≤ |q| := by
  have h := Int.zpow_log_le_self (b := 2) (r := |q|) (by norm_num) (abs_pos.mpr hq)
  exact_mod_cast h

theorem abs_lt_zpow_log_succ (q : ℚ) : |q| < (2 : ℚ) ^ (Int.log 2 |q| + 1) := by
  have h := Int.lt_zpow_succ_log_self (b := 2) (by norm_num) |q|
  exact_mod_cast h

theorem log_eq_of_bounds {q : ℚ} {e : ℤ} (h1 : (2 : ℚ) ^ e ≤ |q|) (h2 : |q| < 2 ^ (e + 1)) :
    Int.log 2 |q| = e := by
  have hpos : 0 < |q| := lt_of_lt_of_le (zpow_pos (by norm_num) e) h1
  have ha : e ≤ Int.log 2 |q| := by
    rw [← Int.zpow_le_iff_le_log (by norm_num) hpos]; exact_mod_cast h1
  have hb : Int.log 2 |q| < e + 1 := by
    rw [← Int.lt_zpow_iff_log_lt (by norm_num) hpos]; exact_mod_cast h2
  omega

theorem quantumExp_ge (q : ℚ) : -149 ≤ quantumExp q := le_max_right _ _

theorem round32_zero : round32 0 = 0 := by
  simp [round32, roundHalfEven]

theorem abs_cast_lt {m : ℤ} (hm : |m| < 2 ^ 24) : |(m : ℚ)| < 2 ^ (24 : ℤ) := by
  have h : ((|m| : ℤ) : ℚ) < ((2 ^ 24 : ℤ) : ℚ) := by exact_mod_cast hm
  rw [Int.cast_abs] at h
  norm_num at h ⊢
  exact h

theorem zpow_split (m : ℤ) {j k : ℤ} (h : j ≤ k) :
    (m : ℚ) * 2 ^ k = ((m * 2 ^ (k - j).toNat : ℤ) : ℚ) * 2 ^ j := by
  have hk : k = ((k - j).toNat : ℤ) + j := by omega
  conv_lhs => rw [hk]
  rw [zpow_add₀ (by norm_num : (2 : ℚ) ≠ 0), zpow_natCast]
  push_cast
  ring

theorem round32_of_multiple (q : ℚ) (z : ℤ) (h : q = z * 2 ^ quantumExp q) : round32 q = q := by
  have hu : (2 : ℚ) ^ quantumExp q ≠ 0 := (zpow_pos (by norm_num) _).ne'
  have ht : q / 2 ^ quantumExp q = (z : ℚ) := by
    rw [div_eq_iff hu]; exact h
  unfold round32
  rw [ht, roundHalfEven_intCast]
  exact h.symm

theorem quantumExp_le_of_isFloat {m k : ℤ} (hm : |m| < 2 ^ 24) (hk : -149 ≤ k) (h0 : m ≠ 0) :
    quantumExp ((m : ℚ) * 2 ^ k) ≤ k := by
  have hq : (m : ℚ) * 2 ^ k ≠ 0 :=
    mul_ne_zero (by exact_mod_cast h0) (zpow_pos (by norm_num) _).ne'
  have h1 := zpow_log_le_abs hq
  have h2 : |(m : ℚ) * 2 ^ k| < 2 ^ (24 + k) := by
    rw [abs_mul, abs_of_pos (zpow_pos (by norm_num : (0 : ℚ) < 2) k),
      zpow_add₀ (by norm_num : (2 : ℚ) ≠ 0)]
    exact mul_lt_mul_of_pos_right (abs_cast_lt hm) (zpow_pos (by norm_num) _)
  have h3 := (zpow_lt_zpow_iff_right₀ (by norm_num : (1 : ℚ) < 2)).1 (lt_of_le_of_lt h1 h2)
  unfold quantumExp
  exact max_le (by omega) hk

/-- A binary32 value is rounded to itself. -/
theorem round32_of_isFloat {q : ℚ} (h : IsFloat q) : round32 q = q := by
  obtain ⟨m, k, hm, hk, rfl⟩ := h
  by_cases h0 : m = 0
  · subst h0; simp [round32_zero]
  · exact round32_of_multiple _ _ (zpow_split m (quantumExp_le_of_isFloat hm hk h0))

theorem roundHalfEven_cases (t : ℚ) : roundHalfEven t = ⌊t⌋ ∨ roundHalfEven t = ⌊t⌋ + 1 := by
  unfold roundHalfEven
  split_ifs <;> simp

theorem abs_div_quantum_lt (q : ℚ) : |q / 2 ^ quantumExp q| < 2 ^ 24 := by
  have hu : (0 : ℚ) < 2 ^ quantumExp q := zpow_pos (by norm_num) _
  rw [abs_div, abs_of_pos hu, div_lt_iff₀ hu]
  have h1 := abs_lt_zpow_log_succ q
  have h2 : (2 : ℚ) ^ (Int.log 2 |q| + 1) ≤ 2 ^ (24 + quantumExp q) :=
    zpow_le_zpow_right₀ (by norm_num) (by
      have : Int.log 2 |q| - 23 ≤ quantumExp q := le_max_left _ _
      omega)
  have h3 : (2 : ℚ) ^ (24 + quantumExp q) = 2 ^ 24 * 2 ^ quantumExp q := by
    rw [zpow_add₀ (by norm_num : (2 : ℚ) ≠ 0)]; norm_num
  rw [h3] at h2
  exact lt_of_lt_of_le h1 h2

/-- The result of rounding is a binary32 value. -/
theorem isFloat_round32 (q : ℚ) : IsFloat (round32 q) := by
  have ht := abs_div_quantum_lt q
  rw [abs_lt] at ht
  have hf1 : ⌊q / 2 ^ quantumExp q⌋ < 2 ^ 24 := by
    rw [Int.floor_lt]; push_cast; exact ht.2
  have hf2 : -2 ^ 24 ≤ ⌊q / 2 ^ quantumExp q⌋ := by
    rw [Int.le_floor]; push_cast; exact ht.1.le
  have hn : -2 ^ 24 ≤ roundHalfEven (q / 2 ^ quantumExp q) ∧
      roundHalfEven (q / 2 ^ quantumExp q) ≤ 2 ^ 24 := by
    rcases roundHalfEven_cases (q / 2 ^ quantumExp q) with h | h <;> rw [h] <;>
      constructor <;> omega
  have hqe := quantumExp_ge q
  unfold round32
  generalize roundHalfEven (q / 2 ^ quantumExp q) = n at hn
  by_cases h1 : |n| < 2 ^ 24
  · exact ⟨n, _, h1, hqe, rfl⟩
  · have h2 : n = 2 ^ 24 ∨ n = -2 ^ 24 := by
      rcases abs_cases n with ⟨h, _⟩ | ⟨h, _⟩ <;> rw [h] at h1 <;> omega
    rcases h2 with h2 | h2
    · refine ⟨2 ^ 23, quantumExp q + 1, by norm_num, by omega, ?_⟩
      rw [h2, zpow_add₀ (by norm_num : (2 : ℚ) ≠ 0)]
      push_cast; ring
    · refine ⟨-2 ^ 23, quantumExp q + 1, by norm_num, by omega, ?_⟩
      rw [h2, zpow_add₀ (by norm_num : (2 : ℚ) ≠ 0)]
      push_cast; ring

theorem round32_sub_eq (q : ℚ) (z : ℤ) :
    |round32 q - q| ≤ |(z : ℚ) * 2 ^ quantumExp q - q| := by
  have hu : (0 : ℚ) < 2 ^ quantumExp q := zpow_pos (by norm_num) _
  have h := roundHalfEven_nearest (q / 2 ^ quantumExp q) z
  have e1 : round32 q - q =
      ((roundHalfEven (q / 2 ^ quantumExp q) : ℚ) - q / 2 ^ quantumExp q) * 2 ^ quantumExp q := by
    unfold round32; field_simp
  have e2 : (z : ℚ) * 2 ^ quantumExp q - q =
      ((z : ℚ) - q / 2 ^ quantumExp q) * 2 ^ quantumExp q := by
    field_simp
  rw [e1, e2, abs_mul, abs_mul, abs_of_pos hu]
  exact mul_le_mul_of_nonneg_right h hu.le

/-- No binary32 value is closer to `q` than `round32 q`. -/
theorem round32_nearest (q : ℚ) {f : ℚ} (hf : IsFloat f) : |round32 q - q| ≤ |f - q| := by
  obtain ⟨m, k, hm, hk, rfl⟩ := hf
  by_cases hq : q = 0
  · subst hq; simp [round32_zero]
  by_cases hkq : quantumExp q ≤ k
  · rw [zpow_split m hkq]
    exact round32_sub_eq q _
  · have hkq : k < quantumExp q := lt_of_not_le hkq
    have hqe : quantumExp q = Int.log 2 |q| - 23 := by
      unfold quantumExp at hkq ⊢
      rcases max_cases (Int.log 2 |q| - 23) (-149) with ⟨h, _⟩ | ⟨h, _⟩
      · exact h
      · rw [h] at hkq; omega
    have hlog := zpow_log_le_abs hq
    have hfl : |(m : ℚ) * 2 ^ k| < 2 ^ Int.log 2 |q| := by
      rw [abs_mul, abs_of_pos (zpow_pos (by norm_num : (0 : ℚ) < 2) k)]
      have h1 : |(m : ℚ)| < 2 ^ (24 : ℤ) := abs_cast_lt hm
      have h2 : (2 : ℚ) ^ (24 : ℤ) * 2 ^ k ≤ 2 ^ Int.log 2 |q| := by
        rw [← zpow_add₀ (by norm_num : (2 : ℚ) ≠ 0)]
        exact zpow_le_zpow_right₀ (by norm_num) (by omega)
      exact lt_of_lt_of_le (mul_lt_mul_of_pos_right h1 (zpow_pos (by norm_num) _)) h2
    have hpow : (2 : ℚ) ^ Int.log 2 |q| = ((2 ^ 23 : ℤ) : ℚ) * 2 ^ quantumExp q := by
      rw [hqe]
      have : Int.log 2 |q| = 23 + (Int.log 2 |q| - 23) := by omega
      conv_lhs => rw [this]
      rw [zpow_add₀ (by norm_num : (2 : ℚ) ≠ 0)]
      norm_num
    rcases le_or_lt 0 q with h0 | h0
    · have h1 := round32_sub_eq q (2 ^ 23)
      rw [← hpow] at h1
      rw [abs_of_nonneg h0] at hlog hfl
      have h3 : |(2 : ℚ) ^ Int.log 2 q - q| = q - 2 ^ Int.log 2 q := by
        rw [abs_of_nonpos (by linarith)]; ring
      rw [abs_of_nonneg h0, h3] at h1
      rw [abs_lt] at hfl
      refine le_trans h1 ?_
      rw [le_abs]; right; linarith
    · have h1 := round32_sub_eq q (-2 ^ 23)
      have hpow2 : ((-2 ^ 23 : ℤ) : ℚ) * 2 ^ quantumExp q = -(2 : ℚ) ^ Int.log 2 |q| := by
        rw [hpow]; push_cast; ring
      rw [hpow2] at h1
      rw [abs_of_neg h0] at hlog hfl h1
      have h3 : |-(2 : ℚ) ^ Int.log 2 (-q) - q| = -q - 2 ^ Int.log 2 (-q) := by
        rw [abs_of_nonneg (by linarith)]; ring
      rw [h3] at h1
      rw [abs_lt] at hfl
      refine le_trans h1 ?_
      rw [le_abs]; left; linarith

/-- Rounding is monotone. -/
theorem round32_mono {a b : ℚ} (h : a ≤ b) : round32 a ≤ round32 b := by
  rcases eq_or_lt_of_le h with h | h
  · rw [h]
  by_contra hlt
  have hlt : round32 b < round32 a := lt_of_not_le hlt
  have h1 := round32_nearest a (isFloat_round32 b)
  have h2 := round32_nearest b (isFloat_round32 a)
  rcases abs_cases (round32 a - a) with ⟨e1, _⟩ | ⟨e1, _⟩ <;>
    rcases abs_cases (round32 b - a) with ⟨e2, _⟩ | ⟨e2, _⟩ <;>
    rcases abs_cases (round32 b - b) with ⟨e3, _⟩ | ⟨e3, _⟩ <;>
    rcases abs_cases (round32 a - b) with ⟨e4, _⟩ | ⟨e4, _⟩ <;>
    rw [e1, e2] at h1 <;> rw [e3, e4] at h2 <;> linarith

theorem le_round32 {f q : ℚ} (hf : IsFloat f) (h : f ≤ q) : f ≤ round32 q := by
  have := round32_mono h
  rwa [round32_of_isFloat hf] at this

theorem round32_le {f q : ℚ} (hf : IsFloat f) (h : q ≤ f) : round32 q ≤ f := by
  have := round32_mono h
  rwa [round32_of_isFloat hf] at this

/-- The rounding error is at most half a unit in the last place. -/
theorem round32_err (q : ℚ) : |round32 q - q| ≤ |q| / 2 ^ 24 + 1 / 2 ^ 150 := by
  by_cases hq : q = 0
  · subst hq; simp [round32_zero]
  have hu : (0 : ℚ) < 2 ^ quantumExp q := zpow_pos (by norm_num) _
  have h := roundHalfEven_err (q / 2 ^ quantumExp q)
  have e1 : round32 q - q =
      ((roundHalfEven (q / 2 ^ quantumExp q) : ℚ) - q / 2 ^ quantumExp q) * 2 ^ quantumExp q := by
    unfold round32; field_simp
  have h1 : |round32 q - q| ≤ 1 / 2 * 2 ^ quantumExp q := by
    rw [e1, abs_mul, abs_of_pos hu]
    exact mul_le_mul_of_nonneg_right h hu.le
  have hlog := zpow_log_le_abs hq
  have h2 : (2 : ℚ) ^ quantumExp q ≤ |q| / 2 ^ 23 + 1 / 2 ^ 149 := by
    unfold quantumExp
    rcases max_cases (Int.log 2 |q| - 23) (-149) with ⟨h, _⟩ | ⟨h, _⟩
    · rw [h, zpow_sub₀ (by norm_num : (2 : ℚ) ≠ 0)]
      have : (2 : ℚ) ^ Int.log 2 |q| / 2 ^ (23 : ℤ) ≤ |q| / 2 ^ 23 := by
        have e : (2 : ℚ) ^ (23 : ℤ) = 2 ^ 23 := by norm_num
        rw [e]
        exact div_le_div_of_nonneg_right hlog (by norm_num)
      have : (0 : ℚ) ≤ 1 / 2 ^ 149 := by positivity
      linarith
    · rw [h]
      have e : (2 : ℚ) ^ (-149 : ℤ) = 1 / 2 ^ 149 := by
        rw [zpow_neg]; norm_num
      rw [e]
      have : (0 : ℚ) ≤ |q| / 2 ^ 23 := by positivity
      linarith
  calc |round32 q - q| ≤ 1 / 2 * 2 ^ quantumExp q := h1
    _ ≤ 1 / 2 * (|q| / 2 ^ 23 + 1 / 2 ^ 149) := by linarith
    _ = |q| / 2 ^ 24 + 1 / 2 ^ 150 := by ring

theorem round32_eq_of_bounds (q : ℚ) (e : ℤ) (h1 : (2 : ℚ) ^ e ≤ |q|) (h2 : |q| < 2 ^ (e + 1)) :
    round32 q =
      (roundHalfEven (q / 2 ^ max (e - 23) (-149)) : ℚ) * 2 ^ max (e - 23) (-149) := by
  unfold round32 quantumExp
  rw [log_eq_of_bounds h1 h2]

theorem isFloat_intCast (z : ℤ) (h : |z| ≤ 2 ^ 24) : IsFloat (z : ℚ) := by
  by_cases h1 : |z| < 2 ^ 24
  · exact ⟨z, 0, h1, by norm_num, by simp⟩
  · have h2 : z = 2 ^ 24 ∨ z = -2 ^ 24 := by
      rcases abs_cases z with ⟨e, _⟩ | ⟨e, _⟩ <;> rw [e] at h h1 <;> omega
    rcases h2 with h2 | h2
    · exact ⟨2 ^ 23, 1, by norm_num, by norm_num, by rw [h2]; norm_num⟩
    · exact ⟨-2 ^ 23, 1, by norm_num, by norm_num, by rw [h2]; norm_num⟩

theorem isFloat_of_round32_eq {q : ℚ} (h : round32 q = q) : IsFloat q := by
  rw [← h]; exact isFloat_round32 q

theorem isFloat_neg {q : ℚ} (h : IsFloat q) : IsFloat (-q) := by
  obtain ⟨m, k, hm, hk, rfl⟩ := h
  exact ⟨-m, k, by rwa [abs_neg], hk, by push_cast; ring⟩

theorem isFloat_zero : IsFloat 0 := ⟨0, 0, by norm_num, by norm_num, by simp⟩

theorem round32_close {q B : ℚ} (hB : |q| ≤ B) : |round32 q - q| ≤ B / 2 ^ 24 + 1 / 2 ^ 150 := by
  have h := round32_err q
  have : |q| / 2 ^ 24 ≤ B / 2 ^ 24 := div_le_div_of_nonneg_right hB (by norm_num)
  linarith

theorem round32_intCast (z : ℤ) (h : |z| ≤ 2 ^ 24) : round32 (z : ℚ) = z :=
  round32_of_isFloat (isFloat_intCast z h)

theorem round32_natCast (n : ℕ) (h : n ≤ 2 ^ 24) : round32 (n : ℚ) = n := by
  have := round32_intCast (n : ℤ) (by rw [abs_of_nonneg (by positivity)]; exact_mod_cast h)
  exact_mod_cast this

theorem round32_ofNat (n : ℕ) [n.AtLeastTwo] (h : n ≤ 2 ^ 24) :
    round32 (OfNat.ofNat n : ℚ) = OfNat.ofNat n := by
  have := round32_natCast n h
  simpa using this

theorem round32_one : round32 1 = 1 := by
  have := round32_natCast 1 (by norm_num)
  simpa using this

theorem round32_round32 (q : ℚ) : round32 (round32 q) = round32 q :=
  round32_of_isFloat (isFloat_round32 q)

theorem inRange_of {q : ℚ} (hf : IsFloat q) (hb : |q| ≤ 2 ^ 40) : inRange q :=
  ⟨round32_of_isFloat hf, hb⟩

theorem inRange_zero : inRange 0 := inRange_of isFloat_zero (by norm_num)

theorem inRange_one : inRange 1 := ⟨round32_one, by norm_num⟩

theorem inRange_ofNat (n : ℕ) [n.AtLeastTwo] (h : n ≤ 2 ^ 24) :
    inRange (OfNat.ofNat n : ℚ) := by
  refine ⟨round32_ofNat n h, ?_⟩
  have h1 : ((n : ℕ) : ℚ) ≤ ((2 ^ 24 : ℕ) : ℚ) := by exact_mod_cast h
  have h2 : (OfNat.ofNat n : ℚ) = (n : ℚ) := rfl
  rw [h2, abs_of_nonneg (by positivity)]
  refine le_trans h1 ?_
  norm_num

/-! ## Scene view size theorems -/

theorem makePixelPerfect_eq (width : Nat) (h : width < UINT_RANGE) :
    makePixelPerfect width = 2 * (width / 2) := by
  unfold makePixelPerfect
  unfold UINT_RANGE at *
  norm_num at *
  split <;> omega

/-- A whole number that is a binary32 value and at least `2 ^ 24` is even. -/
theorem even_of_isFloat (n : ℕ) (hn : 2 ^ 24 ≤ n) (hf : IsFloat (n : ℚ)) : n % 2 = 0 := by
  obtain ⟨m, k, hm, _, he⟩ := hf
  have hnq : ((2 : ℚ) ^ (24 : ℤ)) ≤ (n : ℚ) :=
    calc ((2 : ℚ) ^ (24 : ℤ)) = ((2 ^ 24 : ℕ) : ℚ) := by norm_num
      _ ≤ (n : ℚ) := by exact_mod_cast hn
  have hmq := abs_cast_lt hm
  have hk : 1 ≤ k := by
    by_contra hk
    have hk0 : k ≤ 0 := by omega
    have h1 : (2 : ℚ) ^ k ≤ 1 := by
      have := zpow_le_zpow_right₀ (by norm_num : (1 : ℚ) ≤ 2) hk0
      simpa using this
    have h2 : (m : ℚ) * 2 ^ k ≤ |(m : ℚ)| * 1 :=
      mul_le_mul (le_abs_self _) h1 (zpow_pos (by norm_num) _).le (abs_nonneg _)
    rw [← he] at h2
    linarith
  have e : (n : ℚ) = ((2 * (m * 2 ^ (k - 1).toNat) : ℤ) : ℚ) := by
    rw [he, zpow_split m hk]
    push_cast
    ring
  have e2 : (n : ℤ) = 2 * (m * 2 ^ (k - 1).toNat) := by exact_mod_cast e
  omega

/-- The binary32 value nearest to an even whole number is an even whole number. -/
theorem round32_even (n : ℕ) (h : n % 2 = 0) : ∃ z : ℤ, round32 (n : ℚ) = 2 * (z : ℚ) := by
  by_cases hn : n ≤ 2 ^ 24
  · refine ⟨((n / 2 : ℕ) : ℤ), ?_⟩
    rw [round32_natCast n hn]
    have : n = 2 * (n / 2) := by omega
    conv_lhs => rw [this]
    simp only [Nat.cast_mul, Nat.cast_ofNat, Int.cast_natCast]
  · have hn : 2 ^ 24 < n := by omega
    have hpos : (0 : ℚ) < |(n : ℚ)| := by
      rw [abs_of_nonneg (by positivity)]
      exact_mod_cast (by omega : 0 < n)
    have hlog : 24 ≤ Int.log 2 |(n : ℚ)| := by
      rw [← Int.zpow_le_iff_le_log (by norm_num) hpos, abs_of_nonneg (by positivity)]
      calc (((2 : ℕ) : ℚ) ^ (24 : ℤ)) = ((2 ^ 24 : ℕ) : ℚ) := by norm_num
        _ ≤ (n : ℚ) := by exact_mod_cast hn.le
    have hq : 1 ≤ quantumExp (n : ℚ) := by
      unfold quantumExp
      exact le_trans (by omega) (le_max_left _ _)
    refine ⟨roundHalfEven ((n : ℚ) / 2 ^ quantumExp (n : ℚ)) * 2 ^ (quantumExp (n : ℚ) - 1).toNat,
      ?_⟩
    unfold round32
    rw [zpow_split _ hq]
    push_cast
    ring

/-- Counterexample for C6: for the maximum `unsigned int` raw width `4294967295` the width
after the pixel-perfect step is `4294967294`, which is not a binary32 value;
`static_cast<float>` rounds it to `4294967296`, and this value, larger than the raw width
and not `2 * ⌊4294967295 / 2⌋`, is handed to `ImGuizmo::SetRect` and to `ImGui::Image`. -/
theorem DrawSceneView_size_rounded :
    makePixelPerfect 4294967295 = 4294967294 ∧
      (DrawSceneView 4294967295 0).SetRectWidth = 4294967296 ∧
      (DrawSceneView 4294967295 0).ImageWidth = 4294967296 ∧
      (4294967296 : ℚ) ≠ ((2 * (4294967295 / 2) : ℕ) : ℚ) ∧
      ¬ ((4294967296 : ℚ) ≤ ((4294967295 : ℕ) : ℚ)) := by
  have h1 : makePixelPerfect 4294967295 = 4294967294 := by decide
  have h2 : round32 (((4294967294 : ℕ)) : ℚ) = 4294967296 := by
    rw [round32_eq_of_bounds _ 31 (by norm_num [abs_of_nonneg]) (by norm_num [abs_of_nonneg])]
    norm_num [roundHalfEven]
  refine ⟨h1, ?_, ?_, by norm_num, by norm_num⟩
  · simp only [DrawSceneView, h1, h2]
  · simp only [DrawSceneView, h1, h2]

/-- C6, amended: for every `unsigned int` raw width and height the width and height after
the pixel-perfect step are the raw values rounded down to the nearest even number
(`w1 = 2 * (w / 2)`, so `w1` is even, `w1 ≤ w`, `w - w1 ≤ 1`, no wrap-around). The values
handed to `ImGuizmo::SetRect` and to `ImGui::Image` are `w1` converted to binary32: an
even whole number, equal to `w1` whenever the raw value is at most `2 ^ 24` or is itself
a binary32 value (as every value converted from a `float` is). -/
theorem DrawSceneView_size_even (width height : Nat) (hw : width < UINT_RANGE)
    (hh : height < UINT_RANGE) :
    ((DrawSceneView width height).SetRectWidth = round32 ((2 * (width / 2) : ℕ) : ℚ) ∧
      (DrawSceneView width height).SetRectHeight = round32 ((2 * (height / 2) : ℕ) : ℚ) ∧
      (DrawSceneView width height).ImageWidth = (DrawSceneView width height).SetRectWidth ∧
      (DrawSceneView width height).ImageHeight = (DrawSceneView width height).SetRectHeight) ∧
    ((width ≤ 2 ^ 24 ∨ round32 (width : ℚ) = (width : ℚ)) →
      (DrawSceneView width height).SetRectWidth = ((2 * (width / 2) : ℕ) : ℚ)) ∧
    ((height ≤ 2 ^ 24 ∨ round32 (height : ℚ) = (height : ℚ)) →
      (DrawSceneView width height).SetRectHeight = ((2 * (height / 2) : ℕ) : ℚ)) ∧
    ((∃ z : ℤ, (DrawSceneView width height).SetRectWidth = 2 * (z : ℚ)) ∧
      ∃ z : ℤ, (DrawSceneView width height).SetRectHeight = 2 * (z : ℚ)) ∧
    (makePixelPerfect width % 2 = 0 ∧ makePixelPerfect width ≤ width ∧
      width - makePixelPerfect width ≤ 1 ∧
      makePixelPerfect width = width - (if width % 2 ≠ 0 then 1 else 0)) ∧
    (makePixelPerfect height % 2 = 0 ∧ makePixelPerfect height ≤ height ∧
      height - makePixelPerfect height ≤ 1 ∧
      makePixelPerfect height = height - (if height % 2 ≠ 0 then 1 else 0)) := by
  have e1 := makePixelPerfect_eq width hw
  have e2 := makePixelPerfect_eq height hh
  have exact : ∀ n : ℕ, (n ≤ 2 ^ 24 ∨ round32 (n : ℚ) = (n : ℚ)) →
      round32 ((2 * (n / 2) : ℕ) : ℚ) = ((2 * (n / 2) : ℕ) : ℚ) := by
    intro n hn
    by_cases hs : n ≤ 2 ^ 24
    · exact round32_natCast _ (by omega)
    · rcases hn with hn | hn
      · exact absurd hn hs
      · have hev := even_of_isFloat n (by omega) (isFloat_of_round32_eq hn)
        have : 2 * (n / 2) = n := by omega
        rw [this]
        exact hn
  refine ⟨⟨?_, ?_, ?_, ?_⟩, ?_, ?_, ⟨?_, ?_⟩, ⟨?_, ?_, ?_, ?_⟩, ⟨?_, ?_, ?_, ?_⟩⟩
  · simp only [DrawSceneView, e1]
  · simp only [DrawSceneView, e2]
  · simp only [DrawSceneView]
  · simp only [DrawSceneView]
  · intro h
    simp only [DrawSceneView, e1]
    exact exact width h
  · intro h
    simp only [DrawSceneView, e2]
    exact exact height h
  · simp only [DrawSceneView, e1]
    exact round32_even _ (by omega)
  · simp only [DrawSceneView, e2]
    exact round32_even _ (by omega)
  · omega
  · omega
  · omega
  · rw [e1]; split <;> omega
  · omega
  · omega
  · omega
  · rw [e2]; split <;> omega

/-- Witness for C6, amended: the raw width `1001` and the raw height `0`. -/
theorem DrawSceneView_size_even_witness :
    (1001 < UINT_RANGE ∧ 0 < UINT_RANGE ∧ 1001 ≤ 2 ^ 24 ∧ 0 ≤ 2 ^ 24) ∧
    (DrawSceneView 1001 0).SetRectWidth = ((2 * (1001 / 2) : ℕ) : ℚ) ∧
    (DrawSceneView 1001 0).SetRectHeight = ((2 * (0 / 2) : ℕ) : ℚ) ∧
    (DrawSceneView 1001 0).ImageWidth = (DrawSceneView 1001 0).SetRectWidth ∧
    (DrawSceneView 1001 0).ImageHeight = (DrawSceneView 1001 0).SetRectHeight :=
  have h := DrawSceneView_size_even 1001 0 (by decide) (by decide)
  ⟨⟨by decide, by decide, by decide, by decide⟩,
    h.2.1 (Or.inl (by decide)), h.2.2.1 (Or.inl (by decide)), h.1.2.2.1, h.1.2.2.2⟩

/-! ## 2D grid theorems -/

theorem fmodf_bounds (a b : ℚ) (hb : 0 < b) : -b < fmodf a b ∧ fmodf a b < b := by
  unfold fmodf truncf
  split_ifs with h
  · have h1 := Int.floor_le (a / b)
    have h2 := Int.lt_floor_add_one (a / b)
    rw [le_div_iff₀ hb] at h1
    rw [div_lt_iff₀ hb] at h2
    constructor <;> nlinarith
  · have h1 := Int.le_ceil (a / b)
    have h2 := Int.ceil_lt_add_one (a / b)
    rw [div_le_iff₀ hb] at h1
    have h3 : (⌈a / b⌉ : ℚ) - 1 < a / b := by linarith
    rw [lt_div_iff₀ hb] at h3
    constructor <;> nlinarith

theorem gridLoop_mem (GRID_SZ offset g size : ℚ) (hG : 0 ≤ GRID_SZ) :
    ∀ (fuel : Nat) (x : ℚ) (its : List (ℤ × List ℤ)), IsFloat x → -GRID_SZ ≤ x →
      gridLoop GRID_SZ offset g size fuel x = some its →
      ∀ it ∈ its, ∃ a, IsFloat a ∧ -GRID_SZ ≤ a ∧ a < round32 (size + GRID_SZ) ∧
        it = gridStep GRID_SZ offset g a := by
  intro fuel
  induction fuel with
  | zero => intro x its _ _ h; simp [gridLoop] at h
  | succ fuel ih =>
    intro x its hx hlow h it hit
    rw [gridLoop] at h
    split_ifs at h with hlt
    · simp only [Option.map_eq_some'] at h
      obtain ⟨rest, hrest, rfl⟩ := h
      rcases List.mem_cons.1 hit with rfl | hmem
      · exact ⟨x, hx, hlow, hlt, rfl⟩
      · exact ih _ rest (isFloat_round32 _)
          (le_trans hlow (le_round32 hx (by linarith))) hrest it hmem
    · simp only [Option.some.injEq] at h
      subst h
      simp at hit

theorem gridLoop_consecutive (GRID_SZ offset g size : ℚ) (hG : 0 ≤ GRID_SZ) :
    ∀ (fuel : Nat) (x : ℚ) (its : List (ℤ × List ℤ)), IsFloat x → -GRID_SZ ≤ x →
      gridLoop GRID_SZ offset g size fuel x = some its →
      ∀ (k : Nat) (it nxt : ℤ × List ℤ), its[k]? = some it → its[k + 1]? = some nxt →
        ∃ a, IsFloat a ∧ -GRID_SZ ≤ a ∧ a < round32 (size + GRID_SZ) ∧
          round32 (a + GRID_SZ) < round32 (size + GRID_SZ) ∧
          it = gridStep GRID_SZ offset g a ∧
          nxt = gridStep GRID_SZ offset g (round32 (a + GRID_SZ)) := by
  intro fuel
  induction fuel with
  | zero => intro x its _ _ h; simp [gridLoop] at h
  | succ fuel ih =>
    intro x its hx hlow h k it nxt hit hnxt
    rw [gridLoop] at h
    split_ifs at h with hlt
    · simp only [Option.map_eq_some'] at h
      obtain ⟨rest, hrest, rfl⟩ := h
      have hx1 : IsFloat (round32 (x + GRID_SZ)) := isFloat_round32 _
      have hlow1 : -GRID_SZ ≤ round32 (x + GRID_SZ) :=
        le_trans hlow (le_round32 hx (by linarith))
      cases k with
      | zero =>
        simp only [List.getElem?_cons_zero, Option.some.injEq] at hit
        simp only [zero_add, List.getElem?_cons_succ] at hnxt
        subst hit
        cases fuel with
        | zero => simp [gridLoop] at hrest
        | succ fuel =>
          rw [gridLoop] at hrest
          split_ifs at hrest with hlt1
          · simp only [Option.map_eq_some'] at hrest
            obtain ⟨rest1, _, rfl⟩ := hrest
            simp only [List.getElem?_cons_zero, Option.some.injEq] at hnxt
            exact ⟨x, hx, hlow, hlt, hlt1, rfl, hnxt.symm⟩
          · simp only [Option.some.injEq] at hrest
            subst hrest
            simp at hnxt
      | succ k =>
        simp only [List.getElem?_cons_succ] at hit hnxt
        exact ih _ rest hx1 hlow1 hrest k it nxt hit hnxt
    · simp only [Option.some.injEq] at h
      subst h
      simp at hit

theorem gridLoop_progress (GRID_SZ size x : ℚ) (hG : 1 / 2 ^ 100 ≤ GRID_SZ)
    (hL : round32 (size + GRID_SZ) + GRID_SZ ≤ 2 ^ 22 * GRID_SZ) (hlow : -GRID_SZ ≤ x)
    (hx : x < round32 (size + GRID_SZ)) : x + GRID_SZ / 2 ≤ round32 (x + GRID_SZ) := by
  have herr := round32_err (x + GRID_SZ)
  rw [abs_of_nonneg (by linarith : 0 ≤ x + GRID_SZ)] at herr
  have h1 := (abs_le.1 herr).1
  have h2 : (1 : ℚ) / 2 ^ 150 ≤ GRID_SZ / 4 := by
    have : (1 : ℚ) / 2 ^ 150 ≤ 1 / 2 ^ 100 / 4 := by norm_num
    linarith
  have h3 : (x + GRID_SZ) / 2 ^ 24 ≤ GRID_SZ / 4 := by
    rw [div_le_iff₀ (by norm_num)]
    linarith
  linarith

theorem gridLoop_returns (GRID_SZ offset g size : ℚ) (hG : 1 / 2 ^ 100 ≤ GRID_SZ)
    (hL : round32 (size + GRID_SZ) + GRID_SZ ≤ 2 ^ 22 * GRID_SZ) :
    ∀ (n : Nat) (x : ℚ), -GRID_SZ ≤ x → round32 (size + GRID_SZ) - n * (GRID_SZ / 2) ≤ x →
      ∀ fuel, n < fuel → ∃ its, gridLoop GRID_SZ offset g size fuel x = some its := by
  have hpos : (0 : ℚ) < GRID_SZ := lt_of_lt_of_le (by norm_num) hG
  intro n
  induction n with
  | zero =>
    intro x _ hx fuel hfuel
    obtain ⟨fuel, rfl⟩ : ∃ m, fuel = m + 1 := ⟨fuel - 1, by omega⟩
    have : ¬ x < round32 (size + GRID_SZ) := by
      simp only [Nat.cast_zero, zero_mul, sub_zero] at hx
      exact not_lt.2 hx
    exact ⟨[], by rw [gridLoop, if_neg this]⟩
  | succ n ih =>
    intro x hlow hx fuel hfuel
    obtain ⟨fuel, rfl⟩ : ∃ m, fuel = m + 1 := ⟨fuel - 1, by omega⟩
    by_cases hlt : x < round32 (size + GRID_SZ)
    · have hp := gridLoop_progress GRID_SZ size x hG hL hlow hlt
      obtain ⟨rest, hrest⟩ := ih (round32 (x + GRID_SZ)) (by linarith)
        (by push_cast at hx; linarith) fuel (by omega)
      exact ⟨_, by rw [gridLoop, if_pos hlt, hrest]; rfl⟩
    · exact ⟨[], by rw [gridLoop, if_neg hlt]⟩

theorem gridLoop_terminates (GRID_SZ offset g size : ℚ) (hG : 1 / 2 ^ 100 ≤ GRID_SZ)
    (hL : round32 (size + GRID_SZ) + GRID_SZ ≤ 2 ^ 22 * GRID_SZ) :
    ∃ N, ∀ fuel, N ≤ fuel → ∃ its, gridLoop GRID_SZ offset g size fuel (-GRID_SZ) = some its := by
  have hpos : (0 : ℚ) < GRID_SZ := lt_of_lt_of_le (by norm_num) hG
  refine ⟨⌈(round32 (size + GRID_SZ) + GRID_SZ) / (GRID_SZ / 2)⌉₊ + 1, ?_⟩
  intro fuel hfuel
  apply gridLoop_returns GRID_SZ offset g size hG hL
    ⌈(round32 (size + GRID_SZ) + GRID_SZ) / (GRID_SZ / 2)⌉₊ (-GRID_SZ) le_rfl _ fuel (by omega)
  have h := Nat.le_ceil ((round32 (size + GRID_SZ) + GRID_SZ) / (GRID_SZ / 2))
  rw [div_le_iff₀ (by linarith)] at h
  linarith

/-- The grid size in the range of factors from `1 / 1024` to `1024`. -/
theorem GRID_SZ_bounds {factor : ℚ} (h1 : 1 / 1024 ≤ factor) (h2 : factor ≤ 1024) :
    IsFloat (round32 (64 / factor)) ∧ 1 / 16 ≤ round32 (64 / factor) ∧
      round32 (64 / factor) ≤ 65536 := by
  have hpos : (0 : ℚ) < factor := lt_of_lt_of_le (by norm_num) h1
  refine ⟨isFloat_round32 _, ?_, ?_⟩
  · apply le_round32 ⟨1, -4, by norm_num, by norm_num, by norm_num⟩
    rw [le_div_iff₀ hpos]; linarith
  · apply round32_le ⟨1, 16, by norm_num, by norm_num, by norm_num⟩
    rw [div_le_iff₀ hpos]; linarith

/-- The loop limit `size + GRID_SZ` for canvas sizes up to 65536 pixels. -/
theorem limit_bounds {GRID_SZ size : ℚ} (hG1 : 1 / 16 ≤ GRID_SZ) (hG2 : GRID_SZ ≤ 65536)
    (hs1 : 0 ≤ size) (hs2 : size ≤ 65536) :
    0 ≤ round32 (size + GRID_SZ) ∧ round32 (size + GRID_SZ) ≤ 131072 ∧
      round32 (size + GRID_SZ) + GRID_SZ ≤ 2 ^ 22 * GRID_SZ := by
  have h1 : 0 ≤ round32 (size + GRID_SZ) := le_round32 isFloat_zero (by linarith)
  have h2 : round32 (size + GRID_SZ) ≤ 131072 :=
    round32_le ⟨1, 17, by norm_num, by norm_num, by norm_num⟩ (by linarith)
  refine ⟨h1, h2, ?_⟩
  linarith

theorem floor_sub_close {A B G e : ℚ} (h : |B - A - G| ≤ e) :
    |((⌊B⌋ - ⌊A⌋ : ℤ) : ℚ) - G| < 1 + e := by
  have h1 := Int.floor_le A
  have h2 := Int.lt_floor_add_one A
  have h3 := Int.floor_le B
  have h4 := Int.lt_floor_add_one B
  have h5 := abs_le.1 h
  rw [abs_lt]
  push_cast
  constructor <;> linarith [h5.1, h5.2]

/-- Two consecutive major lines of a loop are `GRID_SZ` apart up to the flooring and the
rounding of the binary32 sums. -/
theorem gridStep_spacing (GRID_SZ offset g a : ℚ) (hG1 : 0 < GRID_SZ) (hG2 : GRID_SZ ≤ 65536)
    (ha1 : -GRID_SZ ≤ a) (ha2 : a ≤ 131072) (hb : round32 (a + GRID_SZ) ≤ 131072) :
    |(((gridStep GRID_SZ offset g (round32 (a + GRID_SZ))).1 -
        (gridStep GRID_SZ offset g a).1 : ℤ) : ℚ) - GRID_SZ| < 1 + 10 / 256 := by
  obtain ⟨hr1, hr2⟩ := fmodf_bounds offset GRID_SZ hG1
  have hb1 : -GRID_SZ ≤ round32 (a + GRID_SZ) := by
    have := le_round32 isFloat_zero (by linarith : (0 : ℚ) ≤ a + GRID_SZ)
    linarith
  have e0 := abs_le.1 (round32_close (q := a + GRID_SZ) (B := 196608)
    (abs_le.2 ⟨by linarith, by linarith⟩))
  have e1 := abs_le.1 (round32_close (q := a + fmodf offset GRID_SZ) (B := 196608)
    (abs_le.2 ⟨by linarith, by linarith⟩))
  have e2 := abs_le.1 (round32_close (q := round32 (a + GRID_SZ) + fmodf offset GRID_SZ)
    (B := 196608) (abs_le.2 ⟨by linarith, by linarith⟩))
  have hc : |round32 (round32 (a + GRID_SZ) + fmodf offset GRID_SZ) -
      round32 (a + fmodf offset GRID_SZ) - GRID_SZ| ≤ 10 / 256 := by
    rw [abs_le]
    constructor <;> norm_num at e0 e1 e2 ⊢ <;> linarith [e0.1, e0.2, e1.1, e1.2, e2.1, e2.2]
  have := floor_sub_close hc
  simp only [gridStep, floorf]
  norm_num at this ⊢
  linarith

theorem graduationSteps_ten : graduationSteps 10 = [1, 2, 3, 4, 5, 6, 7, 8, 9] := by
  have h : ⌈(10 : ℚ)⌉₊ = 10 := by norm_num
  unfold graduationSteps
  rw [h]
  decide

theorem gridStep_minors (GRID_SZ offset x : ℚ) :
    (gridStep GRID_SZ offset 10 x).2 =
      [1, 2, 3, 4, 5, 6, 7, 8, 9].map fun (i : ℕ) =>
        ⌊round32 (((gridStep GRID_SZ offset 10 x).1 : ℚ) +
          round32 (round32 (GRID_SZ / 10) * (i : ℚ)))⌋ := by
  simp only [gridStep, graduationSteps_ten, floorf]

/-- The position of a major line in the range of the theorems. -/
theorem gridStep_major_bounds (GRID_SZ offset g a : ℚ) (hG1 : 0 < GRID_SZ)
    (hG2 : GRID_SZ ≤ 65536) (ha1 : -GRID_SZ ≤ a) (ha2 : a ≤ 131072) :
    -131073 ≤ (gridStep GRID_SZ offset g a).1 ∧ (gridStep GRID_SZ offset g a).1 ≤ 196608 := by
  obtain ⟨hr1, hr2⟩ := fmodf_bounds offset GRID_SZ hG1
  have h1 : (-131072 : ℚ) ≤ round32 (a + fmodf offset GRID_SZ) :=
    le_round32 ⟨-1, 17, by norm_num, by norm_num, by norm_num⟩ (by linarith)
  have h2 : round32 (a + fmodf offset GRID_SZ) ≤ 196608 :=
    round32_le ⟨3, 16, by norm_num, by norm_num, by norm_num⟩ (by linarith)
  simp only [gridStep, floorf]
  constructor
  · have := Int.lt_floor_add_one (round32 (a + fmodf offset GRID_SZ))
    have h3 : ((-131073 : ℤ) : ℚ) < (⌊round32 (a + fmodf offset GRID_SZ)⌋ : ℚ) := by
      push_cast; linarith
    exact le_of_lt (by exact_mod_cast h3)
  · have := Int.floor_le (round32 (a + fmodf offset GRID_SZ))
    have h3 : (⌊round32 (a + fmodf offset GRID_SZ)⌋ : ℚ) ≤ ((196608 : ℤ) : ℚ) := by
      push_cast; linarith
    exact_mod_cast h3

/-- The minor graduation line number `i` after the major line at `M`. -/
theorem minor_bounds (GRID_SZ : ℚ) (M : ℤ) (i : ℕ) (hG1 : 0 < GRID_SZ) (hG2 : GRID_SZ ≤ 65536)
    (hM1 : -131073 ≤ M) (hM2 : M ≤ 196608) (hi1 : 1 ≤ i) (hi2 : i ≤ 9) :
    M ≤ ⌊round32 ((M : ℚ) + round32 (round32 (GRID_SZ / 10) * (i : ℚ)))⌋ ∧
      (10 ≤ GRID_SZ → M < ⌊round32 ((M : ℚ) + round32 (round32 (GRID_SZ / 10) * (i : ℚ)))⌋) ∧
      (M : ℚ) + (i : ℚ) * (GRID_SZ / 10) - (1 + 7 / 256) <
        (⌊round32 ((M : ℚ) + round32 (round32 (GRID_SZ / 10) * (i : ℚ)))⌋ : ℚ) ∧
      (⌊round32 ((M : ℚ) + round32 (round32 (GRID_SZ / 10) * (i : ℚ)))⌋ : ℚ) ≤
        (M : ℚ) + (i : ℚ) * (GRID_SZ / 10) + 7 / 256 := by
  have hi1q : (1 : ℚ) ≤ (i : ℚ) := by exact_mod_cast hi1
  have hi2q : (i : ℚ) ≤ 9 := by exact_mod_cast hi2
  have hM1q : (-131073 : ℚ) ≤ (M : ℚ) := by exact_mod_cast hM1
  have hM2q : (M : ℚ) ≤ 196608 := by exact_mod_cast hM2
  have hMf : IsFloat (M : ℚ) := isFloat_intCast M (by rw [abs_le]; constructor <;> omega)
  -- the small graduation
  have hs0 : 0 ≤ round32 (GRID_SZ / 10) := le_round32 isFloat_zero (by positivity)
  have hs1 : round32 (GRID_SZ / 10) ≤ 8192 :=
    round32_le ⟨1, 13, by norm_num, by norm_num, by norm_num⟩ (by linarith)
  have es := abs_le.1 (round32_close (q := GRID_SZ / 10) (B := 8192)
    (abs_le.2 ⟨by linarith [div_pos hG1 (by norm_num : (0 : ℚ) < 10)], by linarith⟩))
  -- the product
  have hp0 : 0 ≤ round32 (GRID_SZ / 10) * (i : ℚ) := by positivity
  have hp1 : round32 (GRID_SZ / 10) * (i : ℚ) ≤ 73728 := by nlinarith
  have ht0 : 0 ≤ round32 (round32 (GRID_SZ / 10) * (i : ℚ)) := le_round32 isFloat_zero hp0
  have ht1 : round32 (round32 (GRID_SZ / 10) * (i : ℚ)) ≤ 73728 :=
    round32_le ⟨9, 13, by norm_num, by norm_num, by norm_num⟩ hp1
  have et := abs_le.1 (round32_close (q := round32 (GRID_SZ / 10) * (i : ℚ)) (B := 73728)
    (abs_le.2 ⟨by linarith, hp1⟩))
  -- the sum
  have eu := abs_le.1 (round32_close
    (q := (M : ℚ) + round32 (round32 (GRID_SZ / 10) * (i : ℚ))) (B := 270336)
    (abs_le.2 ⟨by linarith, by linarith⟩))
  have hfl := Int.floor_le (round32 ((M : ℚ) + round32 (round32 (GRID_SZ / 10) * (i : ℚ))))
  have hfl2 := Int.lt_floor_add_one
    (round32 ((M : ℚ) + round32 (round32 (GRID_SZ / 10) * (i : ℚ))))
  have hprod : |round32 (GRID_SZ / 10) * (i : ℚ) - (i : ℚ) * (GRID_SZ / 10)| ≤
      9 * (8192 / 2 ^ 24 + 1 / 2 ^ 150) := by
    have e : round32 (GRID_SZ / 10) * (i : ℚ) - (i : ℚ) * (GRID_SZ / 10) =
        (i : ℚ) * (round32 (GRID_SZ / 10) - GRID_SZ / 10) := by ring
    rw [e, abs_le]
    constructor <;> nlinarith [es.1, es.2]
  have hprod := abs_le.1 hprod
  refine ⟨?_, ?_, ?_, ?_⟩
  · rw [Int.le_floor]
    exact le_round32 hMf (by linarith)
  · intro h10
    rw [Int.lt_iff_add_one_le, Int.le_floor]
    have hs : (1 : ℚ) ≤ round32 (GRID_SZ / 10) :=
      le_round32 ⟨1, 0, by norm_num, by norm_num, by norm_num⟩ (by linarith)
    have ht : (1 : ℚ) ≤ round32 (round32 (GRID_SZ / 10) * (i : ℚ)) :=
      le_round32 ⟨1, 0, by norm_num, by norm_num, by norm_num⟩ (by nlinarith)
    have hM1f : IsFloat (((M + 1 : ℤ)) : ℚ) :=
      isFloat_intCast (M + 1) (by rw [abs_le]; constructor <;> omega)
    exact le_round32 hM1f (by push_cast; linarith)
  · norm_num at es et eu hprod ⊢
    linarith [es.1, es.2, et.1, et.2, eu.1, eu.2, hprod.1, hprod.2]
  · norm_num at es et eu hprod ⊢
    linarith [es.1, es.2, et.1, et.2, eu.1, eu.2, hprod.1, hprod.2]

/-- What the theorems on the line loops state about one loop, for a grid size between
`1 / 16` and `65536` and a canvas size between `0` and `65536`: the loop ends, consecutive
major lines are `GRID_SZ` apart up to flooring and rounding, and each major line is
followed by 9 minor lines near the tenths of the grid size. -/
theorem gridLoop_lines (GRID_SZ offset size : ℚ) (hGf : IsFloat GRID_SZ)
    (hG1 : 1 / 16 ≤ GRID_SZ) (hG2 : GRID_SZ ≤ 65536) (hs1 : 0 ≤ size) (hs2 : size ≤ 65536) :
    ∃ N, ∀ fuel, N ≤ fuel →
      ∃ its, gridLoop GRID_SZ offset 10 size fuel (-GRID_SZ) = some its ∧
        (∀ (k : Nat) (it nxt : ℤ × List ℤ), its[k]? = some it → its[k + 1]? = some nxt →
          |((nxt.1 - it.1 : ℤ) : ℚ) - GRID_SZ| < 1 + 10 / 256 ∧
          (11 ≤ GRID_SZ → ∀ m ∈ it.2, m < nxt.1)) ∧
        (∀ it ∈ its, it.2.length = 9 ∧
          ∀ i : ℕ, i < 9 → ∃ m : ℤ, it.2[i]? = some m ∧ it.1 ≤ m ∧
            (10 ≤ GRID_SZ → it.1 < m) ∧
            (it.1 : ℚ) + ((i + 1 : ℕ) : ℚ) * (GRID_SZ / 10) - (1 + 7 / 256) < (m : ℚ) ∧
            (m : ℚ) ≤ (it.1 : ℚ) + ((i + 1 : ℕ) : ℚ) * (GRID_SZ / 10) + 7 / 256) := by
  have hpos : (0 : ℚ) < GRID_SZ := lt_of_lt_of_le (by norm_num) hG1
  obtain ⟨hL0, hL1, hL2⟩ := limit_bounds hG1 hG2 hs1 hs2
  obtain ⟨N, hN⟩ := gridLoop_terminates GRID_SZ offset 10 size
    (le_trans (by norm_num) hG1) hL2
  refine ⟨N, fun fuel hfuel => ?_⟩
  obtain ⟨its, hits⟩ := hN fuel hfuel
  have hminor : ∀ a, -GRID_SZ ≤ a → a ≤ 131072 → ∀ i : ℕ, i < 9 →
      ∃ m : ℤ, (gridStep GRID_SZ offset 10 a).2[i]? = some m ∧
        (gridStep GRID_SZ offset 10 a).1 ≤ m ∧
        (10 ≤ GRID_SZ → (gridStep GRID_SZ offset 10 a).1 < m) ∧
        ((gridStep GRID_SZ offset 10 a).1 : ℚ) + ((i + 1 : ℕ) : ℚ) * (GRID_SZ / 10)
          - (1 + 7 / 256) < (m : ℚ) ∧
        (m : ℚ) ≤ ((gridStep GRID_SZ offset 10 a).1 : ℚ) + ((i + 1 : ℕ) : ℚ) * (GRID_SZ / 10)
          + 7 / 256 := by
    intro a ha1 ha2 i hi
    obtain ⟨hM1, hM2⟩ := gridStep_major_bounds GRID_SZ offset 10 a hpos hG2 ha1 ha2
    have hb := minor_bounds GRID_SZ (gridStep GRID_SZ offset 10 a).1 (i + 1) hpos hG2 hM1 hM2
      (by omega) (by omega)
    refine ⟨_, ?_, hb⟩
    rw [gridStep_minors]
    interval_cases i <;> simp
  refine ⟨its, hits, ?_, ?_⟩
  · intro k it nxt hit hnxt
    obtain ⟨a, _, ha1, ha2, hb2, rfl, rfl⟩ :=
      gridLoop_consecutive GRID_SZ offset 10 size hpos.le fuel _ its (isFloat_neg hGf) le_rfl
        hits k it nxt hit hnxt
    have hsp := gridStep_spacing GRID_SZ offset 10 a hpos hG2 ha1 (by linarith) (by linarith)
    refine ⟨hsp, ?_⟩
    intro h11 m hm
    obtain ⟨i, hi, hmi⟩ : ∃ i : ℕ, i < 9 ∧ (gridStep GRID_SZ offset 10 a).2[i]? = some m := by
      obtain ⟨i, hi, hmi⟩ := List.getElem_of_mem hm
      have hlen : (gridStep GRID_SZ offset 10 a).2.length = 9 := by
        rw [gridStep_minors]; simp
      exact ⟨i, by omega, by rw [List.getElem?_eq_getElem hi, hmi]⟩
    obtain ⟨m1, hm1, _, _, _, hup⟩ := hminor a ha1 (by linarith) i hi
    rw [hmi] at hm1
    obtain rfl : m = m1 := by simpa using hm1
    have hi9 : ((i + 1 : ℕ) : ℚ) ≤ 9 := by exact_mod_cast (by omega : i + 1 ≤ 9)
    have hsp2 := (abs_lt.1 hsp).1
    push_cast at hsp2
    have hlt : (m : ℚ) < ((gridStep GRID_SZ offset 10 (round32 (a + GRID_SZ))).1 : ℚ) := by
      nlinarith
    exact_mod_cast hlt
  · intro it hit
    obtain ⟨a, _, ha1, ha2, rfl⟩ :=
      gridLoop_mem GRID_SZ offset 10 size hpos.le fuel _ its (isFloat_neg hGf) le_rfl hits it hit
    refine ⟨by rw [gridStep_minors]; simp, ?_⟩
    intro i hi
    exact hminor a ha1 (by linarith) i hi

theorem GRID_SZ_close {factor : ℚ} (h1 : 1 / 1024 ≤ factor) :
    |round32 (64 / factor) - 64 / factor| ≤ 1 / 128 := by
  have hpos : (0 : ℚ) < factor := lt_of_lt_of_le (by norm_num) h1
  have hq : |64 / factor| ≤ 65536 := by
    rw [abs_of_pos (by positivity), div_le_iff₀ hpos]; linarith
  have := round32_close hq
  norm_num at this ⊢
  linarith

theorem gridColumns_eq {fuel : Nat} {cameraPos canvasSize : ImVec2} {factor : ℚ}
    {its : List (ℤ × List ℤ)} (hin : GridInputs cameraPos canvasSize factor)
    (h : gridLoop (round32 (64 / factor)) (gridOffset cameraPos canvasSize factor).x 10
      canvasSize.x fuel (-round32 (64 / factor)) = some its) :
    gridColumns fuel cameraPos canvasSize factor = .ok its := by
  simp only [gridColumns, if_pos hin, graduation, h]

theorem gridRows_eq {fuel : Nat} {cameraPos canvasSize : ImVec2} {factor : ℚ}
    {its : List (ℤ × List ℤ)} (hin : GridInputs cameraPos canvasSize factor)
    (h : gridLoop (round32 (64 / factor)) (gridOffset cameraPos canvasSize factor).y 10
      canvasSize.y fuel (-round32 (64 / factor)) = some its) :
    gridRows fuel cameraPos canvasSize factor = .ok its := by
  simp only [gridRows, if_pos hin, graduation, h]

/-- Both line loops in the range of the theorems: factor from `1 / 1024` to `1024`, canvas
sizes from `0` to `65536`. -/
theorem grid_lines (cameraPos canvasSize : ImVec2) (factor : ℚ)
    (hin : GridInputs cameraPos canvasSize factor)
    (hf1 : 1 / 1024 ≤ factor) (hf2 : factor ≤ 1024)
    (hx1 : 0 ≤ canvasSize.x) (hx2 : canvasSize.x ≤ 65536)
    (hy1 : 0 ≤ canvasSize.y) (hy2 : canvasSize.y ≤ 65536) :
    ∃ N, ∀ fuel, N ≤ fuel →
      ∃ columns rows,
        gridColumns fuel cameraPos canvasSize factor = .ok columns ∧
        gridRows fuel cameraPos canvasSize factor = .ok rows ∧
        ∀ its, its = columns ∨ its = rows →
          (∀ (k : Nat) (it nxt : ℤ × List ℤ), its[k]? = some it → its[k + 1]? = some nxt →
            |((nxt.1 - it.1 : ℤ) : ℚ) - 64 / factor| < 17 / 16 ∧
            (11 ≤ 64 / factor → ∀ m ∈ it.2, m < nxt.1)) ∧
          (∀ it ∈ its, it.2.length = 9 ∧
            ∀ i : ℕ, i < 9 → ∃ m : ℤ, it.2[i]? = some m ∧ it.1 ≤ m ∧
              (10 ≤ 64 / factor → it.1 < m) ∧
              (it.1 : ℚ) + ((i + 1 : ℕ) : ℚ) * (64 / factor / 10) - 17 / 16 < (m : ℚ) ∧
              (m : ℚ) ≤ (it.1 : ℚ) + ((i + 1 : ℕ) : ℚ) * (64 / factor / 10) + 1 / 16) := by
  obtain ⟨hGf, hG1, hG2⟩ := GRID_SZ_bounds hf1 hf2
  have hc := abs_le.1 (GRID_SZ_close hf1)
  obtain ⟨N1, h1⟩ := gridLoop_lines (round32 (64 / factor))
    (gridOffset cameraPos canvasSize factor).x canvasSize.x hGf hG1 hG2 hx1 hx2
  obtain ⟨N2, h2⟩ := gridLoop_lines (round32 (64 / factor))
    (gridOffset cameraPos canvasSize factor).y canvasSize.y hGf hG1 hG2 hy1 hy2
  refine ⟨max N1 N2, fun fuel hfuel => ?_⟩
  obtain ⟨columns, hcol, hcs, hcm⟩ := h1 fuel (le_trans (le_max_left _ _) hfuel)
  obtain ⟨rows, hrow, hrs, hrm⟩ := h2 fuel (le_trans (le_max_right _ _) hfuel)
  refine ⟨columns, rows, gridColumns_eq hin hcol, gridRows_eq hin hrow, ?_⟩
  have key : ∀ its : List (ℤ × List ℤ),
      (∀ (k : Nat) (it nxt : ℤ × List ℤ), its[k]? = some it → its[k + 1]? = some nxt →
          |((nxt.1 - it.1 : ℤ) : ℚ) - round32 (64 / factor)| < 1 + 10 / 256 ∧
          (11 ≤ round32 (64 / factor) → ∀ m ∈ it.2, m < nxt.1)) →
      (∀ it ∈ its, it.2.length = 9 ∧
          ∀ i : ℕ, i < 9 → ∃ m : ℤ, it.2[i]? = some m ∧ it.1 ≤ m ∧
            (10 ≤ round32 (64 / factor) → it.1 < m) ∧
            (it.1 : ℚ) + ((i + 1 : ℕ) : ℚ) * (round32 (64 / factor) / 10) - (1 + 7 / 256)
              < (m : ℚ) ∧
            (m : ℚ) ≤ (it.1 : ℚ) + ((i + 1 : ℕ) : ℚ) * (round32 (64 / factor) / 10)
              + 7 / 256) →
      (∀ (k : Nat) (it nxt : ℤ × List ℤ), its[k]? = some it → its[k + 1]? = some nxt →
            |((nxt.1 - it.1 : ℤ) : ℚ) - 64 / factor| < 17 / 16 ∧
            (11 ≤ 64 / factor → ∀ m ∈ it.2, m < nxt.1)) ∧
          (∀ it ∈ its, it.2.length = 9 ∧
            ∀ i : ℕ, i < 9 → ∃ m : ℤ, it.2[i]? = some m ∧ it.1 ≤ m ∧
              (10 ≤ 64 / factor → it.1 < m) ∧
              (it.1 : ℚ) + ((i + 1 : ℕ) : ℚ) * (64 / factor / 10) - 17 / 16 < (m : ℚ) ∧
              (m : ℚ) ≤ (it.1 : ℚ) + ((i + 1 : ℕ) : ℚ) * (64 / factor / 10) + 1 / 16) := by
    intro its hs hm
    constructor
    · intro k it nxt hit hnxt
      obtain ⟨ha, hb⟩ := hs k it nxt hit hnxt
      constructor
      · rw [abs_lt] at ha ⊢
        constructor <;> linarith [ha.1, ha.2, hc.1, hc.2]
      · intro h11
        exact hb (le_round32 ⟨11, 0, by norm_num, by norm_num, by norm_num⟩ h11)
    · intro it hit
      obtain ⟨hlen, hi⟩ := hm it hit
      refine ⟨hlen, fun i hi9 => ?_⟩
      obtain ⟨m, hm1, hm2, hm3, hm4, hm5⟩ := hi i hi9
      have hi1 : (1 : ℚ) ≤ ((i + 1 : ℕ) : ℚ) := by exact_mod_cast (by omega : 1 ≤ i + 1)
      have hi2 : ((i + 1 : ℕ) : ℚ) ≤ 9 := by exact_mod_cast (by omega : i + 1 ≤ 9)
      refine ⟨m, hm1, hm2, ?_, ?_, ?_⟩
      · intro h10
        exact hm3 (le_round32 ⟨5, 1, by norm_num, by norm_num, by norm_num⟩ h10)
      · nlinarith [hc.1, hc.2]
      · nlinarith [hc.1, hc.2]
  rintro its (rfl | rfl)
  · exact key _ hcs hcm
  · exact key _ hrs hrm

theorem gridLoop_mem_of (GRID_SZ offset g size : ℚ) (P : ℚ → Prop)
    (hstep : ∀ x, P x → x < round32 (size + GRID_SZ) → P (round32 (x + GRID_SZ))) :
    ∀ (fuel : Nat) (x : ℚ) (its : List (ℤ × List ℤ)), P x →
      gridLoop GRID_SZ offset g size fuel x = some its →
      ∀ it ∈ its, ∃ a, P a ∧ a < round32 (size + GRID_SZ) ∧
        it = gridStep GRID_SZ offset g a := by
  intro fuel
  induction fuel with
  | zero => intro x its _ h; simp [gridLoop] at h
  | succ fuel ih =>
    intro x its hx h it hit
    rw [gridLoop] at h
    split_ifs at h with hlt
    · simp only [Option.map_eq_some'] at h
      obtain ⟨rest, hrest, rfl⟩ := h
      rcases List.mem_cons.1 hit with rfl | hmem
      · exact ⟨x, hx, hlt, rfl⟩
      · exact ih _ rest (hstep x hx hlt) hrest it hmem
    · simp only [Option.some.injEq] at h
      subst h
      simp at hit

theorem gridLoop_iterations (GRID_SZ offset g size : ℚ) :
    ∀ (n fuel : Nat) (x : ℚ), n < fuel →
      (∀ k : Nat, k < n → x + k * GRID_SZ < round32 (size + GRID_SZ)) →
      ¬ (x + n * GRID_SZ < round32 (size + GRID_SZ)) →
      (∀ k : Nat, k < n → round32 (x + k * GRID_SZ + GRID_SZ) = x + k * GRID_SZ + GRID_SZ) →
      gridLoop GRID_SZ offset g size fuel x =
        some ((List.range n).map fun (k : ℕ) => gridStep GRID_SZ offset g (x + k * GRID_SZ)) := by
  intro n
  induction n with
  | zero =>
    intro fuel x hfuel _ hstop _
    obtain ⟨fuel, rfl⟩ : ∃ m, fuel = m + 1 := ⟨fuel - 1, by omega⟩
    have hx : ¬ (x < round32 (size + GRID_SZ)) := by simpa using hstop
    simp [gridLoop, hx]
  | succ n ih =>
    intro fuel x hfuel hlt hstop hex
    obtain ⟨fuel, rfl⟩ : ∃ m, fuel = m + 1 := ⟨fuel - 1, by omega⟩
    have hx : x < round32 (size + GRID_SZ) := by simpa using hlt 0 (Nat.succ_pos n)
    have hx1 : round32 (x + GRID_SZ) = x + GRID_SZ := by simpa using hex 0 (Nat.succ_pos n)
    have hrest := ih fuel (x + GRID_SZ) (by omega)
      (fun k hk => by
        have := hlt (k + 1) (by omega)
        push_cast at this
        linarith)
      (by
        intro hcon
        apply hstop
        push_cast
        linarith)
      (fun k hk => by
        have := hex (k + 1) (by omega)
        push_cast at this
        have e : x + GRID_SZ + (k : ℚ) * GRID_SZ + GRID_SZ
            = x + ((k : ℚ) + 1) * GRID_SZ + GRID_SZ := by ring
        rw [e]
        exact this)
    rw [gridLoop, if_pos hx, hx1, hrest, List.range_succ_eq_map]
    simp only [Option.map_some', List.map_cons, List.map_map, Nat.cast_zero, zero_mul, add_zero,
      Option.some.injEq, List.cons.injEq, true_and]
    apply List.map_congr_left
    intro k _
    simp only [Function.comp_apply, Nat.succ_eq_add_one, Nat.cast_add, Nat.cast_one]
    congr 1
    ring

/-- The iterations of a line loop all of whose sums are exact. -/
theorem gridLoop_exact (GRID_SZ offset g size : ℚ) (hG : 0 < GRID_SZ) (x : ℚ)
    (hL : round32 (size + GRID_SZ) = size + GRID_SZ)
    (hex : ∀ k : Nat, x + k * GRID_SZ < size + GRID_SZ →
      round32 (x + k * GRID_SZ + GRID_SZ) = x + k * GRID_SZ + GRID_SZ)
    (fuel : Nat) (hfuel : ⌈(size + GRID_SZ - x) / GRID_SZ⌉₊ < fuel) :
    gridLoop GRID_SZ offset g size fuel x =
      some ((List.range ⌈(size + GRID_SZ - x) / GRID_SZ⌉₊).map
        fun (k : ℕ) => gridStep GRID_SZ offset g (x + k * GRID_SZ)) := by
  have hlt : ∀ k : Nat, k < ⌈(size + GRID_SZ - x) / GRID_SZ⌉₊ →
      x + k * GRID_SZ < size + GRID_SZ := by
    intro k hk
    have h1 : (k : ℚ) < (size + GRID_SZ - x) / GRID_SZ := Nat.lt_ceil.1 hk
    rw [lt_div_iff₀ hG] at h1
    linarith
  apply gridLoop_iterations _ _ _ _ _ _ _ hfuel
  · intro k hk
    rw [hL]
    exact hlt k hk
  · rw [hL]
    intro hcon
    have h1 : ((⌈(size + GRID_SZ - x) / GRID_SZ⌉₊ : ℕ) : ℚ) < (size + GRID_SZ - x) / GRID_SZ := by
      rw [lt_div_iff₀ hG]
      linarith
    exact absurd (Nat.lt_ceil.2 h1) (lt_irrefl _)
  · intro k hk
    exact hex k (hlt k hk)

theorem fmodf_of_nonneg (a : ℚ) (ha : 0 ≤ a) :
    fmodf a 64 = a - (⌊a / 64⌋ : ℚ) * 64 ∧ 0 ≤ fmodf a 64 ∧ fmodf a 64 < 64 := by
  have h0 : (0 : ℚ) ≤ a / 64 := by positivity
  have e : fmodf a 64 = a - (⌊a / 64⌋ : ℚ) * 64 := by
    simp only [fmodf, truncf, if_pos h0]
  have h1 := Int.floor_le (a / 64)
  have h2 := Int.lt_floor_add_one (a / 64)
  rw [e]
  refine ⟨rfl, ?_, ?_⟩ <;> linarith

theorem fmodf_of_neg (a : ℚ) (ha : a < 0) :
    fmodf a 64 = a - (⌈a / 64⌉ : ℚ) * 64 := by
  have h0 : ¬ (0 : ℚ) ≤ a / 64 := by
    rw [not_le]
    apply div_neg_of_neg_of_pos ha
    norm_num
  simp only [fmodf, truncf, if_neg h0]

theorem fmodf_shift (a : ℚ) :
    ⌊fmodf (a - 19200) 64⌋ = ⌊fmodf a 64⌋ ∨
      (⌊fmodf (a - 19200) 64⌋ = ⌊fmodf a 64⌋ - 64 ∧ 0 ≤ a ∧ fmodf a 64 ≠ 0 ∧
        0 ≤ fmodf a 64 ∧ fmodf a 64 < 64 ∧ fmodf a 64 = a - (⌊a / 64⌋ : ℚ) * 64) := by
  have hdiv : (a - 19200) / 64 = a / 64 - ((300 : ℤ) : ℚ) := by
    push_cast
    ring
  by_cases ha : a < 0
  · left
    rw [fmodf_of_neg a ha, fmodf_of_neg (a - 19200) (by linarith), hdiv, Int.ceil_sub_int]
    congr 1
    push_cast
    ring
  · rw [not_lt] at ha
    obtain ⟨e0, hr0, hr1⟩ := fmodf_of_nonneg a ha
    by_cases hb : 0 ≤ a - 19200
    · left
      rw [(fmodf_of_nonneg (a - 19200) hb).1, e0, hdiv, Int.floor_sub_int]
      congr 1
      push_cast
      ring
    · rw [not_le] at hb
      have e1 : fmodf (a - 19200) 64 = a - (⌈a / 64⌉ : ℚ) * 64 := by
        rw [fmodf_of_neg (a - 19200) hb, hdiv, Int.ceil_sub_int]
        push_cast
        ring
      by_cases hz : fmodf a 64 = 0
      · left
        have hq : a / 64 = (⌊a / 64⌋ : ℚ) := by
          rw [e0] at hz
          linarith
        have hc : ⌈a / 64⌉ = ⌊a / 64⌋ := by
          rw [hq, Int.ceil_intCast, Int.floor_intCast]
        rw [e1, e0, hc]
      · right
        have hne : (⌊a / 64⌋ : ℚ) ≠ a / 64 := by
          intro hq
          apply hz
          rw [e0, hq]
          ring
        have hlt : (⌊a / 64⌋ : ℚ) < a / 64 := lt_of_le_of_ne (Int.floor_le _) hne
        have hc : ⌈a / 64⌉ = ⌊a / 64⌋ + 1 := by
          rw [Int.ceil_eq_iff]
          push_cast
          constructor
          · linarith
          · linarith [Int.lt_floor_add_one (a / 64)]
        refine ⟨?_, ha, hz, hr0, hr1, e0⟩
        have e2 : fmodf (a - 19200) 64 = fmodf a 64 - ((64 : ℤ) : ℚ) := by
          rw [e1, e0, hc]
          push_cast
          ring
        rw [e2, Int.floor_sub_int]

theorem round32_64 : round32 64 = 64 := round32_ofNat 64 (by norm_num)

/-- A half of a whole number below `2 ^ 24` in magnitude is a binary32 value. -/
theorem isFloat_half (z : ℤ) (h : |z| < 2 ^ 24) : IsFloat ((z : ℚ) / 2) :=
  ⟨z, -1, h, by norm_num, by rw [zpow_neg]; norm_num; ring⟩

/-- The remainder of a half of a whole number is a half of a whole number. -/
theorem fmodf_half (z : ℤ) (b : ℤ) : ∃ y : ℤ, fmodf ((z : ℚ) / 2) (b : ℚ) = (y : ℚ) / 2 := by
  refine ⟨z - 2 * truncf ((z : ℚ) / 2 / (b : ℚ)) * b, ?_⟩
  unfold fmodf
  push_cast
  ring

/-- On a loop variable that is a multiple of 64 the major line is drawn at that multiple
plus the floored remainder of the offset, or one pixel further. -/
theorem gridStep_major_near (offset g : ℚ) (j : ℤ) (hj : |j| < 2 ^ 17) :
    ((gridStep 64 offset g (64 * (j : ℚ))).1 = 64 * j + ⌊fmodf offset 64⌋ ∨
      (gridStep 64 offset g (64 * (j : ℚ))).1 = 64 * j + ⌊fmodf offset 64⌋ + 1) ∧
    ∀ y : ℤ, fmodf offset 64 = (y : ℚ) / 2 →
      (gridStep 64 offset g (64 * (j : ℚ))).1 = 64 * j + ⌊fmodf offset 64⌋ := by
  obtain ⟨hr1, hr2⟩ := fmodf_bounds offset 64 (by norm_num)
  have hj' := abs_lt.1 hj
  have hf1 : -64 ≤ ⌊fmodf offset 64⌋ := by
    rw [Int.le_floor]; push_cast; linarith
  have hf2 : ⌊fmodf offset 64⌋ < 64 := by
    rw [Int.floor_lt]; push_cast; linarith
  have hfl := Int.floor_le (fmodf offset 64)
  have hfl2 := Int.lt_floor_add_one (fmodf offset 64)
  simp only [gridStep, floorf]
  constructor
  · have hlow : ((64 * j + ⌊fmodf offset 64⌋ : ℤ) : ℚ) ≤
        round32 (64 * (j : ℚ) + fmodf offset 64) :=
      le_round32 (isFloat_intCast _ (by rw [abs_le]; constructor <;> omega))
        (by push_cast; linarith)
    have hup : round32 (64 * (j : ℚ) + fmodf offset 64) ≤
        ((64 * j + ⌊fmodf offset 64⌋ + 1 : ℤ) : ℚ) :=
      round32_le (isFloat_intCast _ (by rw [abs_le]; constructor <;> omega))
        (by push_cast; linarith)
    have h1 : 64 * j + ⌊fmodf offset 64⌋ ≤ ⌊round32 (64 * (j : ℚ) + fmodf offset 64)⌋ :=
      Int.le_floor.2 hlow
    have h2 : ⌊round32 (64 * (j : ℚ) + fmodf offset 64)⌋ ≤ 64 * j + ⌊fmodf offset 64⌋ + 1 := by
      have := Int.floor_le (round32 (64 * (j : ℚ) + fmodf offset 64))
      exact_mod_cast le_trans this hup
    omega
  · intro y hyr
    have hy1 : (-128 : ℤ) < y := by
      have : ((-128 : ℤ) : ℚ) < (y : ℚ) := by push_cast; linarith
      exact_mod_cast this
    have hy2 : y < 128 := by
      have : (y : ℚ) < ((128 : ℤ) : ℚ) := by push_cast; linarith
      exact_mod_cast this
    have hex : round32 (64 * (j : ℚ) + fmodf offset 64) = 64 * (j : ℚ) + fmodf offset 64 := by
      have hfl : IsFloat (((128 * j + y : ℤ) : ℚ) / 2) :=
        isFloat_half _ (by rw [abs_lt]; constructor <;> omega)
      have e : 64 * (j : ℚ) + fmodf offset 64 = ((128 * j + y : ℤ) : ℚ) / 2 := by
        rw [hyr]; push_cast; ring
      rw [e]
      exact round32_of_isFloat hfl
    rw [hex]
    have e : 64 * (j : ℚ) + fmodf offset 64 = ((64 * j : ℤ) : ℚ) + fmodf offset 64 := by
      push_cast; ring
    rw [e, Int.floor_int_add]

theorem gridLoop_majors_64 (offset g : ℚ) (w z : ℤ) (hw : |w| ≤ 2 ^ 22)
    (ho : offset = (z : ℚ) / 2) (fuel : Nat) (hfuel : ⌈((w : ℚ) + 64 - -64) / 64⌉₊ < fuel) :
    ∃ its, gridLoop 64 offset g (w : ℚ) fuel (-64) = some its ∧
      ∀ p : ℤ, p ∈ its.map Prod.fst ↔
        ∃ k : ℕ, 64 * ((k : ℚ) - 1) < (w : ℚ) + 64 ∧
          p = 64 * ((k : ℤ) - 1) + ⌊fmodf offset 64⌋ := by
  have hw' := abs_le.1 hw
  have hL : round32 ((w : ℚ) + 64) = (w : ℚ) + 64 := by
    have := round32_intCast (w + 64) (by rw [abs_le]; constructor <;> omega)
    push_cast at this
    exact this
  have hk : ∀ k : ℕ, -64 + (k : ℚ) * 64 < (w : ℚ) + 64 → (k : ℤ) < 2 ^ 16 + 2 := by
    intro k h
    have : ((64 * (k : ℤ) : ℤ) : ℚ) < ((w + 128 : ℤ) : ℚ) := by push_cast; linarith
    have : 64 * (k : ℤ) < w + 128 := by exact_mod_cast this
    omega
  have hex : ∀ k : Nat, -64 + (k : ℚ) * 64 < (w : ℚ) + 64 →
      round32 (-64 + (k : ℚ) * 64 + 64) = -64 + (k : ℚ) * 64 + 64 := by
    intro k h
    have h1 := hk k h
    have := round32_intCast (64 * (k : ℤ)) (by rw [abs_le]; constructor <;> omega)
    have e : -64 + (k : ℚ) * 64 + 64 = ((64 * (k : ℤ) : ℤ) : ℚ) := by push_cast; ring
    rw [e]
    exact this
  have hexact := gridLoop_exact 64 offset g (w : ℚ) (by norm_num) (-64) hL hex fuel hfuel
  obtain ⟨y, hy⟩ : ∃ y : ℤ, fmodf offset 64 = (y : ℚ) / 2 := by
    have := fmodf_half z 64
    rw [ho]
    simpa using this
  have hmajor : ∀ k : ℕ, -64 + (k : ℚ) * 64 < (w : ℚ) + 64 →
      (gridStep 64 offset g (-64 + (k : ℚ) * 64)).1 = 64 * ((k : ℤ) - 1) + ⌊fmodf offset 64⌋ := by
    intro k h
    have h1 := hk k h
    have e : -64 + (k : ℚ) * 64 = 64 * (((k : ℤ) - 1 : ℤ) : ℚ) := by push_cast; ring
    rw [e]
    exact (gridStep_major_near offset g ((k : ℤ) - 1)
      (by rw [abs_lt]; constructor <;> omega)).2 y hy
  refine ⟨_, hexact, ?_⟩
  intro p
  simp only [List.map_map, List.mem_map, List.mem_range, Function.comp_apply]
  constructor
  · rintro ⟨k, hk1, rfl⟩
    have h1 : (k : ℚ) < ((w : ℚ) + 64 - -64) / 64 := Nat.lt_ceil.1 hk1
    rw [lt_div_iff₀ (by norm_num)] at h1
    refine ⟨k, by linarith, hmajor k (by linarith)⟩
  · rintro ⟨k, hk1, rfl⟩
    refine ⟨k, ?_, hmajor k (by linarith)⟩
    apply Nat.lt_ceil.2
    rw [lt_div_iff₀ (by norm_num)]
    linarith

/-- Counterexample for C7: with factor `1` the grid size is the whole number `64`; on a
canvas of width `126 - 2 ^ (-17)` (a binary32 value) with the camera at the origin the
offset is `63 - 2 ^ (-18)`, the sums `64 + offset` and `128 + offset` are rounded up to
`127` and `191`, and the major lines of the first loop are drawn at `-2`, `62`, `127` and
`191`: the lines at `62` and `127` are 65 pixels apart, not `64 / factor = 64`. -/
theorem Draw2DGrid_major_spacing_not_exact :
    majorColumns 5 ⟨0, 0⟩ ⟨126 - 1 / 131072, 10⟩ 1 = .ok [-2, 62, 127, 191] ∧
      (((127 - 62 : ℤ) : ℚ) ≠ 64 / 1) := by
  refine ⟨?_, by norm_num⟩
  have e : (126 - 1 / 131072 : ℚ) = 16515071 / 131072 := by norm_num
  rw [e]
  have f1 : round32 (64) = 64 := by
    rw [round32_eq_of_bounds _ (6) (by norm_num [abs_of_nonneg, abs_of_neg])
      (by norm_num [abs_of_nonneg, abs_of_neg])]
    norm_num [roundHalfEven]
  have f2 : round32 (16515071 / 262144) = 16515071 / 262144 := by
    rw [round32_eq_of_bounds _ (5) (by norm_num [abs_of_nonneg, abs_of_neg])
      (by norm_num [abs_of_nonneg, abs_of_neg])]
    norm_num [roundHalfEven]
  have f3 : round32 (5) = 5 := by
    rw [round32_eq_of_bounds _ (2) (by norm_num [abs_of_nonneg, abs_of_neg])
      (by norm_num [abs_of_nonneg, abs_of_neg])]
    norm_num [roundHalfEven]
  have f4 : round32 (24903679 / 131072) = 190 := by
    rw [round32_eq_of_bounds _ (7) (by norm_num [abs_of_nonneg, abs_of_neg])
      (by norm_num [abs_of_nonneg, abs_of_neg])]
    norm_num [roundHalfEven]
  have f5 : round32 (-(262145 / 262144)) = -(262145 / 262144) := by
    rw [round32_eq_of_bounds _ (0) (by norm_num [abs_of_nonneg, abs_of_neg])
      (by norm_num [abs_of_nonneg, abs_of_neg])]
    norm_num [roundHalfEven]
  have f6 : round32 (33292287 / 262144) = 127 := by
    rw [round32_eq_of_bounds _ (6) (by norm_num [abs_of_nonneg, abs_of_neg])
      (by norm_num [abs_of_nonneg, abs_of_neg])]
    norm_num [roundHalfEven]
  have f7 : round32 (128) = 128 := by
    rw [round32_eq_of_bounds _ (7) (by norm_num [abs_of_nonneg, abs_of_neg])
      (by norm_num [abs_of_nonneg, abs_of_neg])]
    norm_num [roundHalfEven]
  have f8 : round32 (50069503 / 262144) = 191 := by
    rw [round32_eq_of_bounds _ (7) (by norm_num [abs_of_nonneg, abs_of_neg])
      (by norm_num [abs_of_nonneg, abs_of_neg])]
    norm_num [roundHalfEven]
  have f9 : round32 (192) = 192 := by
    rw [round32_eq_of_bounds _ (7) (by norm_num [abs_of_nonneg, abs_of_neg])
      (by norm_num [abs_of_nonneg, abs_of_neg])]
    norm_num [roundHalfEven]
  have f10 : round32 (16515071 / 131072) = 16515071 / 131072 := by
    rw [round32_eq_of_bounds _ (6) (by norm_num [abs_of_nonneg, abs_of_neg])
      (by norm_num [abs_of_nonneg, abs_of_neg])]
    norm_num [roundHalfEven]
  have hin : GridInputs ⟨0, 0⟩ ⟨16515071 / 131072, 10⟩ 1 := by
    refine ⟨inRange_zero, inRange_zero, ⟨f10, ?_⟩, inRange_ofNat 10 (by norm_num),
      inRange_one, ?_⟩
    all_goals norm_num [abs_of_nonneg]
  simp only [majorColumns, gridColumns, if_pos hin, gridLoop, gridStep, gridOffset, fmodf, truncf,
    floorf]
  norm_num [round32_zero, f1, f2, f3, f4, f5, f6, f7, f8, f9, f10, Except.map]

/-- C7, amended: for binary32 inputs with a factor from `1 / 1024` to `1024` and canvas
sizes from `0` to `65536` pixels both line loops finish, and the distance between any two
consecutive major lines of a loop differs from `64 / factor` by less than `17 / 16` of a
pixel: the positions are floored to whole pixels and the sums are rounded to binary32. -/
theorem Draw2DGrid_major_spacing (cameraPos canvasSize : ImVec2) (factor : ℚ)
    (hin : GridInputs cameraPos canvasSize factor)
    (hf1 : 1 / 1024 ≤ factor) (hf2 : factor ≤ 1024)
    (hx1 : 0 ≤ canvasSize.x) (hx2 : canvasSize.x ≤ 65536)
    (hy1 : 0 ≤ canvasSize.y) (hy2 : canvasSize.y ≤ 65536) :
    ∃ N, ∀ fuel, N ≤ fuel →
      ∃ columns rows,
        majorColumns fuel cameraPos canvasSize factor = .ok columns ∧
        majorRows fuel cameraPos canvasSize factor = .ok rows ∧
        (∀ (i : Nat) (p q : ℤ), columns[i]? = some p → columns[i + 1]? = some q →
          |((q - p : ℤ) : ℚ) - 64 / factor| < 17 / 16) ∧
        (∀ (i : Nat) (p q : ℤ), rows[i]? = some p → rows[i + 1]? = some q →
          |((q - p : ℤ) : ℚ) - 64 / factor| < 17 / 16) := by
  obtain ⟨N, hN⟩ := grid_lines cameraPos canvasSize factor hin hf1 hf2 hx1 hx2 hy1 hy2
  refine ⟨N, fun fuel hfuel => ?_⟩
  obtain ⟨columns, rows, hc, hr, hall⟩ := hN fuel hfuel
  refine ⟨columns.map Prod.fst, rows.map Prod.fst, ?_, ?_, ?_, ?_⟩
  · simp only [majorColumns, hc, Except.map]
  · simp only [majorRows, hr, Except.map]
  · intro i p q hp hq
    simp only [List.getElem?_map, Option.map_eq_some'] at hp hq
    obtain ⟨it, hit, rfl⟩ := hp
    obtain ⟨nxt, hnxt, rfl⟩ := hq
    exact ((hall columns (Or.inl rfl)).1 i it nxt hit hnxt).1
  · intro i p q hp hq
    simp only [List.getElem?_map, Option.map_eq_some'] at hp hq
    obtain ⟨it, hit, rfl⟩ := hp
    obtain ⟨nxt, hnxt, rfl⟩ := hq
    exact ((hall rows (Or.inr rfl)).1 i it nxt hit hnxt).1

/-- Witness for C7, amended: factor `1` on a canvas of 10 by 10 pixels. -/
theorem Draw2DGrid_major_spacing_witness :
    (GridInputs ⟨0, 0⟩ ⟨10, 10⟩ 1 ∧ (1 : ℚ) / 1024 ≤ 1 ∧ (1 : ℚ) ≤ 1024 ∧
      (0 : ℚ) ≤ (⟨10, 10⟩ : ImVec2).x ∧ (⟨10, 10⟩ : ImVec2).x ≤ 65536 ∧
      (0 : ℚ) ≤ (⟨10, 10⟩ : ImVec2).y ∧ (⟨10, 10⟩ : ImVec2).y ≤ 65536) ∧
    ∃ N, ∀ fuel, N ≤ fuel →
      ∃ columns rows,
        majorColumns fuel ⟨0, 0⟩ ⟨10, 10⟩ 1 = .ok columns ∧
        majorRows fuel ⟨0, 0⟩ ⟨10, 10⟩ 1 = .ok rows ∧
        (∀ (i : Nat) (p q : ℤ), columns[i]? = some p → columns[i + 1]? = some q →
          |((q - p : ℤ) : ℚ) - 64 / 1| < 17 / 16) ∧
        (∀ (i : Nat) (p q : ℤ), rows[i]? = some p → rows[i + 1]? = some q →
          |((q - p : ℤ) : ℚ) - 64 / 1| < 17 / 16) :=
  have hin : GridInputs ⟨0, 0⟩ ⟨10, 10⟩ 1 :=
    ⟨inRange_zero, inRange_zero, inRange_ofNat 10 (by norm_num), inRange_ofNat 10 (by norm_num),
      inRange_one, by norm_num⟩
  ⟨⟨hin, by norm_num, by norm_num, by norm_num, by norm_num, by norm_num, by norm_num⟩,
    Draw2DGrid_major_spacing ⟨0, 0⟩ ⟨10, 10⟩ 1 hin (by norm_num) (by norm_num) (by norm_num)
      (by norm_num) (by norm_num) (by norm_num)⟩

theorem gridOffset_origin (canvasSize : ImVec2) :
    gridOffset ⟨0, 0⟩ canvasSize 1 = ⟨round32 (canvasSize.x / 2), round32 (canvasSize.y / 2)⟩ := by
  simp only [gridOffset, zero_mul, round32_zero, div_one, sub_zero, add_zero, round32_round32]

theorem GRID_SZ_one : round32 (64 / 1) = 64 := by
  rw [div_one]; exact round32_64

/-- A line loop with grid size 64 on a canvas of at most `2 ^ 22` pixels: the loop ends and
every major line is at a multiple of 64 plus the floored remainder of the offset, or one
pixel further when the sum of the loop variable and the remainder is rounded up to the
next whole number. -/
theorem gridLoop_origin (offset g size : ℚ) (hs : |size| ≤ 2 ^ 22) :
    ∃ N, ∀ fuel, N ≤ fuel →
      ∃ its, gridLoop 64 offset g size fuel (-64) = some its ∧
        (∀ p ∈ its.map Prod.fst, ∃ k : ℤ,
          p = 64 * k + ⌊fmodf offset 64⌋ ∨ p = 64 * k + ⌊fmodf offset 64⌋ + 1) ∧
        (∀ y : ℤ, fmodf offset 64 = (y : ℚ) / 2 →
          ∀ p ∈ its.map Prod.fst, ∃ k : ℤ, p = 64 * k + ⌊fmodf offset 64⌋) := by
  have hs' := abs_le.1 hs
  have hL : round32 (size + 64) ≤ 4194368 :=
    round32_le (isFloat_intCast 4194368 (by norm_num)) (by norm_num at hs' ⊢; linarith)
  obtain ⟨N, hN⟩ := gridLoop_terminates 64 offset g size (by norm_num) (by linarith)
  refine ⟨N, fun fuel hfuel => ?_⟩
  obtain ⟨its, hits⟩ := hN fuel hfuel
  have hmem := gridLoop_mem_of 64 offset g size
    (fun x => ∃ j : ℤ, x = 64 * (j : ℚ) ∧ -1 ≤ j ∧ j < 2 ^ 17)
    (by
      rintro x ⟨j, rfl, hj1, hj2⟩ hlt
      have h1 : ((64 * j : ℤ) : ℚ) < ((4194368 : ℤ) : ℚ) := by push_cast; linarith
      have h2 : 64 * j < 4194368 := by exact_mod_cast h1
      refine ⟨j + 1, ?_, by omega, by omega⟩
      have := round32_intCast (64 * (j + 1)) (by rw [abs_le]; constructor <;> omega)
      have e : 64 * (j : ℚ) + 64 = ((64 * (j + 1) : ℤ) : ℚ) := by push_cast; ring
      rw [e, this]
      push_cast
      ring)
    fuel (-64) its ⟨-1, by norm_num, by norm_num, by norm_num⟩ hits
  refine ⟨its, hits, ?_, ?_⟩
  · intro p hp
    simp only [List.mem_map] at hp
    obtain ⟨it, hit, rfl⟩ := hp
    obtain ⟨a, ⟨j, rfl, hj1, hj2⟩, _, rfl⟩ := hmem it hit
    exact ⟨j, (gridStep_major_near offset g j (by rw [abs_lt]; constructor <;> omega)).1⟩
  · intro y hy p hp
    simp only [List.mem_map] at hp
    obtain ⟨it, hit, rfl⟩ := hp
    obtain ⟨a, ⟨j, rfl, hj1, hj2⟩, _, rfl⟩ := hmem it hit
    exact ⟨j, (gridStep_major_near offset g j (by rw [abs_lt]; constructor <;> omega)).2 y hy⟩

/-- The offset and its remainder for a canvas whose half size is a whole number. -/
theorem origin_whole {size : ℚ} (hs : |size| ≤ 2 ^ 22) {z : ℤ} (hz : size / 2 = (z : ℚ)) :
    round32 (size / 2) = size / 2 ∧ ∃ y : ℤ, fmodf (size / 2) 64 = (y : ℚ) / 2 := by
  have hs' := abs_le.1 hs
  have hzb : |z| ≤ 2 ^ 24 := by
    have h1 : ((-2 ^ 24 : ℤ) : ℚ) ≤ (z : ℚ) := by rw [← hz]; push_cast; linarith
    have h2 : (z : ℚ) ≤ ((2 ^ 24 : ℤ) : ℚ) := by rw [← hz]; push_cast; linarith
    rw [abs_le]
    exact ⟨by exact_mod_cast h1, by exact_mod_cast h2⟩
  constructor
  · rw [hz]; exact round32_intCast z hzb
  · have := fmodf_half (2 * z) 64
    have e : (((2 * z : ℤ)) : ℚ) / 2 = size / 2 := by rw [hz]; push_cast; ring
    rw [e] at this
    simpa using this

/-- Counterexample for C9: with the camera at the origin and factor `1` on a canvas of
100 by 100 pixels the grid offset is `50`, which is `50` modulo 64, and the major lines of
the first loop are drawn at `-14`, `50`, `114` and `178`, none a multiple of 64. -/
theorem Draw2DGrid_origin_not_multiples :
    (gridOffset ⟨0, 0⟩ ⟨100, 100⟩ 1).x = 50 ∧ fmodf (gridOffset ⟨0, 0⟩ ⟨100, 100⟩ 1).x 64 = 50 ∧
      majorColumns 5 ⟨0, 0⟩ ⟨100, 100⟩ 1 = .ok [-14, 50, 114, 178] ∧
      ¬ ((64 : ℤ) ∣ -14) ∧ ¬ ((64 : ℤ) ∣ 50) ∧ ¬ ((64 : ℤ) ∣ 114) ∧ ¬ ((64 : ℤ) ∣ 178) := by
  have f1 : round32 (64) = 64 := by
    rw [round32_eq_of_bounds _ (6) (by norm_num [abs_of_nonneg, abs_of_neg])
      (by norm_num [abs_of_nonneg, abs_of_neg])]
    norm_num [roundHalfEven]
  have f2 : round32 (50) = 50 := by
    rw [round32_eq_of_bounds _ (5) (by norm_num [abs_of_nonneg, abs_of_neg])
      (by norm_num [abs_of_nonneg, abs_of_neg])]
    norm_num [roundHalfEven]
  have f3 : round32 (164) = 164 := by
    rw [round32_eq_of_bounds _ (7) (by norm_num [abs_of_nonneg, abs_of_neg])
      (by norm_num [abs_of_nonneg, abs_of_neg])]
    norm_num [roundHalfEven]
  have f4 : round32 (-14) = -14 := by
    rw [round32_eq_of_bounds _ (3) (by norm_num [abs_of_nonneg, abs_of_neg])
      (by norm_num [abs_of_nonneg, abs_of_neg])]
    norm_num [roundHalfEven]
  have f5 : round32 (114) = 114 := by
    rw [round32_eq_of_bounds _ (6) (by norm_num [abs_of_nonneg, abs_of_neg])
      (by norm_num [abs_of_nonneg, abs_of_neg])]
    norm_num [roundHalfEven]
  have f6 : round32 (128) = 128 := by
    rw [round32_eq_of_bounds _ (7) (by norm_num [abs_of_nonneg, abs_of_neg])
      (by norm_num [abs_of_nonneg, abs_of_neg])]
    norm_num [roundHalfEven]
  have f7 : round32 (178) = 178 := by
    rw [round32_eq_of_bounds _ (7) (by norm_num [abs_of_nonneg, abs_of_neg])
      (by norm_num [abs_of_nonneg, abs_of_neg])]
    norm_num [roundHalfEven]
  have f8 : round32 (192) = 192 := by
    rw [round32_eq_of_bounds _ (7) (by norm_num [abs_of_nonneg, abs_of_neg])
      (by norm_num [abs_of_nonneg, abs_of_neg])]
    norm_num [roundHalfEven]
  have hin : GridInputs ⟨0, 0⟩ ⟨100, 100⟩ 1 :=
    ⟨inRange_zero, inRange_zero, inRange_ofNat 100 (by norm_num),
      inRange_ofNat 100 (by norm_num), inRange_one, by norm_num⟩
  have ho : (gridOffset ⟨0, 0⟩ ⟨100, 100⟩ 1).x = 50 := by
    simp only [gridOffset]
    norm_num [round32_zero, f1, f2, f3, f4, f5, f6, f7, f8]
  refine ⟨ho, ?_, ?_, by decide, by decide, by decide, by decide⟩
  · rw [ho]
    simp [fmodf, truncf]
    norm_num
  · simp only [majorColumns, gridColumns, if_pos hin, gridLoop, gridStep, gridOffset, fmodf,
      truncf, floorf]
    norm_num [round32_zero, f1, f2, f3, f4, f5, f6, f7, f8, Except.map]

/-- C9, amended: with the camera at `(0, 0)` and factor `1`, for every binary32 canvas size
of at most `2 ^ 22` pixels in magnitude, the grid offset is half the canvas size (rounded
to binary32), not zero; both line loops finish and every major line is drawn at
`64 * k + ⌊r⌋` or at `64 * k + ⌊r⌋ + 1` for a whole number `k`, where `r` is the remainder
`fmodf (offset, 64)`. When half the canvas size is a whole number every major line is at
`64 * k + ⌊fmodf (size / 2, 64)⌋`, and the positions are multiples of 64 when half the
canvas size is a multiple of 64. -/
theorem Draw2DGrid_origin_majors (canvasSize : ImVec2)
    (hin : GridInputs ⟨0, 0⟩ canvasSize 1)
    (hx : |canvasSize.x| ≤ 2 ^ 22) (hy : |canvasSize.y| ≤ 2 ^ 22) :
    gridOffset ⟨0, 0⟩ canvasSize 1 =
        ⟨round32 (canvasSize.x / 2), round32 (canvasSize.y / 2)⟩ ∧
    ∃ N, ∀ fuel, N ≤ fuel →
      ∃ columns rows,
        majorColumns fuel ⟨0, 0⟩ canvasSize 1 = .ok columns ∧
        majorRows fuel ⟨0, 0⟩ canvasSize 1 = .ok rows ∧
        (∀ p ∈ columns, ∃ k : ℤ,
          p = 64 * k + ⌊fmodf (round32 (canvasSize.x / 2)) 64⌋ ∨
          p = 64 * k + ⌊fmodf (round32 (canvasSize.x / 2)) 64⌋ + 1) ∧
        (∀ p ∈ rows, ∃ k : ℤ,
          p = 64 * k + ⌊fmodf (round32 (canvasSize.y / 2)) 64⌋ ∨
          p = 64 * k + ⌊fmodf (round32 (canvasSize.y / 2)) 64⌋ + 1) ∧
        ((∃ z : ℤ, canvasSize.x / 2 = (z : ℚ)) →
          ∀ p ∈ columns, ∃ k : ℤ, p = 64 * k + ⌊fmodf (canvasSize.x / 2) 64⌋) ∧
        ((∃ z : ℤ, canvasSize.y / 2 = (z : ℚ)) →
          ∀ p ∈ rows, ∃ k : ℤ, p = 64 * k + ⌊fmodf (canvasSize.y / 2) 64⌋) ∧
        (fmodf (canvasSize.x / 2) 64 = 0 → ∀ p ∈ columns, (64 : ℤ) ∣ p) ∧
        (fmodf (canvasSize.y / 2) 64 = 0 → ∀ p ∈ rows, (64 : ℤ) ∣ p) := by
  refine ⟨gridOffset_origin canvasSize, ?_⟩
  obtain ⟨N1, h1⟩ := gridLoop_origin (round32 (canvasSize.x / 2)) 10 canvasSize.x hx
  obtain ⟨N2, h2⟩ := gridLoop_origin (round32 (canvasSize.y / 2)) 10 canvasSize.y hy
  refine ⟨max N1 N2, fun fuel hfuel => ?_⟩
  obtain ⟨its1, hl1, ha1, hb1⟩ := h1 fuel (le_trans (le_max_left _ _) hfuel)
  obtain ⟨its2, hl2, ha2, hb2⟩ := h2 fuel (le_trans (le_max_right _ _) hfuel)
  have hc : gridColumns fuel ⟨0, 0⟩ canvasSize 1 = .ok its1 :=
    gridColumns_eq hin (by rw [GRID_SZ_one, gridOffset_origin]; exact hl1)
  have hr : gridRows fuel ⟨0, 0⟩ canvasSize 1 = .ok its2 :=
    gridRows_eq hin (by rw [GRID_SZ_one, gridOffset_origin]; exact hl2)
  have whole : ∀ (size : ℚ) (its : List (ℤ × List ℤ)), |size| ≤ 2 ^ 22 →
      (∀ y : ℤ, fmodf (round32 (size / 2)) 64 = (y : ℚ) / 2 →
        ∀ p ∈ its.map Prod.fst, ∃ k : ℤ, p = 64 * k + ⌊fmodf (round32 (size / 2)) 64⌋) →
      (∃ z : ℤ, size / 2 = (z : ℚ)) →
      ∀ p ∈ its.map Prod.fst, ∃ k : ℤ, p = 64 * k + ⌊fmodf (size / 2) 64⌋ := by
    intro size its hs hb ⟨z, hz⟩ p hp
    obtain ⟨he, y, hy⟩ := origin_whole hs hz
    rw [he] at hb
    exact hb y hy p hp
  have zero : ∀ (size : ℚ), fmodf (size / 2) 64 = 0 → ∃ z : ℤ, size / 2 = (z : ℚ) := by
    intro size h
    refine ⟨truncf (size / 2 / 64) * 64, ?_⟩
    unfold fmodf at h
    push_cast
    linarith
  refine ⟨its1.map Prod.fst, its2.map Prod.fst, ?_, ?_, ha1, ha2,
    whole _ _ hx hb1, whole _ _ hy hb2, ?_, ?_⟩
  · simp only [majorColumns, hc, Except.map]
  · simp only [majorRows, hr, Except.map]
  · intro h0 p hp
    obtain ⟨k, rfl⟩ := whole _ _ hx hb1 (zero _ h0) p hp
    rw [h0]
    simp
  · intro h0 p hp
    obtain ⟨k, rfl⟩ := whole _ _ hy hb2 (zero _ h0) p hp
    rw [h0]
    simp

/-- Witness for C9, amended: a canvas of 128 by 128 pixels, half of which is a multiple of
64; the major lines are at multiples of 64. -/
theorem Draw2DGrid_origin_majors_witness :
    (GridInputs ⟨0, 0⟩ ⟨128, 128⟩ 1 ∧ |(⟨128, 128⟩ : ImVec2).x| ≤ 2 ^ 22 ∧
      |(⟨128, 128⟩ : ImVec2).y| ≤ 2 ^ 22 ∧
      fmodf ((⟨128, 128⟩ : ImVec2).x / 2) 64 = 0 ∧ fmodf ((⟨128, 128⟩ : ImVec2).y / 2) 64 = 0) ∧
    ∃ N, ∀ fuel, N ≤ fuel →
      ∃ columns rows,
        majorColumns fuel ⟨0, 0⟩ ⟨128, 128⟩ 1 = .ok columns ∧
        majorRows fuel ⟨0, 0⟩ ⟨128, 128⟩ 1 = .ok rows ∧
        (∀ p ∈ columns, (64 : ℤ) ∣ p) ∧ (∀ p ∈ rows, (64 : ℤ) ∣ p) :=
  have hz : fmodf ((128 : ℚ) / 2) 64 = 0 := by
    simp [fmodf, truncf]
    norm_num
  have hin : GridInputs ⟨0, 0⟩ ⟨128, 128⟩ 1 :=
    ⟨inRange_zero, inRange_zero, inRange_ofNat 128 (by norm_num),
      inRange_ofNat 128 (by norm_num), inRange_one, by norm_num⟩
  have hb : |(128 : ℚ)| ≤ 2 ^ 22 := by norm_num [abs_of_nonneg]
  ⟨⟨hin, hb, hb, hz, hz⟩,
    match (Draw2DGrid_origin_majors ⟨128, 128⟩ hin hb hb).2 with
    | ⟨N, h⟩ => ⟨N, fun fuel hfuel =>
      match h fuel hfuel with
      | ⟨columns, rows, h1, h2, _, _, _, _, h7, h8⟩ => ⟨columns, rows, h1, h2, h7 hz, h8 hz⟩⟩⟩

theorem gridOffset_shift (canvasSize : ImVec2) (w : ℤ) (hw : canvasSize.x = (w : ℚ))
    (hb : |w| ≤ 2 ^ 22) :
    (gridOffset ⟨0, 0⟩ canvasSize 1).x = (w : ℚ) / 2 ∧
      (gridOffset ⟨64, 0⟩ canvasSize 1).x = (w : ℚ) / 2 - 19200 := by
  have hb' := abs_le.1 hb
  have h1 : round32 ((w : ℚ) / 2) = (w : ℚ) / 2 :=
    round32_of_isFloat (isFloat_half w (by rw [abs_lt]; constructor <;> omega))
  have h2 : round32 ((w : ℚ) / 2 - 19200) = (w : ℚ) / 2 - 19200 := by
    have e : (w : ℚ) / 2 - 19200 = ((w - 38400 : ℤ) : ℚ) / 2 := by push_cast; ring
    rw [e]
    exact round32_of_isFloat (isFloat_half _ (by rw [abs_lt]; constructor <;> omega))
  have h3 : round32 (64 * 300 : ℚ) = 19200 := by
    have : (64 * 300 : ℚ) = 19200 := by norm_num
    rw [this]
    exact round32_ofNat 19200 (by norm_num)
  have h4 : round32 (19200 : ℚ) = 19200 := round32_ofNat 19200 (by norm_num)
  constructor
  · rw [gridOffset_origin, hw, h1]
  · simp only [gridOffset, hw, h1, h3, h4, div_one, h2]

/-- Counterexample for C10: with factor `1` on a canvas of width `100 - 2 ^ (-11)` (a
binary32 value) the grid offset for camera `(0, 0)` is `50 - 2 ^ (-12)`; for camera
`(64, 0)` the difference `50 - 2 ^ (-12) - 19200` is rounded to `-19150`, so the offset is
not 19200 less. The vertical major lines are at `-15, 49, 113, 177` for camera `(0, 0)`
and at `-78, -14, 50, 114` for camera `(64, 0)`: `50` and `49` are not congruent modulo
64, and `49` lies inside the canvas and is a major line for camera `(0, 0)` only. -/
theorem Draw2DGrid_camera_shift_rounded :
    (gridOffset ⟨0, 0⟩ ⟨100 - 1 / 2048, 100⟩ 1).x = 50 - 1 / 4096 ∧
      (gridOffset ⟨64, 0⟩ ⟨100 - 1 / 2048, 100⟩ 1).x = -19150 ∧
      ((-19150 : ℚ) ≠ 50 - 1 / 4096 - 19200) ∧
      majorColumns 5 ⟨0, 0⟩ ⟨100 - 1 / 2048, 100⟩ 1 = .ok [-15, 49, 113, 177] ∧
      majorColumns 5 ⟨64, 0⟩ ⟨100 - 1 / 2048, 100⟩ 1 = .ok [-78, -14, 50, 114] ∧
      ¬ ((64 : ℤ) ∣ 50 - 49) ∧
      ((0 : ℤ) ≤ 49 ∧ ((49 : ℤ) : ℚ) ≤ (⟨100 - 1 / 2048, 100⟩ : ImVec2).x ∧
        (49 : ℤ) ∈ [-15, 49, 113, 177] ∧ (49 : ℤ) ∉ [-78, -14, 50, 114]) := by
  have e : (100 - 1 / 2048 : ℚ) = 204799 / 2048 := by norm_num
  rw [e]
  have c1 : ⌈(-(9575 / 32) : ℚ)⌉ = -299 := by
    rw [Int.ceil_eq_iff]; norm_num
  have f1 : round32 (64) = 64 := by
    rw [round32_eq_of_bounds _ (6) (by norm_num [abs_of_nonneg, abs_of_neg])
      (by norm_num [abs_of_nonneg, abs_of_neg])]
    norm_num [roundHalfEven]
  have f2 : round32 (204799 / 4096) = 204799 / 4096 := by
    rw [round32_eq_of_bounds _ (5) (by norm_num [abs_of_nonneg, abs_of_neg])
      (by norm_num [abs_of_nonneg, abs_of_neg])]
    norm_num [roundHalfEven]
  have f3 : round32 (50) = 50 := by
    rw [round32_eq_of_bounds _ (5) (by norm_num [abs_of_nonneg, abs_of_neg])
      (by norm_num [abs_of_nonneg, abs_of_neg])]
    norm_num [roundHalfEven]
  have f4 : round32 (335871 / 2048) = 335871 / 2048 := by
    rw [round32_eq_of_bounds _ (7) (by norm_num [abs_of_nonneg, abs_of_neg])
      (by norm_num [abs_of_nonneg, abs_of_neg])]
    norm_num [roundHalfEven]
  have f5 : round32 (-(57345 / 4096)) = -(57345 / 4096) := by
    rw [round32_eq_of_bounds _ (3) (by norm_num [abs_of_nonneg, abs_of_neg])
      (by norm_num [abs_of_nonneg, abs_of_neg])]
    norm_num [roundHalfEven]
  have f6 : round32 (466943 / 4096) = 466943 / 4096 := by
    rw [round32_eq_of_bounds _ (6) (by norm_num [abs_of_nonneg, abs_of_neg])
      (by norm_num [abs_of_nonneg, abs_of_neg])]
    norm_num [roundHalfEven]
  have f7 : round32 (128) = 128 := by
    rw [round32_eq_of_bounds _ (7) (by norm_num [abs_of_nonneg, abs_of_neg])
      (by norm_num [abs_of_nonneg, abs_of_neg])]
    norm_num [roundHalfEven]
  have f8 : round32 (729087 / 4096) = 729087 / 4096 := by
    rw [round32_eq_of_bounds _ (7) (by norm_num [abs_of_nonneg, abs_of_neg])
      (by norm_num [abs_of_nonneg, abs_of_neg])]
    norm_num [roundHalfEven]
  have f9 : round32 (192) = 192 := by
    rw [round32_eq_of_bounds _ (7) (by norm_num [abs_of_nonneg, abs_of_neg])
      (by norm_num [abs_of_nonneg, abs_of_neg])]
    norm_num [roundHalfEven]
  have f10 : round32 (19200) = 19200 := by
    rw [round32_eq_of_bounds _ (14) (by norm_num [abs_of_nonneg, abs_of_neg])
      (by norm_num [abs_of_nonneg, abs_of_neg])]
    norm_num [roundHalfEven]
  have f11 : round32 (-(78438401 / 4096)) = -19150 := by
    rw [round32_eq_of_bounds _ (14) (by norm_num [abs_of_nonneg, abs_of_neg])
      (by norm_num [abs_of_nonneg, abs_of_neg])]
    norm_num [roundHalfEven]
  have f12 : round32 (-78) = -78 := by
    rw [round32_eq_of_bounds _ (6) (by norm_num [abs_of_nonneg, abs_of_neg])
      (by norm_num [abs_of_nonneg, abs_of_neg])]
    norm_num [roundHalfEven]
  have f13 : round32 (-14) = -14 := by
    rw [round32_eq_of_bounds _ (3) (by norm_num [abs_of_nonneg, abs_of_neg])
      (by norm_num [abs_of_nonneg, abs_of_neg])]
    norm_num [roundHalfEven]
  have f14 : round32 (114) = 114 := by
    rw [round32_eq_of_bounds _ (6) (by norm_num [abs_of_nonneg, abs_of_neg])
      (by norm_num [abs_of_nonneg, abs_of_neg])]
    norm_num [roundHalfEven]
  have f15 : round32 (204799 / 2048) = 204799 / 2048 := by
    rw [round32_eq_of_bounds _ (6) (by norm_num [abs_of_nonneg, abs_of_neg])
      (by norm_num [abs_of_nonneg, abs_of_neg])]
    norm_num [roundHalfEven]
  have hW : inRange (204799 / 2048 : ℚ) := ⟨f15, by norm_num [abs_of_nonneg]⟩
  have hin0 : GridInputs ⟨0, 0⟩ ⟨204799 / 2048, 100⟩ 1 :=
    ⟨inRange_zero, inRange_zero, hW, inRange_ofNat 100 (by norm_num), inRange_one, by norm_num⟩
  have hin64 : GridInputs ⟨64, 0⟩ ⟨204799 / 2048, 100⟩ 1 :=
    ⟨inRange_ofNat 64 (by norm_num), inRange_zero, hW, inRange_ofNat 100 (by norm_num),
      inRange_one, by norm_num⟩
  refine ⟨?_, ?_, by norm_num, ?_, ?_, by decide, by decide, by norm_num, by decide,
    by decide⟩
  · simp only [gridOffset]
    norm_num [round32_zero, c1, f1, f2, f3, f4, f5, f6, f7, f8, f9, f10, f11, f12, f13, f14, f15]
  · simp only [gridOffset]
    norm_num [round32_zero, c1, f1, f2, f3, f4, f5, f6, f7, f8, f9, f10, f11, f12, f13, f14, f15]
  · simp only [majorColumns, gridColumns, if_pos hin0, gridLoop, gridStep, gridOffset, fmodf,
      truncf, floorf]
    norm_num [round32_zero, c1, f1, f2, f3, f4, f5, f6, f7, f8, f9, f10, f11, f12, f13, f14, f15, Except.map]
  · simp only [majorColumns, gridColumns, if_pos hin64, gridLoop, gridStep, gridOffset, fmodf,
      truncf, floorf]
    norm_num [round32_zero, c1, f1, f2, f3, f4, f5, f6, f7, f8, f9, f10, f11, f12, f13, f14, f15, Except.map]

/-- C10, amended: with factor `1` and a canvas width that is a whole number of at most
`2 ^ 22` pixels in magnitude, moving the camera from `(0, 0)` to `(64, 0)` shifts the
grid offset left by `64 * 300 = 19200` pixels; both runs of the first loop finish, every
vertical major line position for camera `(64, 0)` is congruent modulo 64 to every position
for camera `(0, 0)`, and the positions inside the canvas `[0, canvasSize.x]` are the same
for both cameras. -/
theorem Draw2DGrid_camera_shift (canvasSize : ImVec2) (w : ℤ)
    (hin : GridInputs ⟨0, 0⟩ canvasSize 1) (hw : canvasSize.x = (w : ℚ)) (hb : |w| ≤ 2 ^ 22) :
    (gridOffset ⟨64, 0⟩ canvasSize 1).x = (gridOffset ⟨0, 0⟩ canvasSize 1).x - 19200 ∧
      (19200 : ℚ) = 64 * 300 ∧
      ∃ N, ∀ fuel, N ≤ fuel →
        ∃ columns0 columns64,
          majorColumns fuel ⟨0, 0⟩ canvasSize 1 = .ok columns0 ∧
          majorColumns fuel ⟨64, 0⟩ canvasSize 1 = .ok columns64 ∧
          (∀ p ∈ columns64, ∀ q ∈ columns0, (64 : ℤ) ∣ p - q) ∧
          (∀ p : ℤ, 0 ≤ p → (p : ℚ) ≤ canvasSize.x → (p ∈ columns64 ↔ p ∈ columns0)) := by
  obtain ⟨ho0, ho1⟩ := gridOffset_shift canvasSize w hw hb
  have hin64 : GridInputs ⟨64, 0⟩ canvasSize 1 :=
    ⟨inRange_ofNat 64 (by norm_num), hin.2.1, hin.2.2.1, hin.2.2.2.1, hin.2.2.2.2.1,
      hin.2.2.2.2.2⟩
  refine ⟨by rw [ho0, ho1], by norm_num, ⌈((w : ℚ) + 64 - -64) / 64⌉₊ + 1, ?_⟩
  intro fuel hfuel
  obtain ⟨its0, h0, hm0⟩ := gridLoop_majors_64 ((w : ℚ) / 2) 10 w w hb rfl fuel (by omega)
  obtain ⟨its1, h1, hm1⟩ := gridLoop_majors_64 ((w : ℚ) / 2 - 19200) 10 w (w - 38400) hb
    (by push_cast; ring) fuel (by omega)
  have hc0 : gridColumns fuel ⟨0, 0⟩ canvasSize 1 = .ok its0 :=
    gridColumns_eq hin (by rw [GRID_SZ_one, ho0, hw]; exact h0)
  have hc1 : gridColumns fuel ⟨64, 0⟩ canvasSize 1 = .ok its1 :=
    gridColumns_eq hin64 (by rw [GRID_SZ_one, ho1, hw]; exact h1)
  refine ⟨its0.map Prod.fst, its1.map Prod.fst, ?_, ?_, ?_, ?_⟩
  · simp only [majorColumns, hc0, Except.map]
  · simp only [majorColumns, hc1, Except.map]
  · intro p hp q hq
    obtain ⟨k, _, rfl⟩ := (hm1 p).1 hp
    obtain ⟨j, _, rfl⟩ := (hm0 q).1 hq
    rcases fmodf_shift ((w : ℚ) / 2) with hs | ⟨hs, _⟩
    · rw [hs]
      exact ⟨(k : ℤ) - j, by ring⟩
    · rw [hs]
      exact ⟨(k : ℤ) - j - 1, by ring⟩
  · intro p hp0 hpW
    rw [hw] at hpW
    rw [hm1 p, hm0 p]
    rcases fmodf_shift ((w : ℚ) / 2) with hs | ⟨hs, ha, hz, hr0, hr1, e0⟩
    · rw [hs]
    · rw [hs]
      have hf0 : 0 ≤ ⌊fmodf ((w : ℚ) / 2) 64⌋ := Int.floor_nonneg.2 hr0
      have hf1 : ⌊fmodf ((w : ℚ) / 2) 64⌋ < 64 := Int.floor_lt.2 (by exact_mod_cast hr1)
      constructor
      · rintro ⟨k, hk, rfl⟩
        have hk2 : 2 ≤ k := by omega
        obtain ⟨j, rfl⟩ : ∃ j, k = j + 1 := ⟨k - 1, by omega⟩
        refine ⟨j, ?_, ?_⟩
        · push_cast at hk
          linarith
        · push_cast
          ring
      · rintro ⟨k, hk, rfl⟩
        refine ⟨k + 1, ?_, ?_⟩
        · push_cast at hpW ⊢
          have hfl := Int.floor_le (fmodf ((w : ℚ) / 2) 64)
          have hf0q : (0 : ℚ) ≤ (⌊fmodf ((w : ℚ) / 2) 64⌋ : ℚ) := by exact_mod_cast hf0
          rcases eq_or_lt_of_le hf0q with hzero | hpos
          · -- the floored remainder is zero: the canvas width is not a multiple of 64
            have hlt : 64 * ((k : ℚ) - 1) ≠ (w : ℚ) := by
              intro heq
              apply hz
              have hint : fmodf ((w : ℚ) / 2) 64
                  = ((32 * ((k : ℤ) - 1) - ⌊(w : ℚ) / 2 / 64⌋ * 64 : ℤ) : ℚ) := by
                rw [e0, ← heq]
                push_cast
                ring
              have hfloor : ⌊fmodf ((w : ℚ) / 2) 64⌋
                  = 32 * ((k : ℤ) - 1) - ⌊(w : ℚ) / 2 / 64⌋ * 64 := by
                rw [hint, Int.floor_intCast]
              rw [hint, ← hfloor]
              exact hzero.symm
            have hle : 64 * ((k : ℚ) - 1) ≤ (w : ℚ) := by linarith
            have := lt_of_le_of_ne hle hlt
            linarith
          · linarith
        · push_cast
          ring

/-- Witness for C10, amended: a canvas of 100 by 100 pixels; the position `50` lies inside
the canvas and is a major line for both cameras or for neither. -/
theorem Draw2DGrid_camera_shift_witness :
    (GridInputs ⟨0, 0⟩ ⟨100, 100⟩ 1 ∧ (⟨100, 100⟩ : ImVec2).x = ((100 : ℤ) : ℚ) ∧
      |(100 : ℤ)| ≤ 2 ^ 22 ∧ (0 : ℤ) ≤ 50 ∧ ((50 : ℤ) : ℚ) ≤ (⟨100, 100⟩ : ImVec2).x) ∧
    ∃ N, ∀ fuel, N ≤ fuel →
      ∃ columns0 columns64,
        majorColumns fuel ⟨0, 0⟩ ⟨100, 100⟩ 1 = .ok columns0 ∧
        majorColumns fuel ⟨64, 0⟩ ⟨100, 100⟩ 1 = .ok columns64 ∧
        (∀ p ∈ columns64, ∀ q ∈ columns0, (64 : ℤ) ∣ p - q) ∧
        ((50 : ℤ) ∈ columns64 ↔ (50 : ℤ) ∈ columns0) :=
  have hin : GridInputs ⟨0, 0⟩ ⟨100, 100⟩ 1 :=
    ⟨inRange_zero, inRange_zero, inRange_ofNat 100 (by norm_num),
      inRange_ofNat 100 (by norm_num), inRange_one, by norm_num⟩
  ⟨⟨hin, by norm_num, by norm_num, by norm_num, by norm_num⟩,
    match (Draw2DGrid_camera_shift ⟨100, 100⟩ 100 hin (by norm_num) (by norm_num)).2.2 with
    | ⟨N, h⟩ => ⟨N, fun fuel hfuel =>
      match h fuel hfuel with
      | ⟨columns0, columns64, h1, h2, h3, h4⟩ =>
        ⟨columns0, columns64, h1, h2, h3, h4 50 (by norm_num) (by norm_num)⟩⟩⟩

theorem DockBuilderSplitNode_eq (ctx : DockContext) (node_id gen : Nat) (node : DockNode)
    (dir : ImGuiDir) (ratio : ℚ) (hnode : DockBuilderGetNode ctx node_id = some node)
    (hgen : DockContextGenNodeID ctx = gen) :
    DockBuilderSplitNode ctx node_id dir ratio =
      (gen, gen + 1,
        (ctx.map fun n => if n.id = node_id then { n with isSplit := true } else n) ++
          [⟨gen, (splitRect node.pos node.size dir ratio).1.1,
              (splitRect node.pos node.size dir ratio).1.2, [], false⟩,
            ⟨gen + 1, (splitRect node.pos node.size dir ratio).2.1,
              (splitRect node.pos node.size dir ratio).2.2, [], false⟩]) := by
  unfold DockBuilderSplitNode
  rw [hnode, hgen]

theorem BeginDockSpace_nodes (d : Nat) (S : ImVec2) :
    BeginDockSpace d S [] =
      [⟨d, ⟨0, 0⟩, S, [], true⟩,
        ⟨d + 1, ⟨0, S.y * (1 - 2 / 10)⟩, ⟨S.x, S.y * (2 / 10)⟩,
          [" Console###console", " Profiler###profiler"], false⟩,
        ⟨d + 2, ⟨0, 0⟩, ⟨S.x, S.y * (1 - 2 / 10)⟩, [], true⟩,
        ⟨d + 3, ⟨0, 0⟩, ⟨S.x * (2 / 10), S.y * (1 - 2 / 10)⟩,
          [" Hierarchy###hierarchy", "Dear ImGui Demo", "GraphicsInfo"], false⟩,
        ⟨d + 4, ⟨0 + S.x * (2 / 10), 0⟩, ⟨S.x * (1 - 2 / 10), S.y * (1 - 2 / 10)⟩, [], true⟩,
        ⟨d + 5, ⟨0 + S.x * (2 / 10) + S.x * (1 - 2 / 10) * (1 - 3 / 10), 0⟩,
          ⟨S.x * (1 - 2 / 10) * (3 / 10), S.y * (1 - 2 / 10)⟩,
          [" Inspector###inspector"], false⟩,
        ⟨d + 6, ⟨0 + S.x * (2 / 10), 0⟩,
          ⟨S.x * (1 - 2 / 10) * (1 - 3 / 10), S.y * (1 - 2 / 10)⟩, [], true⟩,
        ⟨d + 7, ⟨0 + S.x * (2 / 10) + S.x * (1 - 2 / 10) * (1 - 3 / 10) * (1 - 8 / 10), 0⟩,
          ⟨S.x * (1 - 2 / 10) * (1 - 3 / 10) * (8 / 10), S.y * (1 - 2 / 10)⟩,
          [" Scene###scene"], false⟩,
        ⟨d + 8, ⟨0 + S.x * (2 / 10), 0⟩,
          ⟨S.x * (1 - 2 / 10) * (1 - 3 / 10) * (1 - 8 / 10), S.y * (1 - 2 / 10)⟩,
          [], false⟩] := by
  have h0 : DockBuilderSetNodeSize (DockBuilderAddNode (DockBuilderRemoveNode [] d) d) d S
      = [⟨d, ⟨0, 0⟩, S, [], false⟩] := by
    simp [DockBuilderSetNodeSize, DockBuilderAddNode, DockBuilderRemoveNode]
  have h1 : DockBuilderSplitNode [⟨d, ⟨0, 0⟩, S, [], false⟩] d .Down (2 / 10) =
      (d + 1, d + 2, [⟨d, ⟨0, 0⟩, S, [], true⟩,
        ⟨d + 1, ⟨0, S.y * (1 - 2 / 10)⟩, ⟨S.x, S.y * (2 / 10)⟩, [], false⟩,
        ⟨d + 2, ⟨0, 0⟩, ⟨S.x, S.y * (1 - 2 / 10)⟩, [], false⟩]) := by
    rw [DockBuilderSplitNode_eq _ d (d + 1) ⟨d, ⟨0, 0⟩, S, [], false⟩]
    · simp [splitRect]
    · simp [DockBuilderGetNode]
    · simp [DockContextGenNodeID]
  have h2 : DockBuilderSplitNode [⟨d, ⟨0, 0⟩, S, [], true⟩,
        ⟨d + 1, ⟨0, S.y * (1 - 2 / 10)⟩, ⟨S.x, S.y * (2 / 10)⟩, [], false⟩,
        ⟨d + 2, ⟨0, 0⟩, ⟨S.x, S.y * (1 - 2 / 10)⟩, [], false⟩] (d + 2) .Left (2 / 10) =
      (d + 3, d + 4, [⟨d, ⟨0, 0⟩, S, [], true⟩,
        ⟨d + 1, ⟨0, S.y * (1 - 2 / 10)⟩, ⟨S.x, S.y * (2 / 10)⟩, [], false⟩,
        ⟨d + 2, ⟨0, 0⟩, ⟨S.x, S.y * (1 - 2 / 10)⟩, [], true⟩,
        ⟨d + 3, ⟨0, 0⟩, ⟨S.x * (2 / 10), S.y * (1 - 2 / 10)⟩, [], false⟩,
        ⟨d + 4, ⟨0 + S.x * (2 / 10), 0⟩, ⟨S.x * (1 - 2 / 10), S.y * (1 - 2 / 10)⟩, [],
          false⟩]) := by
    rw [DockBuilderSplitNode_eq _ (d + 2) (d + 3)
      ⟨d + 2, ⟨0, 0⟩, ⟨S.x, S.y * (1 - 2 / 10)⟩, [], false⟩]
    · simp [splitRect]
    · simp [DockBuilderGetNode]
    · simp [DockContextGenNodeID]
  have h3 : DockBuilderSplitNode [⟨d, ⟨0, 0⟩, S, [], true⟩,
        ⟨d + 1, ⟨0, S.y * (1 - 2 / 10)⟩, ⟨S.x, S.y * (2 / 10)⟩, [], false⟩,
        ⟨d + 2, ⟨0, 0⟩, ⟨S.x, S.y * (1 - 2 / 10)⟩, [], true⟩,
        ⟨d + 3, ⟨0, 0⟩, ⟨S.x * (2 / 10), S.y * (1 - 2 / 10)⟩, [], false⟩,
        ⟨d + 4, ⟨0 + S.x * (2 / 10), 0⟩, ⟨S.x * (1 - 2 / 10), S.y * (1 - 2 / 10)⟩, [],
          false⟩] (d + 4) .Right (3 / 10) =
      (d + 5, d + 6, [⟨d, ⟨0, 0⟩, S, [], true⟩,
        ⟨d + 1, ⟨0, S.y * (1 - 2 / 10)⟩, ⟨S.x, S.y * (2 / 10)⟩, [], false⟩,
        ⟨d + 2, ⟨0, 0⟩, ⟨S.x, S.y * (1 - 2 / 10)⟩, [], true⟩,
        ⟨d + 3, ⟨0, 0⟩, ⟨S.x * (2 / 10), S.y * (1 - 2 / 10)⟩, [], false⟩,
        ⟨d + 4, ⟨0 + S.x * (2 / 10), 0⟩, ⟨S.x * (1 - 2 / 10), S.y * (1 - 2 / 10)⟩, [], true⟩,
        ⟨d + 5, ⟨0 + S.x * (2 / 10) + S.x * (1 - 2 / 10) * (1 - 3 / 10), 0⟩,
          ⟨S.x * (1 - 2 / 10) * (3 / 10), S.y * (1 - 2 / 10)⟩, [], false⟩,
        ⟨d + 6, ⟨0 + S.x * (2 / 10), 0⟩,
          ⟨S.x * (1 - 2 / 10) * (1 - 3 / 10), S.y * (1 - 2 / 10)⟩, [], false⟩]) := by
    rw [DockBuilderSplitNode_eq _ (d + 4) (d + 5)
      ⟨d + 4, ⟨0 + S.x * (2 / 10), 0⟩, ⟨S.x * (1 - 2 / 10), S.y * (1 - 2 / 10)⟩, [], false⟩]
    · simp [splitRect]
    · simp [DockBuilderGetNode]
    · simp [DockContextGenNodeID]
  have h4 : DockBuilderSplitNode [⟨d, ⟨0, 0⟩, S, [], true⟩,
        ⟨d + 1, ⟨0, S.y * (1 - 2 / 10)⟩, ⟨S.x, S.y * (2 / 10)⟩, [], false⟩,
        ⟨d + 2, ⟨0, 0⟩, ⟨S.x, S.y * (1 - 2 / 10)⟩, [], true⟩,
        ⟨d + 3, ⟨0, 0⟩, ⟨S.x * (2 / 10), S.y * (1 - 2 / 10)⟩, [], false⟩,
        ⟨d + 4, ⟨0 + S.x * (2 / 10), 0⟩, ⟨S.x * (1 - 2 / 10), S.y * (1 - 2 / 10)⟩, [], true⟩,
        ⟨d + 5, ⟨0 + S.x * (2 / 10) + S.x * (1 - 2 / 10) * (1 - 3 / 10), 0⟩,
          ⟨S.x * (1 - 2 / 10) * (3 / 10), S.y * (1 - 2 / 10)⟩, [], false⟩,
        ⟨d + 6, ⟨0 + S.x * (2 / 10), 0⟩,
          ⟨S.x * (1 - 2 / 10) * (1 - 3 / 10), S.y * (1 - 2 / 10)⟩, [], false⟩]
        (d + 6) .Right (8 / 10) =
      (d + 7, d + 8, [⟨d, ⟨0, 0⟩, S, [], true⟩,
        ⟨d + 1, ⟨0, S.y * (1 - 2 / 10)⟩, ⟨S.x, S.y * (2 / 10)⟩, [], false⟩,
        ⟨d + 2, ⟨0, 0⟩, ⟨S.x, S.y * (1 - 2 / 10)⟩, [], true⟩,
        ⟨d + 3, ⟨0, 0⟩, ⟨S.x * (2 / 10), S.y * (1 - 2 / 10)⟩, [], false⟩,
        ⟨d + 4, ⟨0 + S.x * (2 / 10), 0⟩, ⟨S.x * (1 - 2 / 10), S.y * (1 - 2 / 10)⟩, [], true⟩,
        ⟨d + 5, ⟨0 + S.x * (2 / 10) + S.x * (1 - 2 / 10) * (1 - 3 / 10), 0⟩,
          ⟨S.x * (1 - 2 / 10) * (3 / 10), S.y * (1 - 2 / 10)⟩, [], false⟩,
        ⟨d + 6, ⟨0 + S.x * (2 / 10), 0⟩,
          ⟨S.x * (1 - 2 / 10) * (1 - 3 / 10), S.y * (1 - 2 / 10)⟩, [], true⟩,
        ⟨d + 7, ⟨0 + S.x * (2 / 10) + S.x * (1 - 2 / 10) * (1 - 3 / 10) * (1 - 8 / 10), 0⟩,
          ⟨S.x * (1 - 2 / 10) * (1 - 3 / 10) * (8 / 10), S.y * (1 - 2 / 10)⟩, [], false⟩,
        ⟨d + 8, ⟨0 + S.x * (2 / 10), 0⟩,
          ⟨S.x * (1 - 2 / 10) * (1 - 3 / 10) * (1 - 8 / 10), S.y * (1 - 2 / 10)⟩,
          [], false⟩]) := by
    rw [DockBuilderSplitNode_eq _ (d + 6) (d + 7)
      ⟨d + 6, ⟨0 + S.x * (2 / 10), 0⟩,
        ⟨S.x * (1 - 2 / 10) * (1 - 3 / 10), S.y * (1 - 2 / 10)⟩, [], false⟩]
    · simp [splitRect]
    · simp [DockBuilderGetNode]
    · simp [DockContextGenNodeID]
  unfold BeginDockSpace
  rw [if_pos (show DockBuilderGetNode [] d = none from rfl)]
  simp only []
  rw [h0]
  simp only [h1, h2, h3, h4]
  simp [DockBuilderDockWindow, DockBuilderFinish]

/-- Counterexample for C11: on a display of 1000 by 500 pixels the scene view is docked
into a node 448 pixels wide, while the rest of the dock space beside the left column (200)
and the right column (240) is 560 pixels wide; the other 112 pixels belong to a fifth leaf
node into which no window is docked. -/
theorem BeginDockSpace_scene_not_rest :
    dockLeaves (BeginDockSpace 7 ⟨1000, 500⟩ []) =
      [⟨8, ⟨0, 400⟩, ⟨1000, 100⟩, [" Console###console", " Profiler###profiler"], false⟩,
        ⟨10, ⟨0, 0⟩, ⟨200, 400⟩,
          [" Hierarchy###hierarchy", "Dear ImGui Demo", "GraphicsInfo"], false⟩,
        ⟨12, ⟨760, 0⟩, ⟨240, 400⟩, [" Inspector###inspector"], false⟩,
        ⟨14, ⟨312, 0⟩, ⟨448, 400⟩, [" Scene###scene"], false⟩,
        ⟨15, ⟨200, 0⟩, ⟨112, 400⟩, [], false⟩] ∧
      (448 : ℚ) ≠ 1000 - 200 - 240 := by
  refine ⟨?_, by norm_num⟩
  rw [BeginDockSpace_nodes]
  simp [dockLeaves]
  norm_num

/-- C11, amended: when no layout exists yet (an empty dock context), `BeginDockSpace`
builds five leaf nodes: a bottom strip of 20% of the dock space height (console,
profiler); a left column of 20% of the remaining width (hierarchy, demo, graphics info); a right column of 30% of the width
remaining after the left split (inspector); a node of 80% of the width remaining after the
right split, into which the scene view is docked; and a node with the other 20% of that
width, next to the left column, into which no window is docked. When the dock space node
exists already nothing is built. -/
theorem BeginDockSpace_layout (dockspace_id : Nat) (DisplaySize : ImVec2) :
    dockLeaves (BeginDockSpace dockspace_id DisplaySize []) =
      [⟨dockspace_id + 1, ⟨0, DisplaySize.y - DisplaySize.y * (2 / 10)⟩,
          ⟨DisplaySize.x, DisplaySize.y * (2 / 10)⟩,
          [" Console###console", " Profiler###profiler"], false⟩,
        ⟨dockspace_id + 3, ⟨0, 0⟩,
          ⟨DisplaySize.x * (2 / 10), DisplaySize.y - DisplaySize.y * (2 / 10)⟩,
          [" Hierarchy###hierarchy", "Dear ImGui Demo", "GraphicsInfo"], false⟩,
        ⟨dockspace_id + 5,
          ⟨DisplaySize.x - (DisplaySize.x - DisplaySize.x * (2 / 10)) * (3 / 10), 0⟩,
          ⟨(DisplaySize.x - DisplaySize.x * (2 / 10)) * (3 / 10),
            DisplaySize.y - DisplaySize.y * (2 / 10)⟩,
          [" Inspector###inspector"], false⟩,
        ⟨dockspace_id + 7,
          ⟨DisplaySize.x * (2 / 10) +
            (DisplaySize.x - DisplaySize.x * (2 / 10) -
              (DisplaySize.x - DisplaySize.x * (2 / 10)) * (3 / 10)) * (2 / 10), 0⟩,
          ⟨(DisplaySize.x - DisplaySize.x * (2 / 10) -
              (DisplaySize.x - DisplaySize.x * (2 / 10)) * (3 / 10)) * (8 / 10),
            DisplaySize.y - DisplaySize.y * (2 / 10)⟩,
          [" Scene###scene"], false⟩,
        ⟨dockspace_id + 8, ⟨DisplaySize.x * (2 / 10), 0⟩,
          ⟨(DisplaySize.x - DisplaySize.x * (2 / 10) -
              (DisplaySize.x - DisplaySize.x * (2 / 10)) * (3 / 10)) * (2 / 10),
            DisplaySize.y - DisplaySize.y * (2 / 10)⟩,
          [], false⟩] ∧
      ∀ ctx : DockContext, DockBuilderGetNode ctx dockspace_id ≠ none →
        BeginDockSpace dockspace_id DisplaySize ctx = ctx := by
  constructor
  · rw [BeginDockSpace_nodes]
    simp only [dockLeaves, List.filter, Bool.not_true, Bool.not_false]
    simp only [List.cons.injEq, DockNode.mk.injEq, ImVec2.mk.injEq, true_and, and_true]
    repeat' constructor
    all_goals ring
  · intro ctx h
    unfold BeginDockSpace
    rw [if_neg h]

/-- Witness for C11, amended: a display of 1000 by 500 pixels; and a context in which the
dock space node exists, which is left as it is. -/
theorem BeginDockSpace_layout_witness :
    DockBuilderGetNode [⟨7, ⟨0, 0⟩, ⟨1000, 500⟩, [], false⟩] 7 ≠ none ∧
    ((dockLeaves (BeginDockSpace 7 ⟨1000, 500⟩ [])).map DockNode.windows =
        [[" Console###console", " Profiler###profiler"],
          [" Hierarchy###hierarchy", "Dear ImGui Demo", "GraphicsInfo"],
          [" Inspector###inspector"], [" Scene###scene"], []]) ∧
    BeginDockSpace 7 ⟨1000, 500⟩ [⟨7, ⟨0, 0⟩, ⟨1000, 500⟩, [], false⟩]
      = [⟨7, ⟨0, 0⟩, ⟨1000, 500⟩, [], false⟩] :=
  have h : DockBuilderGetNode [⟨7, ⟨0, 0⟩, ⟨1000, 500⟩, [], false⟩] 7 ≠ none := by
    simp [DockBuilderGetNode]
  ⟨h, by rw [(BeginDockSpace_layout 7 ⟨1000, 500⟩).1]; rfl,
    (BeginDockSpace_layout 7 ⟨1000, 500⟩).2 _ h⟩

/-! ## Scene tree balance theorems -/

theorem treeStack_append (w1 w2 : List GuiCall) :
    ∀ s, treeStack (w1 ++ w2) s = (treeStack w1 s).bind (treeStack w2) := by
  induction w1 with
  | nil =>
    intro s
    rfl
  | cons c w ih =>
    intro s
    cases c with
    | TreeNodeEx node nodeFlags nodeOpen =>
      cases nodeOpen <;> simp [treeStack, ih]
    | TreePop =>
      cases s <;> simp [treeStack, ih]
    | DrawNode node => simp [treeStack, ih]
    | SetDragDropPayload node => simp [treeStack, ih]
    | AddChild node entity => simp [treeStack, ih]

theorem Balanced.nil : Balanced [] := ⟨fun _ => rfl, rfl⟩

theorem Balanced.append {w1 w2 : List GuiCall} (h1 : Balanced w1) (h2 : Balanced w2) :
    Balanced (w1 ++ w2) := by
  refine ⟨fun s => ?_, ?_⟩
  · rw [treeStack_append, h1.1 s]
    exact h2.1 s
  · rw [List.countP_append, List.countP_append, h1.2, h2.2]

theorem Balanced.dragDrop {extras : List GuiCall}
    (h : ∀ c ∈ extras, GuiCall.isDragDrop c = true) : Balanced extras := by
  induction extras with
  | nil => exact Balanced.nil
  | cons c w ih =>
    have hc := h c (List.mem_cons_self c w)
    have hw := ih (fun c1 hc1 => h c1 (List.mem_cons_of_mem c hc1))
    cases c with
    | TreeNodeEx node nodeFlags nodeOpen => simp [GuiCall.isDragDrop] at hc
    | TreePop => simp [GuiCall.isDragDrop] at hc
    | DrawNode node => simp [GuiCall.isDragDrop] at hc
    | SetDragDropPayload node =>
      refine ⟨fun s => ?_, ?_⟩
      · simp [treeStack, hw.1 s]
      · simp [List.countP_cons, GuiCall.isTreePop, GuiCall.isOpenRow, hw.2]
    | AddChild node entity =>
      refine ⟨fun s => ?_, ?_⟩
      · simp [treeStack, hw.1 s]
      · simp [List.countP_cons, GuiCall.isTreePop, GuiCall.isOpenRow, hw.2]

theorem Balanced.visit (node : EntityId) {w : List GuiCall} (h : Balanced w) :
    Balanced (.DrawNode node :: w) := by
  refine ⟨fun s => ?_, ?_⟩
  · simp [treeStack, h.1 s]
  · simp [List.countP_cons, GuiCall.isTreePop, GuiCall.isOpenRow, h.2]

theorem Balanced.closedRow (node : EntityId) (nodeFlags : Nat) {w : List GuiCall}
    (h : Balanced w) : Balanced (.TreeNodeEx node nodeFlags false :: w) := by
  refine ⟨fun s => ?_, ?_⟩
  · simp [treeStack, h.1 s]
  · simp [List.countP_cons, GuiCall.isTreePop, GuiCall.isOpenRow, h.2]

theorem Balanced.openRow (node : EntityId) (nodeFlags : Nat) {w : List GuiCall}
    (h : Balanced w) : Balanced (.TreeNodeEx node nodeFlags true :: (w ++ [.TreePop])) := by
  refine ⟨fun s => ?_, ?_⟩
  · simp [treeStack, treeStack_append, h.1 (node :: s)]
  · simp [List.countP_cons, List.countP_append, GuiCall.isTreePop, GuiCall.isOpenRow, h.2]

theorem DragDropTarget_calls (answer : TreeRowAnswer) (node : EntityId) (f g : Frame)
    (h : DragDropTarget answer node f = .ok g) :
    ∃ extras, g.calls = f.calls ++ extras ∧ ∀ c ∈ extras, GuiCall.isDragDrop c = true := by
  unfold DragDropTarget at h
  by_cases ht : answer.dropTarget = true
  · rw [if_pos ht] at h
    cases hp : answer.payload with
    | none =>
      rw [hp] at h
      cases h
      exact ⟨[], by simp, by simp⟩
    | some payload =>
      rw [hp] at h
      simp only [] at h
      by_cases hs : payload.DataSize = sizeofEntityPtr
      · rw [if_pos hs] at h
        by_cases hsel : (f.call (.AddChild node payload.Data)).m_Selected = some payload.Data
        · rw [if_pos hsel] at h
          cases h
          exact ⟨[.AddChild node payload.Data], rfl, by simp [GuiCall.isDragDrop]⟩
        · rw [if_neg hsel] at h
          cases h
          exact ⟨[.AddChild node payload.Data], rfl, by simp [GuiCall.isDragDrop]⟩
      · rw [if_neg hs] at h
        cases h
  · rw [if_neg ht] at h
    cases h
    exact ⟨[], by simp, by simp⟩

theorem DrawNodeRow_calls (gui : Nat → TreeRowAnswer) (node : EntityId) (f g : Frame)
    (nodeOpen : Bool) (h : DrawNodeRow gui node f = .ok (g, nodeOpen)) :
    ∃ nodeFlags extras, g.calls = f.calls ++ (.TreeNodeEx node nodeFlags nodeOpen :: extras) ∧
      ∀ c ∈ extras, GuiCall.isDragDrop c = true := by
  unfold DrawNodeRow at h
  simp only [] at h
  generalize hfl : (if (f.scene.GetChildren node).isEmpty = true then
      (if f.m_Selected = some node then ImGuiTreeNodeFlags_Selected else 0) |||
        (ImGuiTreeNodeFlags_OpenOnArrow ||| ImGuiTreeNodeFlags_OpenOnDoubleClick) |||
        ImGuiTreeNodeFlags_Leaf
      else (if f.m_Selected = some node then ImGuiTreeNodeFlags_Selected else 0) |||
        (ImGuiTreeNodeFlags_OpenOnArrow ||| ImGuiTreeNodeFlags_OpenOnDoubleClick)) = nodeFlags
      at h
  generalize hf1 : ({ f.call (.TreeNodeEx node nodeFlags (gui f.rows).nodeOpen) with
      rows := f.rows + 1 } : Frame) = f1 at h
  have h1 : f1.calls = f.calls ++ [.TreeNodeEx node nodeFlags (gui f.rows).nodeOpen] := by
    rw [← hf1]
    rfl
  obtain ⟨w2, h2, hd2⟩ : ∃ w2, (if (gui f.rows).dragSource = true
      then f1.call (.SetDragDropPayload node) else f1).calls = f1.calls ++ w2 ∧
      ∀ c ∈ w2, GuiCall.isDragDrop c = true := by
    by_cases hd : (gui f.rows).dragSource = true
    · rw [if_pos hd]
      exact ⟨[.SetDragDropPayload node], rfl, by simp [GuiCall.isDragDrop]⟩
    · rw [if_neg hd]
      exact ⟨[], by simp, by simp⟩
  generalize hf2 : (if (gui f.rows).dragSource = true then f1.call (.SetDragDropPayload node)
      else f1) = f2 at h h2
  cases hdrop : DragDropTarget (gui f.rows) node f2 with
  | error e =>
    rw [hdrop] at h
    cases h
  | ok f3 =>
    rw [hdrop] at h
    obtain ⟨w3, h3, hd3⟩ := DragDropTarget_calls _ node _ f3 hdrop
    simp only [Except.ok.injEq, Prod.mk.injEq] at h
    obtain ⟨hg, ho⟩ := h
    refine ⟨nodeFlags, w2 ++ w3, ?_, ?_⟩
    · have hcalls : g.calls = f3.calls := by
        rw [← hg]
        by_cases hc : (gui f.rows).clicked = true
        · rw [if_pos hc]
        · rw [if_neg hc]
      rw [hcalls, h3, h2, h1, ← ho]
      simp
    · intro c hc
      rcases List.mem_append.1 hc with hc | hc
      · exact hd2 c hc
      · exact hd3 c hc

theorem forChildren_balanced (body : EntityId → Frame → Except Fault Frame)
    (hbody : ∀ c h k, body c h = .ok k → ∃ w, k.calls = h.calls ++ w ∧ Balanced w) :
    ∀ (l : List EntityId) (g k : Frame), forChildren body l g = .ok k →
      ∃ w, k.calls = g.calls ++ w ∧ Balanced w := by
  intro l
  induction l with
  | nil =>
    intro g k h
    cases h
    exact ⟨[], by simp, Balanced.nil⟩
  | cons c rest ih =>
    intro g k h
    rw [forChildren] at h
    cases hc : body c g with
    | error e =>
      rw [hc] at h
      cases h
    | ok g1 =>
      rw [hc] at h
      simp only [] at h
      obtain ⟨w1, he1, hb1⟩ := hbody c g g1 hc
      obtain ⟨w2, he2, hb2⟩ := ih g1 k h
      exact ⟨w1 ++ w2, by rw [he2, he1, List.append_assoc], hb1.append hb2⟩

/-- The calls of one call of `DrawNode` on `node`: the marker of the visit, then nothing
but the calls of the children when the node fails the filter; a closed row followed by
drag and drop calls only; or an open row, its drag and drop calls, the balanced calls of
the children and the `TreePop` of the row. -/
theorem DrawNode_trace (gui : Nat → TreeRowAnswer) :
    ∀ (fuel : Nat) (node : EntityId) (f g : Frame),
      DrawNode gui fuel (some node) f = .ok g →
      ∃ w, g.calls = f.calls ++ w ∧
        ((f.fails node ∧ ∃ kids, w = .DrawNode node :: kids ∧ Balanced kids) ∨
          (∃ nodeFlags extras, w = .DrawNode node :: .TreeNodeEx node nodeFlags false :: extras ∧
            ∀ c ∈ extras, GuiCall.isDragDrop c = true) ∨
          (∃ nodeFlags extras kids,
            w = .DrawNode node :: .TreeNodeEx node nodeFlags true ::
              (extras ++ kids ++ [.TreePop]) ∧
            (∀ c ∈ extras, GuiCall.isDragDrop c = true) ∧ Balanced kids)) := by
  intro fuel
  induction fuel with
  | zero =>
    intro node f g h
    cases h
  | succ fuel ih =>
    intro node f g h
    have hkids : ∀ (l : List EntityId) (g1 k : Frame),
        forChildren (fun child acc => DrawNode gui fuel (some child) acc) l g1 = .ok k →
        ∃ w, k.calls = g1.calls ++ w ∧ Balanced w := by
      apply forChildren_balanced
      intro c h1 k hk
      obtain ⟨w, hw, hshape⟩ := ih c h1 k hk
      refine ⟨w, hw, ?_⟩
      rcases hshape with ⟨_, kids, rfl, hb⟩ | ⟨nodeFlags, extras, rfl, hd⟩ |
        ⟨nodeFlags, extras, kids, rfl, hd, hb⟩
      · exact hb.visit c
      · exact ((Balanced.dragDrop hd).closedRow c nodeFlags).visit c
      · have := ((Balanced.dragDrop hd).append hb).openRow c nodeFlags
        exact this.visit c
    rw [DrawNode] at h
    have hfails0 : ∀ n, (f.call (.DrawNode node)).fails n ↔ f.fails n :=
      (Frame.extends_call f _ (fun _ _ _ hc => by cases hc)).fails_iff
    by_cases hn : f.fails node
    · have hn0 : (f.call (.DrawNode node)).fails node := (hfails0 node).2 hn
      rw [DrawNode_show_of_fails hn0] at h
      simp only [Bool.false_eq_true, if_false] at h
      obtain ⟨w, hw, hb⟩ := hkids _ _ _ h
      refine ⟨.DrawNode node :: w, ?_, Or.inl ⟨hn, w, rfl, hb⟩⟩
      rw [hw]
      simp [Frame.call]
    · have hn0 : ¬ (f.call (.DrawNode node)).fails node := fun hf => hn ((hfails0 node).1 hf)
      rw [DrawNode_show_of_not_fails hn0] at h
      simp only [if_true] at h
      cases hrow : DrawNodeRow gui node (f.call (.DrawNode node)) with
      | error e =>
        rw [hrow] at h
        cases h
      | ok res =>
        obtain ⟨f1, nodeOpen⟩ := res
        rw [hrow] at h
        simp only [] at h
        obtain ⟨nodeFlags, extras, hcalls1, hd⟩ := DrawNodeRow_calls gui node _ f1 nodeOpen hrow
        by_cases ho : nodeOpen = false
        · rw [if_pos ho] at h
          cases h
          subst ho
          refine ⟨.DrawNode node :: .TreeNodeEx node nodeFlags false :: extras, ?_,
            Or.inr (Or.inl ⟨nodeFlags, extras, rfl, hd⟩)⟩
          rw [hcalls1]
          simp [Frame.call]
        · rw [if_neg ho] at h
          have ho1 : nodeOpen = true := by
            cases nodeOpen
            · exact absurd rfl ho
            · rfl
          subst ho1
          cases hch : forChildren (fun child acc => DrawNode gui fuel (some child) acc)
              (f1.scene.GetChildren node) f1 with
          | error e =>
            rw [hch] at h
            cases h
          | ok f2 =>
            rw [hch] at h
            cases h
            obtain ⟨kids, hk, hb⟩ := hkids _ _ _ hch
            refine ⟨.DrawNode node :: .TreeNodeEx node nodeFlags true ::
              (extras ++ kids ++ [.TreePop]), ?_,
              Or.inr (Or.inr ⟨nodeFlags, extras, kids, rfl, hd, hb⟩)⟩
            show f2.calls ++ [GuiCall.TreePop] = _
            rw [hk, hcalls1]
            simp [Frame.call]

/-- C14: in every frame of `DrawNode` that returns, whatever the filter and the answers
to the tree rows, the calls `w` of the frame hold as many `TreePop` calls as rows reported
open, and every `TreePop` pops the most recent open row that is not popped yet: the tree
stack never runs empty and ends as it started. The calls of a node start with the marker
of its visit and then are nothing but calls of its children (the node fails the filter),
or a closed row followed by drag and drop calls only (none of its descendants is visited),
or an open row, calls that leave the row on top of the stack, and the `TreePop` of that
row. The frame returns on every finite tree (entities ranked above their children) when
no payload is delivered in it. -/
theorem DrawNode_balanced (gui : Nat → TreeRowAnswer) (node : EntityId) (f : Frame) :
    (∀ (fuel : Nat) (g : Frame), DrawNode gui fuel (some node) f = .ok g →
      ∃ w, g.calls = f.calls ++ w ∧
        w.countP GuiCall.isTreePop = w.countP GuiCall.isOpenRow ∧
        (∀ s, treeStack w s = some s) ∧
        ((f.fails node ∧ ∃ kids, w = .DrawNode node :: kids ∧
            ∀ s, treeStack kids s = some s) ∨
          (∃ nodeFlags extras,
            w = .DrawNode node :: .TreeNodeEx node nodeFlags false :: extras ∧
            ∀ c ∈ extras, GuiCall.isDragDrop c = true) ∨
          (∃ nodeFlags mid,
            w = .DrawNode node :: .TreeNodeEx node nodeFlags true :: (mid ++ [.TreePop]) ∧
            ∀ s, treeStack mid (node :: s) = some (node :: s)))) ∧
    ((∀ i, (gui i).payload = none) →
      ∀ rank : EntityId → Nat,
        (∀ n child, child ∈ f.scene.GetChildren n → rank child < rank n) →
        ∀ fuel, rank node < fuel → ∃ g, DrawNode gui fuel (some node) f = .ok g) := by
  constructor
  · intro fuel g hrun
    obtain ⟨w, hw, hshape⟩ := DrawNode_trace gui fuel node f g hrun
    rcases hshape with ⟨hn, kids, rfl, hb⟩ | ⟨nodeFlags, extras, rfl, hd⟩ |
      ⟨nodeFlags, extras, kids, rfl, hd, hb⟩
    · exact ⟨_, hw, (hb.visit node).2, (hb.visit node).1, Or.inl ⟨hn, kids, rfl, hb.1⟩⟩
    · have hbal := ((Balanced.dragDrop hd).closedRow node nodeFlags).visit node
      exact ⟨_, hw, hbal.2, hbal.1, Or.inr (Or.inl ⟨nodeFlags, extras, rfl, hd⟩)⟩
    · have hmid := (Balanced.dragDrop hd).append hb
      have hbal := (hmid.openRow node nodeFlags).visit node
      exact ⟨_, hw, hbal.2, hbal.1,
        Or.inr (Or.inr ⟨nodeFlags, extras ++ kids, rfl, fun s => hmid.1 (node :: s)⟩)⟩
  · intro hgui rank hrank fuel hfuel
    obtain ⟨g, hg, _⟩ := DrawNode_returns gui hgui f.scene rank hrank fuel node f hfuel rfl
    exact ⟨g, hg⟩

theorem sampleScene_ranked (n child : EntityId)
    (h : child ∈ sampleFrame.scene.GetChildren n) : sampleRank child < sampleRank n := by
  simp only [sampleFrame, sampleScene] at h
  by_cases h0 : n = 0
  · subst h0
    simp at h
    subst h
    decide
  · by_cases h1 : n = 1
    · subst h1
      simp at h
      subst h
      decide
    · simp [h0, h1] at h

/-- Witness for C14: the sample scene with every row open, drawn from the root: the root
fails the filter, the rows of entities `1` and `2` are opened and popped. -/
theorem DrawNode_balanced_witness :
    ((∀ i, (openRows i).payload = none) ∧
      (∀ n child, child ∈ sampleFrame.scene.GetChildren n → sampleRank child < sampleRank n)) ∧
    ∃ g, DrawNode openRows 3 (some 0) sampleFrame = .ok g ∧
      ∃ w, g.calls = sampleFrame.calls ++ w ∧
        w.countP GuiCall.isTreePop = w.countP GuiCall.isOpenRow ∧
        (∀ s, treeStack w s = some s) :=
  ⟨⟨fun _ => rfl, sampleScene_ranked⟩,
    match (DrawNode_balanced openRows 0 sampleFrame).2 (fun _ => rfl) sampleRank
        sampleScene_ranked 3 (by decide) with
    | ⟨g, hg⟩ =>
      match (DrawNode_balanced openRows 0 sampleFrame).1 3 g hg with
      | ⟨w, h1, h2, h3, _⟩ => ⟨g, hg, w, h1, h2, h3⟩⟩

end Lumos
